import Mathlib

/-!
Station revenue aggregation (`main.go`): a shallow embedding.

The program walks a directory of monthly settlement workbooks, reads per-station
revenue figures from two sheets of each workbook, accumulates them into nested
maps keyed by station code, year and month, and writes three report sheets.

Modelling conventions.

* A Go `string` is a Lean `String`; regular expressions and `filepath.Base` act on
  its list of characters (`\d` is the ASCII digits, the separator is `/`).
* A `float64` amount is the rational number it denotes.  `strconv.ParseFloat` is
  modelled on the strings that reach it (digits and dots), with its rounding to
  the nearest float64 and its range error.  The accumulation loop adds amounts
  exactly (its properties are stated in exact arithmetic); the totals of the summary
  sheet, which are added in the unspecified order of a `range`, are added with
  float64 rounding (`float64Add`).
* A Go map is a finite map with unique keys (`GoMap`).  The order in which `range`
  visits a map is not specified by the language: it is supplied by a `MapIter`,
  an arbitrary rearrangement of the entries.
* A run-time panic (slice or index out of range, write into a nil map) is the
  outcome `Res.panic` of a reading function and `none` of an accumulation step.
* A cell of an output sheet is addressed by (column number, row number):
  `A1` is `(1, 1)` and `excelize.ColumnNumberToName n` names column `n`.
-/

namespace Income

/-! ## Outcomes -/

deriving instance DecidableEq for Except

/-- Outcome of a Go call: a value, a returned `error`, or a run-time panic. -/
inductive Res (α : Type) where
  | ok (a : α)
  | err (msg : String)
  | panic
  deriving DecidableEq, Repr

/-- The call returned a value. -/
def Res.isOk {α : Type} : Res α → Bool
  | .ok _ => true
  | _ => false

/-! ## `cleanRevenueValue` -/

/-- Decimal value of a list of ASCII digits, most significant first. -/
def digitsVal (ds : List Char) : Nat :=
  ds.foldl (fun acc c => 10 * acc + (c.toNat - 48)) 0

/-- The character class `[^\d.]`: anything that is neither an ASCII digit nor a dot. -/
def notDigitDot (c : Char) : Bool := !(c.isDigit || c == '.')

/-- The call `Regexp.ReplaceAllString` for a pattern that is a single character class: each
matching character is a match of its own and is replaced by `repl`. -/
def replaceAllClass (cls : Char → Bool) (repl : List Char) : List Char → List Char
  | [] => []
  | c :: cs =>
    if cls c then repl ++ replaceAllClass cls repl cs
    else c :: replaceAllClass cls repl cs

/-! ### `strconv.ParseFloat` on digits and dots

`cleanRevenueValue` passes only strings of ASCII digits and dots to
`strconv.ParseFloat(s, 64)`.  On such a string the library scans digits with at most
one dot and at least one digit (anything else is a syntax error), and returns the
float64 nearest to the decimal value, rounding half to even, or a range error when
that rounding leaves the float64 range.  A float64 value is kept as the rational
number it denotes. -/

/-- The scanning loop of `ParseFloat` (`readFloat`) on the remaining characters:
`sawdot` tells whether the dot has been met, `ds` are the digits read so far and
`nfrac` how many of them follow the dot; `none` is a syntax error.  A character
other than a digit or a dot never occurs here and is rejected. -/
def scanFloat : List Char → Bool → List Char → Nat → Option (List Char × Nat)
  | [], _, ds, nfrac => if ds = [] then none else some (ds, nfrac)
  | c :: cs, sawdot, ds, nfrac =>
    if c = '.' then
      if sawdot = true then none else scanFloat cs true ds nfrac
    else if c.isDigit = true then
      scanFloat cs sawdot (ds ++ [c]) (if sawdot = true then nfrac + 1 else nfrac)
    else none

/-- The integer nearest to `N / D`, a tie going to the even one. -/
def roundHalfEven (N D : Nat) : Nat :=
  if 2 * (N % D) < D then N / D
  else if D < 2 * (N % D) then N / D + 1
  else if (N / D) % 2 = 0 then N / D
  else N / D + 1

/-- Number of binary digits of `n`, by halving at most `fuel` times. -/
def bitLength : Nat → Nat → Nat
  | 0, _ => 0
  | fuel + 1, n => if n = 0 then 0 else bitLength fuel (n / 2) + 1

/-- Whether `n / d < 2 ^ e`. -/
def ltPow2 (n d : Nat) (e : Int) : Bool :=
  if 0 ≤ e then decide (n < d <<< e.toNat) else decide (n <<< (-e).toNat < d)

/-- The binary exponent of `n / d` for positive `n` and `d`: the `e` with
`2 ^ e ≤ n / d < 2 ^ (e + 1)`. -/
def floorLog2 (n d : Nat) : Int :=
  if ltPow2 n d ((bitLength n n : Int) - (bitLength d d : Int)) = true then
    (bitLength n n : Int) - (bitLength d d : Int) - 1
  else (bitLength n n : Int) - (bitLength d d : Int)

/-- The exponent of the last mantissa bit of the float64 nearest to `n / d`: 52 below
the binary exponent, and -1074 in the subnormal range. -/
def float64Scale (n d : Nat) : Int := max (floorLog2 n d - 52) (-1074)

/-- The mantissa of the float64 nearest to `n / d`, in units of `2 ^ float64Scale`. -/
def float64Mantissa (n d : Nat) : Nat :=
  if 0 ≤ float64Scale n d then roundHalfEven n (d <<< (float64Scale n d).toNat)
  else roundHalfEven (n <<< (-float64Scale n d).toNat) d

/-- The float64 nearest to `n / d` (`d` positive), `none` when the rounded value
reaches `2 ^ 1024`, which is beyond the largest float64. -/
def roundFloat64 (n d : Nat) : Option ℚ :=
  if n = 0 then some 0
  else if 0 ≤ float64Scale n d ∧
      1 <<< 1024 ≤ float64Mantissa n d <<< (float64Scale n d).toNat then none
  else some ((float64Mantissa n d : ℚ) * (2 : ℚ) ^ float64Scale n d)

/-- The call `strconv.ParseFloat(s, 64)` for a string of ASCII digits and dots. -/
def parseFloat (s : String) : Except String ℚ :=
  match scanFloat s.data false [] 0 with
  | none => .error ("strconv.ParseFloat: parsing \"" ++ s ++ "\": invalid syntax")
  | some (ds, nfrac) =>
    match roundFloat64 (digitsVal ds) (10 ^ nfrac) with
    | none => .error ("strconv.ParseFloat: parsing \"" ++ s ++ "\": value out of range")
    | some r => .ok r

/-- The function `cleanRevenueValue` (main.go 16-23). -/
def cleanRevenueValue (value : String) : Except String ℚ :=
  let cleanedValue := String.mk (replaceAllClass notDigitDot [] value.data)
  if cleanedValue = "" then .ok 0
  else parseFloat cleanedValue

/-! ### Spec side of the cleaning -/

/-- The text `s` with every character other than an ASCII digit or a dot deleted. -/
def keptChars (s : String) : List Char :=
  s.data.filter (fun c => c.isDigit || c == '.')

/-- The text `t` is a decimal numeral with integer digits `ip` and fraction digits
`fp`: digits with at most one dot and at least one digit. -/
def Numeral (t ip fp : List Char) : Prop :=
  (∀ c ∈ ip, c.isDigit = true) ∧ (∀ c ∈ fp, c.isDigit = true) ∧ (ip ≠ [] ∨ fp ≠ []) ∧
    ((t = ip ∧ fp = []) ∨ t = ip ++ '.' :: fp)

/-- The value of the numeral with integer digits `ip` and fraction digits `fp`. -/
def numeralValue (ip fp : List Char) : ℚ :=
  (digitsVal (ip ++ fp) : ℚ) / 10 ^ fp.length

/-- The pair (`m`, `e`) represents `r` as a non-negative finite float64: a mantissa
below `2 ^ 53` times a power of two with exponent from -1074 to 971. -/
def Float64Rep (r : ℚ) (m : ℕ) (e : ℤ) : Prop :=
  m < 2 ^ 53 ∧ -1074 ≤ e ∧ e ≤ 971 ∧ r = (m : ℚ) * (2 : ℚ) ^ e

/-- The non-negative finite float64 values. -/
def IsFloat64 (r : ℚ) : Prop := ∃ (m : ℕ) (e : ℤ), Float64Rep r m e

/-- The value from which rounding leaves the float64 range: half a unit in the last
place above the largest float64, `2 ^ 1024 - 2 ^ 970`. -/
def float64Limit : ℚ := (2 : ℚ) ^ (1024 : ℕ) - (2 : ℚ) ^ (970 : ℕ)

/-- The float `r` is a float64 nearest to `q`, and when another float64 is equally
near, `r` is the one whose normalised mantissa is even. -/
def NearestFloat64 (q r : ℚ) : Prop :=
  IsFloat64 r ∧ (∀ f, IsFloat64 f → |q - r| ≤ |q - f|) ∧
    (∀ f, IsFloat64 f → f ≠ r → |q - f| = |q - r| →
      ∃ (m : ℕ) (e : ℤ), Float64Rep r m e ∧ m % 2 = 0 ∧ (2 ^ 52 ≤ m ∨ e = -1074))

/-- The natural number `m` is an integer nearest to `x`, and even when `x` is half
way between two integers. -/
def NearInt (x : ℚ) (m : ℕ) : Prop :=
  |x - m| ≤ 1 / 2 ∧ (|x - m| = 1 / 2 → m % 2 = 0)

/-- A numeral of 310 nines: well formed, and above every float64. -/
def hugeNumeral : String := String.mk (List.replicate 310 '9')

/-! ## `extractYearMonth` -/

/-- The function `filepath.Base` with `/` as the separator. -/
def filepathBase (path : List Char) : List Char :=
  if path = [] then ['.']
  else
    -- strip trailing slashes
    let p := (path.reverse.dropWhile (fun c => c == '/')).reverse
    -- keep what follows the last slash
    let last := (p.reverse.takeWhile (fun c => !(c == '/'))).reverse
    if last = [] then ['/'] else last

/-- The literal part of the file-name pattern, `区域结算单\(`. -/
def template : List Char := "区域结算单(".data

/-- The pattern `(\d{4})区域结算单\((\d{2})` anchored at the start of `s`: the two
capture groups when it matches. -/
def matchHere (s : List Char) : Option (List Char × List Char) :=
  let y := s.take 4
  let t := (s.drop 4).take template.length
  let m := ((s.drop 4).drop template.length).take 2
  if y.length = 4 ∧ y.all Char.isDigit = true ∧ t = template ∧
      m.length = 2 ∧ m.all Char.isDigit = true then some (y, m)
  else none

/-- The call `Regexp.FindStringSubmatch`: the capture groups of the leftmost match. -/
def findSubmatch : List Char → Option (List Char × List Char)
  | [] => matchHere []
  | c :: cs =>
    match matchHere (c :: cs) with
    | some r => some r
    | none => findSubmatch cs

/-- The call `strconv.Atoi` with its error dropped (`year, _ := strconv.Atoi(...)`): the value
of an optionally signed run of digits, 0 when the text is not a number. -/
def atoi (s : List Char) : Int :=
  let num (r : List Char) : Option Nat :=
    if r ≠ [] ∧ r.all Char.isDigit = true then some (digitsVal r) else none
  match s with
  | '-' :: r => match num r with
    | some n => -(n : Int)
    | none => 0
  | '+' :: r => match num r with
    | some n => (n : Int)
    | none => 0
  | r => match num r with
    | some n => (n : Int)
    | none => 0

/-- The function `extractYearMonth` (main.go 26-36). -/
def extractYearMonth (filePath : String) : Except String (Int × Int) :=
  let base := filepathBase filePath.data
  match findSubmatch base with
  | none => .error ("无法从文件名提取年份和月份: " ++ filePath)
  | some (y, m) => .ok (atoi y, atoi m)

/-- Spec side of the file-name pattern: `pre ++ y ++ "区域结算单(" ++ m ++ post` is a
decomposition of `base` with `y` four ASCII digits and `m` two ASCII digits. -/
def Occurrence (base pre y m post : List Char) : Prop :=
  base = pre ++ (y ++ (template ++ (m ++ post))) ∧
    y.length = 4 ∧ (∀ c ∈ y, c.isDigit = true) ∧
    m.length = 2 ∧ (∀ c ∈ m, c.isDigit = true)

/-! ## Go maps and `range` -/

/-- A Go `map[K]V`: a finite map with unique keys. -/
abbrev GoMap (K V : Type) := AList (fun _ : K => V)

/-- The order in which a `range` statement visits the entries of a map.  Go leaves it
unspecified, so it is an arbitrary rearrangement supplied from outside. -/
structure MapIter where
  order : {α : Type} → List α → List α
  perm : ∀ {α : Type} (l : List α), (order l).Perm l

/-- Visit the entries as they are stored. -/
def MapIter.stored : MapIter := ⟨fun l => l, fun l => List.Perm.refl l⟩

/-- Visit the entries in the reverse of the stored order. -/
def MapIter.reversed : MapIter := ⟨fun l => l.reverse, fun l => List.reverse_perm l⟩

/-- The (key, value) pairs of `for k, v := range m`, in visiting order. -/
def MapIter.range {K V : Type} (it : MapIter) (m : GoMap K V) : List (K × V) :=
  it.order (m.entries.map (fun e => (e.1, e.2)))

/-- The keys of `for k := range m`, in visiting order. -/
def MapIter.keys {K V : Type} (it : MapIter) (m : GoMap K V) : List K :=
  (it.range m).map Prod.fst

/-- The read `m[k]` of a `map[K]float64`: the zero value when the key is missing. -/
def getNum {K : Type} [DecidableEq K] (m : GoMap K ℚ) (k : K) : ℚ :=
  (m.lookup k).getD 0

/-- The read `m[a][b]` of a nested map: a missing (nil) inner map reads as zero. -/
def getNum2 {A B : Type} [DecidableEq A] [DecidableEq B]
    (m : GoMap A (GoMap B ℚ)) (a : A) (b : B) : ℚ :=
  match m.lookup a with
  | none => 0
  | some inner => getNum inner b

/-- The statement `m[code][year] += v`.  Writing into a nil inner map panics
(`none`). -/
def addAt (m : GoMap String (GoMap Int ℚ)) (code : String) (year : Int) (v : ℚ) :
    Option (GoMap String (GoMap Int ℚ)) :=
  match m.lookup code with
  | none => none
  | some inner => some (m.insert code (inner.insert year (getNum inner year + v)))

/-- Go slice expression `l[n:]`; out of range (`none`) when `n > len(l)`. -/
def sliceFrom {α : Type} (l : List α) (n : Nat) : Option (List α) :=
  if n ≤ l.length then some (l.drop n) else none

/-! ## Reading one workbook -/

/-- What `excelize` returns for a workbook: `GetRows` of each of the two sheets, `none`
when the sheet cannot be read. -/
structure Workbook where
  daily : Option (List (List String))
  subItem : Option (List (List String))

/-- A file met by the directory walk: its path and its content, `none` when
`excelize.OpenFile` fails. -/
structure InputFile where
  path : String
  book : Option Workbook

/-- The loop of `processDailySheet` (main.go 62-72), from index `i` on; the first
argument is `stationCodes[i:]`. -/
def dailyLoop (stationNames summaryRow : List String) :
    List String → Nat → GoMap String ℚ × GoMap String String →
      Res (GoMap String ℚ × GoMap String String)
  | [], _, acc => .ok acc
  | code :: rest, i, acc =>
    match summaryRow[i]? with
    | none => dailyLoop stationNames summaryRow rest (i + 1) acc
    | some cell =>
      match cleanRevenueValue cell with
      | .error _ => dailyLoop stationNames summaryRow rest (i + 1) acc
      | .ok revenue =>
        match stationNames[i]? with
        | none => .panic
        | some name =>
          dailyLoop stationNames summaryRow rest (i + 1)
            (acc.1.insert code revenue, acc.2.insert code name)

/-- The function `processDailySheet` (main.go 39-75): total revenue and station name per code. -/
def processDailySheet (f : InputFile) :
    Res (GoMap String ℚ × GoMap String String) :=
  match f.book with
  | none => .err "open"
  | some wb =>
    match wb.daily with
    | none => .err "sheet 收益每日明细"
    | some rows =>
      if rows.length < 4 then .err "文件行数不足"
      else
        match rows[2]? >>= (sliceFrom · 1), rows[3]? >>= (sliceFrom · 1),
            rows[rows.length - 1]? >>= (sliceFrom · 1) with
        | some stationNames, some stationCodes, some summaryRow =>
          dailyLoop stationNames summaryRow stationCodes 0 (∅, ∅)
        | _, _, _ => .panic

/-- One sub-item cell: the entry is set only when the cell parses. -/
def setSubItem (m : GoMap String ℚ) (key cell : String) :
    GoMap String ℚ :=
  match cleanRevenueValue cell with
  | .ok v => m.insert key v
  | .error _ => m

/-- The loop of `processSubItemSheet` (main.go 106-123), from index `i` on. -/
def subItemLoop (peakValleyRow efficiencyRow otherRow : List String) :
    List String → Nat → GoMap String (GoMap String ℚ) → Res (GoMap String (GoMap String ℚ))
  | [], _, subItems => .ok subItems
  | code :: rest, i, subItems =>
    match peakValleyRow[i]? with
    | none => .panic
    | some c1 =>
      match efficiencyRow[i]? with
      | none => .panic
      | some c2 =>
        match otherRow[i]? with
        | none => .panic
        | some c3 =>
          let m1 := setSubItem ∅ "削峰填谷收益" c1
          let m2 := setSubItem m1 "效率提升收益" c2
          let m3 := setSubItem m2 "其他收益" c3
          subItemLoop peakValleyRow efficiencyRow otherRow rest (i + 1)
            (subItems.insert code m3)

/-- The function `processSubItemSheet` (main.go 78-126): the three sub-item values per code. -/
def processSubItemSheet (f : InputFile) :
    Res (GoMap String (GoMap String ℚ)) :=
  match f.book with
  | none => .err "open"
  | some wb =>
    match wb.subItem with
    | none => .err "sheet 收益分项明细"
    | some rows =>
      match wb.daily with
      | none => .err "sheet 收益每日明细"
      | some rows1 =>
        if rows.length < 5 then .err "文件行数不足"
        else
          match rows1[3]? >>= (sliceFrom · 1), rows[rows.length - 3]? >>= (sliceFrom · 3),
              rows[rows.length - 2]? >>= (sliceFrom · 3),
              rows[rows.length - 1]? >>= (sliceFrom · 3) with
          | some stationCodes, some peakValleyRow, some efficiencyRow, some otherRow =>
            subItemLoop peakValleyRow efficiencyRow otherRow stationCodes 0 ∅
          | _, _, _, _ => .panic

/-! ## The accumulators -/

/-- The six maps that `main` fills (main.go 132-137). -/
structure Acc where
  finalResults : GoMap String (GoMap Int ℚ)
  peakValleyResults : GoMap String (GoMap Int ℚ)
  efficiencyResults : GoMap String (GoMap Int ℚ)
  otherResults : GoMap String (GoMap Int ℚ)
  finalStationNames : GoMap String String
  monthlyResults : GoMap String (GoMap Int (GoMap Int (GoMap String ℚ)))

/-- All six maps empty, as `main` creates them. -/
def Acc.empty : Acc := ⟨∅, ∅, ∅, ∅, ∅, ∅⟩

/-- What the three per-file calls deliver to the accumulation loop. -/
structure FileData where
  year : Int
  month : Int
  totalRevenue : GoMap String ℚ
  stationInfo : GoMap String String
  subItemRevenue : GoMap String (GoMap String ℚ)

/-- The map literal of main.go 185-190. -/
def snapshot (fd : FileData) (code : String) (revenue : ℚ) : GoMap String ℚ :=
  (((((∅ : GoMap String ℚ).insert "总收益" revenue).insert "削峰填谷收益"
    (getNum2 fd.subItemRevenue code "削峰填谷收益")).insert "效率提升收益"
    (getNum2 fd.subItemRevenue code "效率提升收益")).insert "其他收益"
    (getNum2 fd.subItemRevenue code "其他收益"))

/-- The body of `for code, revenue := range totalRevenue` (main.go 166-190);
`none` is a panic. -/
def accumulateEntry (fd : FileData) (st : Acc) (code : String) (revenue : ℚ) : Option Acc :=
  let st1 : Acc :=
    if st.finalResults.lookup code = none then
      { st with
        finalResults := st.finalResults.insert code ∅
        peakValleyResults := st.peakValleyResults.insert code ∅
        efficiencyResults := st.efficiencyResults.insert code ∅
        otherResults := st.otherResults.insert code ∅ }
    else st
  match addAt st1.finalResults code fd.year revenue,
      addAt st1.peakValleyResults code fd.year (getNum2 fd.subItemRevenue code "削峰填谷收益"),
      addAt st1.efficiencyResults code fd.year (getNum2 fd.subItemRevenue code "效率提升收益"),
      addAt st1.otherResults code fd.year (getNum2 fd.subItemRevenue code "其他收益") with
  | some fr, some pv, some ef, some ot =>
    -- monthlyResults[code] and monthlyResults[code][year] are created when nil
    let byYear := (st1.monthlyResults.lookup code).getD ∅
    let byMonth := (byYear.lookup fd.year).getD ∅
    some
      { finalResults := fr
        peakValleyResults := pv
        efficiencyResults := ef
        otherResults := ot
        finalStationNames :=
          st1.finalStationNames.insert code ((fd.stationInfo.lookup code).getD "")
        monthlyResults :=
          st1.monthlyResults.insert code
            (byYear.insert fd.year (byMonth.insert fd.month (snapshot fd code revenue))) }
  | _, _, _, _ => none

/-- The loop `for code, revenue := range totalRevenue` over the entries in visiting
order. -/
def accumulateList (fd : FileData) : List (String × ℚ) → Acc → Option Acc
  | [], st => some st
  | (code, revenue) :: rest, st =>
    match accumulateEntry fd st code revenue with
    | none => none
    | some st1 => accumulateList fd rest st1

/-- The accumulation of one file (main.go 165-191). -/
def accumulate (it : MapIter) (fd : FileData) (st : Acc) : Option Acc :=
  accumulateList fd (it.range fd.totalRevenue) st

/-- The accumulation loop run over a sequence of successfully read files. -/
def accumulateAll (it : MapIter) : List FileData → Acc → Option Acc
  | [], st => some st
  | fd :: rest, st =>
    match accumulate it fd st with
    | none => none
    | some st1 => accumulateAll it rest st1

/-- The function `filepath.Ext`: the suffix of the last path element from its last dot on. -/
def filepathExt (path : List Char) : List Char :=
  let tail := path.reverse.takeWhile (fun c => !(c == '/'))
  if '.' ∈ tail then '.' :: (tail.takeWhile (fun c => !(c == '.'))).reverse else []

/-- The callback of `filepath.WalkDir` for one entry (main.go 144-193): a per-file
failure leaves the accumulators as they are; `none` is a panic. -/
def visit (it : MapIter) (f : InputFile) (st : Acc) :
    Option Acc :=
  if filepathExt f.path.data = ".xlsx".data then
    match extractYearMonth f.path with
    | .error _ => some st
    | .ok (year, month) =>
      match processDailySheet f with
      | .panic => none
      | .err _ => some st
      | .ok (totalRevenue, stationInfo) =>
        match processSubItemSheet f with
        | .panic => none
        | .err _ => some st
        | .ok subItemRevenue =>
          accumulate it ⟨year, month, totalRevenue, stationInfo, subItemRevenue⟩ st
  else some st

/-- The directory walk over the entries it delivers without a traversal error, in
walking order (a traversal error aborts the whole run and is not part of the
model). -/
def walk (it : MapIter) :
    List InputFile → Acc → Option Acc
  | [], st => some st
  | f :: rest, st =>
    match visit it f st with
    | none => none
    | some st1 => walk it rest st1

/-! ## Reading the accumulators -/

/-- The entry `m[code][year]` of a yearly accumulator, if there is one. -/
def yearly (m : GoMap String (GoMap Int ℚ)) (code : String) (year : Int) : Option ℚ :=
  (m.lookup code).bind (fun inner => inner.lookup year)

/-- The month map `monthlyResults[code][year]` (empty when missing). -/
def monthsOf (st : Acc) (code : String) (year : Int) : GoMap Int (GoMap String ℚ) :=
  (((st.monthlyResults.lookup code).getD ∅).lookup year).getD ∅

/-- The snapshot `monthlyResults[code][year][month]`, if there is one. -/
def monthly (st : Acc) (code : String) (year month : Int) : Option (GoMap String ℚ) :=
  (monthsOf st code year).lookup month

/-! ## Spec side of the accumulation -/

/-- The processed files that contribute to station `c` in year `y`: those whose
file-name year is `y` and whose daily sheet yielded a total for `c`. -/
def contributing (fds : List FileData) (c : String) (y : Int) : List FileData :=
  fds.filter (fun fd => decide (fd.year = y) && (fd.totalRevenue.lookup c).isSome)

/-- The sum of `val` over the contributing files; no entry when there is none. -/
def specTotal (fds : List FileData) (c : String) (y : Int) (val : FileData → ℚ) : Option ℚ :=
  if (contributing fds c y).isEmpty then none
  else some ((contributing fds c y).map val).sum

/-- The last processed file whose daily sheet yielded a total for `c`. -/
def lastWith (fds : List FileData) (c : String) : Option FileData :=
  (fds.filter (fun fd => (fd.totalRevenue.lookup c).isSome)).getLast?

/-- The first processed file that gives a name for `c`. -/
def firstWith (fds : List FileData) (c : String) : Option FileData :=
  fds.find? (fun fd => (fd.stationInfo.lookup c).isSome)

/-- The last processed file of period (`y`, `m`) whose daily sheet yielded a total
for `c`. -/
def lastOfPeriod (fds : List FileData) (c : String) (y m : Int) : Option FileData :=
  (fds.filter (fun fd => decide (fd.year = y) && decide (fd.month = m) &&
    (fd.totalRevenue.lookup c).isSome)).getLast?

/-- The four accumulators created together hold the same station codes. -/
def Sync (st : Acc) : Prop :=
  ∀ c, (st.peakValleyResults.lookup c = none ↔ st.finalResults.lookup c = none) ∧
    (st.efficiencyResults.lookup c = none ↔ st.finalResults.lookup c = none) ∧
    (st.otherResults.lookup c = none ↔ st.finalResults.lookup c = none)

/-- Effect on one yearly accumulator of adding `val c` at (`c`, `year`) for every
code `c` of `dom`. -/
def YearEffect (dom : String → Bool) (val : String → ℚ) (year : Int)
    (m m' : GoMap String (GoMap Int ℚ)) : Prop :=
  (∀ c y, yearly m' c y =
    if dom c = true ∧ y = year then some ((yearly m c y).getD 0 + val c) else yearly m c y) ∧
  (∀ c, m'.lookup c = none ↔ dom c = false ∧ m.lookup c = none)

/-- Effect on the accumulators of the loop body run once for every code of `dom`,
with total `val c`. -/
structure Effect (fd : FileData) (dom : String → Bool) (val : String → ℚ)
    (st st' : Acc) : Prop where
  final : YearEffect dom val fd.year st.finalResults st'.finalResults
  peak : YearEffect dom (fun c => getNum2 fd.subItemRevenue c "削峰填谷收益") fd.year
    st.peakValleyResults st'.peakValleyResults
  effi : YearEffect dom (fun c => getNum2 fd.subItemRevenue c "效率提升收益") fd.year
    st.efficiencyResults st'.efficiencyResults
  other : YearEffect dom (fun c => getNum2 fd.subItemRevenue c "其他收益") fd.year
    st.otherResults st'.otherResults
  names : ∀ c, st'.finalStationNames.lookup c =
    if dom c = true then some ((fd.stationInfo.lookup c).getD "")
    else st.finalStationNames.lookup c
  months : ∀ c y m, monthly st' c y m =
    if dom c = true ∧ y = fd.year ∧ m = fd.month then some (snapshot fd c (val c))
    else monthly st c y m

/-- Value of key `k` in a list of pairs (first occurrence). -/
def assoc {K V : Type} [DecidableEq K] : List (K × V) → K → Option V
  | [], _ => none
  | (k', v) :: rest, k => if k = k' then some v else assoc rest k

/-- The sum over the months recorded for (`c`, `y`) of the entry `key` of the monthly
snapshot. -/
def monthSum (st : Acc) (c : String) (y : Int) (key : String) : ℚ :=
  ((monthsOf st c y).entries.map (fun e => getNum e.2 key)).sum

/-- The codes for which the file yields a total. -/
def fileDom (fd : FileData) : String → Bool :=
  fun c => (fd.totalRevenue.lookup c).isSome

/-- Every yearly total equals the sum of the matching entries of the monthly
snapshots of that station and year. -/
def Agree (st : Acc) : Prop :=
  ∀ c y, getNum2 st.finalResults c y = monthSum st c y "总收益" ∧
    getNum2 st.peakValleyResults c y = monthSum st c y "削峰填谷收益" ∧
    getNum2 st.efficiencyResults c y = monthSum st c y "效率提升收益" ∧
    getNum2 st.otherResults c y = monthSum st c y "其他收益"

/-- No two files of the sequence cover the same (year, month). -/
def UniquePeriods (fds : List FileData) : Prop :=
  fds.Pairwise (fun a b => ¬ (a.year = b.year ∧ a.month = b.month))

instance (fds : List FileData) : Decidable (UniquePeriods fds) := by
  unfold UniquePeriods
  infer_instance

/-- A file of January 2021 that names station "A" as "X". -/
def janFile : FileData :=
  ⟨2021, 1, (∅ : GoMap String ℚ).insert "A" 1, (∅ : GoMap String String).insert "A" "X", ∅⟩

/-- A file of February 2021 that names station "A" as "Y". -/
def febFile : FileData :=
  ⟨2021, 2, (∅ : GoMap String ℚ).insert "A" 2, (∅ : GoMap String String).insert "A" "Y", ∅⟩

/-! ## The report workbook -/

/-- A value passed to `SetCellValue`: a string, a finite number, or the float64
value `+Inf`. -/
inductive Cell where
  | str (s : String)
  | num (v : ℚ)
  | inf
  deriving DecidableEq

/-- A sheet of the output workbook: the value last written to the cell at
(column number, row number), `none` for a cell never written. -/
abbrev Sheet := Nat → Nat → Option Cell

/-- A new, empty sheet. -/
def Sheet.blank : Sheet := fun _ _ => none

/-- The call `SetCellValue` at column `col`, row `row`. -/
def setCellValue (sh : Sheet) (col row : Nat) (v : Cell) : Sheet :=
  fun c r => if c = col ∧ r = row then some v else sh c r

/-- Four cells written in columns `col .. col+3` of one row. -/
abbrev Block := Cell × Cell × Cell × Cell

/-- The `j`-th cell of a block (0 to 3). -/
def Block.get (b : Block) (j : Nat) : Cell :=
  match j with
  | 0 => b.1
  | 1 => b.2.1
  | 2 => b.2.2.1
  | _ => b.2.2.2

/-- The four `SetCellValue` calls that write a block at columns `col`, `col+1`,
`col+2`, `col+3` of row `row`. -/
def writeBlock (sh : Sheet) (col row : Nat) (b : Block) : Sheet :=
  setCellValue (setCellValue (setCellValue (setCellValue sh col row b.1)
    (col + 1) row b.2.1) (col + 2) row b.2.2.1) (col + 3) row b.2.2.2

/-- The call `sort.Strings`: the sorted rearrangement of the list. -/
def sortStrings (l : List String) : List String := l.insertionSort (· ≤ ·)

/-- The call `sort.Ints`: the sorted rearrangement of the list. -/
def sortInts (l : List Int) : List Int := l.insertionSort (· ≤ ·)

/-- The read `finalStationNames[code]`: the empty string when missing. -/
def getStr (m : GoMap String String) (k : String) : String := (m.lookup k).getD ""

/-- The slice `sortedCodes` (main.go 201-205): the keys of `finalResults`, sorted. -/
def sortedCodes (it : MapIter) (st : Acc) : List String :=
  sortStrings (it.keys st.finalResults)

/-- Go's `a + b` on two finite float64 values: the exact sum rounded to the nearest
float64, ties to even; `none` when the rounded sum is beyond the float64 range, where
Go gives an infinity. -/
def float64Add (a b : ℚ) : Option ℚ :=
  (roundFloat64 (a + b).num.natAbs (a + b).den).map (fun r => if a + b < 0 then -r else r)

/-- The statement `total += v` on a running total; `none` is `+Inf`, which stays
`+Inf` whatever is added (amounts are never negative). -/
def addTotal (total : Option ℚ) (v : ℚ) : Option ℚ :=
  total.bind (fun t => float64Add t v)

/-- A running total as a cell value. -/
def totalCell : Option ℚ → Cell
  | some v => .num v
  | none => .inf

/-- The loop `for year := range finalResults[code]` of main.go 235-240, over the
years in visiting order: the four running totals. -/
def sumYears (st : Acc) (code : String) :
    List Int → Option ℚ × Option ℚ × Option ℚ × Option ℚ →
      Option ℚ × Option ℚ × Option ℚ × Option ℚ
  | [], acc => acc
  | year :: rest, acc =>
    sumYears st code rest
      (addTotal acc.1 (getNum2 st.finalResults code year),
        addTotal acc.2.1 (getNum2 st.peakValleyResults code year),
        addTotal acc.2.2.1 (getNum2 st.efficiencyResults code year),
        addTotal acc.2.2.2 (getNum2 st.otherResults code year))

/-- The four totals of a station over all its years. -/
def stationTotals (it : MapIter) (st : Acc) (code : String) :
    Option ℚ × Option ℚ × Option ℚ × Option ℚ :=
  sumYears st code (it.keys ((st.finalResults.lookup code).getD ∅))
    (some 0, some 0, some 0, some 0)

/-- The rows of the summary sheet (main.go 226-249). -/
def fillSummary (it : MapIter) (st : Acc) : List String → Nat → Sheet → Sheet
  | [], _, sh => sh
  | code :: rest, rowIndex, sh =>
    let name := getStr st.finalStationNames code
    let t := stationTotals it st code
    let sh1 := setCellValue sh 1 rowIndex (.str name)
    let sh2 := setCellValue sh1 2 rowIndex (.str code)
    let sh3 := writeBlock sh2 3 rowIndex
      (totalCell t.1, totalCell t.2.1, totalCell t.2.2.1, totalCell t.2.2.2)
    fillSummary it st rest (rowIndex + 1) sh3

/-- The sheet "站点汇总" (main.go 218-249). -/
def summarySheet (it : MapIter) (st : Acc) : Sheet :=
  let sh1 := setCellValue Sheet.blank 1 1 (.str "站点名称")
  let sh2 := setCellValue sh1 2 1 (.str "站点编码")
  let sh3 := writeBlock sh2 3 1
    (.str "总收益", .str "削峰填谷收益", .str "效率提升收益", .str "其它收益")
  fillSummary it st (sortedCodes it st) 2 sh3

/-- The set `years` of main.go 256-261. -/
def collectYears (it : MapIter) (st : Acc) : GoMap Int Bool :=
  (it.range st.finalResults).foldl
    (fun years e => (it.keys e.2).foldl (fun ys year => ys.insert year true) years) ∅

/-- The sorted `yearList` of the yearly sheet (main.go 262-266). -/
def yearList (it : MapIter) (st : Acc) : List Int :=
  sortInts (it.keys (collectYears it st))

/-- The four headers of a year. -/
def yearHeader (year : Int) : Block :=
  (.str (toString year ++ "年总收益"), .str (toString year ++ "年削峰填谷收益"),
    .str (toString year ++ "年效率提升收益"), .str (toString year ++ "年其它收益"))

/-- The header loop of the yearly sheet (main.go 269-285). -/
def yearHeaders : List Int → Nat → Sheet → Sheet
  | [], _, sh => sh
  | year :: rest, colIndex, sh =>
    yearHeaders rest (colIndex + 4) (writeBlock sh colIndex 1 (yearHeader year))

/-- The four values of a station for a year. -/
def yearValues (st : Acc) (code : String) (year : Int) : Block :=
  (.num (getNum2 st.finalResults code year), .num (getNum2 st.peakValleyResults code year),
    .num (getNum2 st.efficiencyResults code year), .num (getNum2 st.otherResults code year))

/-- The inner loop of the yearly sheet, one station row (main.go 294-310). -/
def fillYearRow (st : Acc) (code : String) (rowIndex : Nat) : List Int → Nat → Sheet → Sheet
  | [], _, sh => sh
  | year :: rest, colIndex, sh =>
    fillYearRow st code rowIndex rest (colIndex + 4)
      (writeBlock sh colIndex rowIndex (yearValues st code year))

/-- The rows of the yearly sheet (main.go 288-312). -/
def fillYearly (st : Acc) (years : List Int) : List String → Nat → Sheet → Sheet
  | [], _, sh => sh
  | code :: rest, rowIndex, sh =>
    let name := getStr st.finalStationNames code
    let sh1 := setCellValue sh 1 rowIndex (.str name)
    let sh2 := setCellValue sh1 2 rowIndex (.str code)
    fillYearly st years rest (rowIndex + 1) (fillYearRow st code rowIndex years 3 sh2)

/-- The sheet "年度明细" (main.go 252-312). -/
def detailSheet (it : MapIter) (st : Acc) : Sheet :=
  let sh1 := setCellValue Sheet.blank 1 1 (.str "站点名称")
  let sh2 := setCellValue sh1 2 1 (.str "站点编码")
  fillYearly st (yearList it st) (sortedCodes it st) 2 (yearHeaders (yearList it st) 3 sh2)

/-- The statement `yearsMonths[year][month] = true`. -/
def markMonth (ym : GoMap Int (GoMap Int Bool)) (year month : Int) : GoMap Int (GoMap Int Bool) :=
  ym.insert year (((ym.lookup year).getD ∅).insert month true)

/-- The body of `for year, monthData := range yearData` (main.go 322-327). -/
def markYear (it : MapIter) (ym : GoMap Int (GoMap Int Bool)) (year : Int)
    (monthData : GoMap Int (GoMap String ℚ)) : GoMap Int (GoMap Int Bool) :=
  let ym1 := if ym.lookup year = none then ym.insert year ∅ else ym
  (it.keys monthData).foldl (fun acc month => markMonth acc year month) ym1

/-- The map `yearsMonths` of main.go 319-329. -/
def collectYearsMonths (it : MapIter) (st : Acc) : GoMap Int (GoMap Int Bool) :=
  (it.range st.monthlyResults).foldl
    (fun ym e => (it.range e.2).foldl (fun acc e2 => markYear it acc e2.1 e2.2) ym) ∅

/-- The sorted `yearList` of the monthly sheet (main.go 331-335). -/
def monthlyYearList (it : MapIter) (st : Acc) : List Int :=
  sortInts (it.keys (collectYearsMonths it st))

/-- The sorted `months` of a year (main.go 340-344 and 375-379). -/
def monthsOfYear (it : MapIter) (st : Acc) (year : Int) : List Int :=
  sortInts (it.keys (((collectYearsMonths it st).lookup year).getD ∅))

/-- The four headers of a month. -/
def monthHeader (year month : Int) : Block :=
  let monthLabel := toString year ++ "年" ++ toString month ++ "月"
  (.str (monthLabel ++ "总收益"), .str (monthLabel ++ "削峰填谷收益"),
    .str (monthLabel ++ "效率提升收益"), .str (monthLabel ++ "其它收益"))

/-- The inner header loop of the monthly sheet (main.go 346-363): column index and
sheet after it. -/
def monthHeaders (year : Int) : List Int → Nat × Sheet → Nat × Sheet
  | [], cs => cs
  | month :: rest, cs =>
    monthHeaders year rest (cs.1 + 4, writeBlock cs.2 cs.1 1 (monthHeader year month))

/-- The header loop of the monthly sheet (main.go 338-364). -/
def monthlyHeaders (it : MapIter) (st : Acc) : List Int → Nat × Sheet → Nat × Sheet
  | [], cs => cs
  | year :: rest, cs =>
    monthlyHeaders it st rest (monthHeaders year (monthsOfYear it st year) cs)

/-- The four values of a monthly snapshot. -/
def monthValues (revenues : GoMap String ℚ) : Block :=
  (.num (getNum revenues "总收益"), .num (getNum revenues "削峰填谷收益"),
    .num (getNum revenues "效率提升收益"), .num (getNum revenues "其他收益"))

/-- The innermost loop of the monthly sheet (main.go 381-403): a missing snapshot
advances the column without writing. -/
def fillMonths (st : Acc) (code : String) (rowIndex : Nat) (year : Int) :
    List Int → Nat × Sheet → Nat × Sheet
  | [], cs => cs
  | month :: rest, cs =>
    match monthly st code year month with
    | none => fillMonths st code rowIndex year rest (cs.1 + 4, cs.2)
    | some revenues =>
      fillMonths st code rowIndex year rest
        (cs.1 + 4, writeBlock cs.2 cs.1 rowIndex (monthValues revenues))

/-- The loop over the years of one station row (main.go 374-404). -/
def fillMonthRow (it : MapIter) (st : Acc) (code : String) (rowIndex : Nat) :
    List Int → Nat × Sheet → Nat × Sheet
  | [], cs => cs
  | year :: rest, cs =>
    fillMonthRow it st code rowIndex rest
      (fillMonths st code rowIndex year (monthsOfYear it st year) cs)

/-- The rows of the monthly sheet (main.go 367-406). -/
def fillMonthly (it : MapIter) (st : Acc) (years : List Int) : List String → Nat → Sheet → Sheet
  | [], _, sh => sh
  | code :: rest, rowIndex, sh =>
    let name := getStr st.finalStationNames code
    let sh1 := setCellValue sh 1 rowIndex (.str name)
    let sh2 := setCellValue sh1 2 rowIndex (.str code)
    fillMonthly it st years rest (rowIndex + 1) (fillMonthRow it st code rowIndex years (3, sh2)).2

/-- The sheet "月度明细" (main.go 315-406). -/
def monthlySheet (it : MapIter) (st : Acc) : Sheet :=
  let sh1 := setCellValue Sheet.blank 1 1 (.str "站点名称")
  let sh2 := setCellValue sh1 2 1 (.str "站点编码")
  fillMonthly it st (monthlyYearList it st) (sortedCodes it st) 2
    (monthlyHeaders it st (monthlyYearList it st) (3, sh2)).2

/-- The (year, month) columns of the monthly sheet, in the order of the header
loops. -/
def monthPairs (it : MapIter) (st : Acc) : List (Int × Int) :=
  (monthlyYearList it st).flatMap (fun y => (monthsOfYear it st y).map (fun m => (y, m)))

/-- Lexicographic order on (year, month). -/
def pairLt (p q : Int × Int) : Prop := p.1 < q.1 ∨ (p.1 = q.1 ∧ p.2 < q.2)

/-! ### Proof engine: rows of optional blocks -/

/-- Blocks written (or skipped) from column `col` on in row `row`. -/
def writeBlocks (row : Nat) : List (Option Block) → Nat → Sheet → Sheet
  | [], _, sh => sh
  | b :: rest, col, sh =>
    writeBlocks row rest (col + 4)
      (match b with
        | some blk => writeBlock sh col row blk
        | none => sh)

/-- Station rows: name, code, then a row of optional blocks from column 3. -/
def writeRows (name : String → String) (content : String → List (Option Block)) :
    List String → Nat → Sheet → Sheet
  | [], _, sh => sh
  | code :: rest, rowIndex, sh =>
    writeRows name content rest (rowIndex + 1)
      (writeBlocks rowIndex (content code) 3
        (setCellValue (setCellValue sh 1 rowIndex (.str (name code))) 2 rowIndex (.str code)))

/-- The four totals of a station as a block of the summary sheet. -/
def totalsBlock (it : MapIter) (st : Acc) (code : String) : Block :=
  (totalCell (stationTotals it st code).1, totalCell (stationTotals it st code).2.1,
    totalCell (stationTotals it st code).2.2.1, totalCell (stationTotals it st code).2.2.2)

/-- The (year, month) pairs of a list of years, months sorted within each year. -/
def pairsOf (it : MapIter) (st : Acc) (years : List Int) : List (Int × Int) :=
  years.flatMap (fun y => (monthsOfYear it st y).map (fun m => (y, m)))

/-- Month `m` is marked under year `y` in a `yearsMonths` map. -/
def marked (ym : GoMap Int (GoMap Int Bool)) (y m : Int) : Prop :=
  ((ym.lookup y).getD ∅).lookup m ≠ none

/-- The sum over the years of `finalResults[code]` of the yearly entries of `m`
for that station. -/
def stationSum (st : Acc) (m : GoMap String (GoMap Int ℚ)) (code : String) : ℚ :=
  ((((st.finalResults.lookup code).getD ∅).keys).map (fun y => getNum2 m code y)).sum

/-- The yearly entries of `m` for a station, over the years of `finalResults[code]` in
the order in which `range` visits them. -/
def visitedValues (it : MapIter) (st : Acc) (m : GoMap String (GoMap Int ℚ))
    (code : String) : List ℚ :=
  (it.keys ((st.finalResults.lookup code).getD ∅)).map (fun y => getNum2 m code y)

/-- The float64 sum of a list of amounts, added one after the other from 0. -/
def runningTotal (l : List ℚ) : Option ℚ := l.foldl addTotal (some 0)

/-- No addition of the running sum of `l` rounds: every partial sum is a float64. -/
def NoRounding (l : List ℚ) : Prop := ∀ k, IsFloat64 ((l.take k).sum)

/-- A workbook of the given year (March) with the single station "A" and the given
total cell. -/
def yearFile (year total : String) : InputFile :=
  ⟨"dir/" ++ year ++ "区域结算单(03.01-03.31).xlsx",
    some ⟨some [["t"], ["d"], ["名称", "站A"], ["编码", "A"], ["合计", total]],
      some [["h"], ["h"], ["x", "y", "z", "0"], ["x", "y", "z", "0"], ["x", "y", "z", "0"]]⟩⟩

/-- Three yearly files of station "A" with the totals 1, 1 and 2^53. -/
def threeYearFiles : List InputFile :=
  [yearFile "2019" "1", yearFile "2020" "1", yearFile "2021" "9007199254740992"]

/-- The accumulators after the three yearly files. -/
def threeYearAcc : Acc :=
  (walk MapIter.stored threeYearFiles Acc.empty).getD Acc.empty

/-- The accumulators after the January and the February file. -/
def sampleAcc : Acc :=
  (accumulateAll MapIter.stored [janFile, febFile] Acc.empty).getD Acc.empty

/-! ## Spec side of the per-file reading -/

/-- The station codes of a daily sheet: its fourth row without the first cell. -/
def dailyCodes (rows : List (List String)) : List String :=
  ((rows[3]?).getD []).drop 1

/-- The total cells of a daily sheet: its last row without the first cell. -/
def dailySummary (rows : List (List String)) : List String :=
  ((rows[rows.length - 1]?).getD []).drop 1

/-- The daily sheet of a file, when it can be read. -/
def dailyRows (f : InputFile) : Option (List (List String)) :=
  f.book.bind (fun wb => wb.daily)

/-- The sub-item sheet of a file, when it can be read. -/
def subItemRows (f : InputFile) : Option (List (List String)) :=
  f.book.bind (fun wb => wb.subItem)

/-- Every total cell that the file has in a column of station `c` is malformed. -/
def NoTotal (f : InputFile) (c : String) : Prop :=
  ∀ rows, dailyRows f = some rows →
    ∀ (i : Nat) (cell : String),
      (dailyCodes rows)[i]? = some c → (dailySummary rows)[i]? = some cell →
      ∃ e, cleanRevenueValue cell = .error e

/-- The station names of a daily sheet: its third row without the first cell. -/
def dailyNames (rows : List (List String)) : List String :=
  ((rows[2]?).getD []).drop 1

/-- The cells of the `k`-th row from the end of a sub-item sheet, without the first
three cells (`k = 3`: 削峰填谷收益, `k = 2`: 效率提升收益, `k = 1`: 其他收益). -/
def subItemCells (srows : List (List String)) (k : Nat) : List String :=
  ((srows[srows.length - k]?).getD []).drop 3

/-- Column `i` of the daily sheet belongs to station `c` and its total cell parses
to `v`. -/
def GoodTotal (rows : List (List String)) (c : String) (i : Nat) (v : ℚ) : Prop :=
  (dailyCodes rows)[i]? = some c ∧
    ∃ cell, (dailySummary rows)[i]? = some cell ∧ cleanRevenueValue cell = .ok v

/-- Column `i` is the last column of station `c` whose total cell parses. -/
def LastTotal (rows : List (List String)) (c : String) (i : Nat) (v : ℚ) : Prop :=
  GoodTotal rows c i v ∧ ∀ (j : Nat) (w : ℚ), i < j → ¬ GoodTotal rows c j w

/-- Column `j` is the last column of station `c`. -/
def LastColumn (rows : List (List String)) (c : String) (j : Nat) : Prop :=
  (dailyCodes rows)[j]? = some c ∧ ∀ k, j < k → (dailyCodes rows)[k]? ≠ some c

/-- The amount of cell `j` of a row of sub-item cells: 0 when the cell is malformed. -/
def cellValue (row : List String) (j : Nat) : ℚ :=
  match row[j]? with
  | none => 0
  | some cell =>
    match cleanRevenueValue cell with
    | .ok v => v
    | .error _ => 0

/-- The two sheets of the file can be read, have at least 4 and 5 rows, and every row
that is read is long enough: the name, code and total rows are not empty, every code
has a name, and each of the last three sub-item rows has a cell for every code. -/
def WellShaped (f : InputFile) (rows srows : List (List String)) : Prop :=
  dailyRows f = some rows ∧ subItemRows f = some srows ∧
    4 ≤ rows.length ∧ 5 ≤ srows.length ∧
    1 ≤ ((rows[2]?).getD []).length ∧ 1 ≤ ((rows[3]?).getD []).length ∧
    1 ≤ ((rows[rows.length - 1]?).getD []).length ∧
    (dailyCodes rows).length ≤ (dailyNames rows).length ∧
    ∀ k, (k = 1 ∨ k = 2 ∨ k = 3) →
      3 + (dailyCodes rows).length ≤ ((srows[srows.length - k]?).getD []).length

/-- All accumulators hold for station `c` in `st'` what they hold in `st`. -/
def UnchangedAt (st st' : Acc) (c : String) : Prop :=
  (st'.finalResults.lookup c = none ↔ st.finalResults.lookup c = none) ∧
  (∀ y, yearly st'.finalResults c y = yearly st.finalResults c y) ∧
  (∀ y, yearly st'.peakValleyResults c y = yearly st.peakValleyResults c y) ∧
  (∀ y, yearly st'.efficiencyResults c y = yearly st.efficiencyResults c y) ∧
  (∀ y, yearly st'.otherResults c y = yearly st.otherResults c y) ∧
  st'.finalStationNames.lookup c = st.finalStationNames.lookup c ∧
  (∀ y m, monthly st' c y m = monthly st c y m)

/-- A daily sheet with two stations; the total cell of "B", in the first station
column, is malformed. -/
def badDailyRows : List (List String) :=
  [["t"], ["d"], ["名称", "站B", "站A"], ["编码", "B", "A"], ["合计", "1.2.3", "¥1,234.56"]]

/-- A sub-item sheet for two stations; one sub-item cell of "A" is malformed. -/
def badSubItemRows : List (List String) :=
  [["h"], ["h"], ["x", "y", "z", "2", "1"], ["x", "y", "z", "4", "3"],
    ["x", "y", "z", "6", ".."]]

/-- A March 2021 workbook with two stations: the total cell of "B" and one sub-item
cell of "A" are malformed. -/
def badCellFile : InputFile :=
  ⟨"dir/2021区域结算单(03.01-03.31).xlsx", some ⟨some badDailyRows, some badSubItemRows⟩⟩

/-- A workbook whose sub-item sheet has a last row with one trailing cell less than
there are station codes (`GetRows` drops trailing empty cells). -/
def shortRowFile : InputFile :=
  ⟨"dir/2021区域结算单(03.01-03.31).xlsx",
    some ⟨some [["t"], ["d"], ["名称", "站A", "站B"], ["编码", "A", "B"], ["合计", "1", "2"]],
      some [["h"], ["h"], ["x", "y", "z", "1", "2"], ["x", "y", "z", "3", "4"],
        ["x", "y", "z", "5"]]⟩⟩

/-- A workbook whose daily sheet has an empty third row. -/
def emptyRowFile : InputFile :=
  ⟨"dir/2021区域结算单(03.01-03.31).xlsx",
    some ⟨some [["t"], ["d"], [], ["编码", "A"], ["合计", "1"]],
      some [["h"], ["h"], ["x", "y", "z", "1"], ["x", "y", "z", "3"], ["x", "y", "z", "5"]]⟩⟩

/-! ## Rounding to float64 -/

theorem bitLength_zero (fuel : Nat) : bitLength fuel 0 = 0 := by
  cases fuel <;> simp [bitLength]

theorem bitLength_spec (fuel n : Nat) (hf : n ≤ fuel) (hn : n ≠ 0) :
    1 ≤ bitLength fuel n ∧ 2 ^ (bitLength fuel n - 1) ≤ n ∧ n < 2 ^ bitLength fuel n := by
  induction fuel generalizing n with
  | zero => exact absurd (Nat.le_zero.1 hf) hn
  | succ fuel ih =>
    simp only [bitLength, if_neg hn]
    by_cases h2 : n / 2 = 0
    · have h1 : n = 1 := by omega
      subst h1
      simp [bitLength_zero]
    · have hle : n / 2 ≤ fuel := by omega
      obtain ⟨hb, hlo, hhi⟩ := ih (n / 2) hle h2
      refine ⟨by omega, ?_, ?_⟩
      · have e : bitLength fuel (n / 2) + 1 - 1 = (bitLength fuel (n / 2) - 1) + 1 := by omega
        rw [e, pow_succ]
        omega
      · rw [pow_succ]
        omega

theorem shiftLeft_cast (a k : Nat) : ((a <<< k : Nat) : ℚ) = (a : ℚ) * (2 : ℚ) ^ k := by
  rw [Nat.shiftLeft_eq]
  push_cast
  rfl

theorem two_zpow_pos (e : ℤ) : (0 : ℚ) < (2 : ℚ) ^ e := zpow_pos (by norm_num) e

theorem two_zpow_toNat {e : ℤ} (he : 0 ≤ e) : (2 : ℚ) ^ e.toNat = (2 : ℚ) ^ e := by
  conv_rhs => rw [← Int.toNat_of_nonneg he]
  rw [zpow_natCast]

theorem two_zpow_neg_toNat {e : ℤ} (he : e < 0) :
    (2 : ℚ) ^ (-e).toNat = ((2 : ℚ) ^ e)⁻¹ := by
  have h : 0 ≤ -e := by omega
  rw [two_zpow_toNat h, zpow_neg]

theorem ltPow2_iff (n d : Nat) (hd : 0 < d) (e : ℤ) :
    ltPow2 n d e = true ↔ (n : ℚ) / d < (2 : ℚ) ^ e := by
  have hd' : (0 : ℚ) < d := by exact_mod_cast hd
  unfold ltPow2
  by_cases he : 0 ≤ e
  · rw [if_pos he, decide_eq_true_eq, div_lt_iff₀ hd', ← two_zpow_toNat he]
    rw [← Nat.cast_lt (α := ℚ), shiftLeft_cast, mul_comm]
  · have he' : e < 0 := by omega
    rw [if_neg he, decide_eq_true_eq, div_lt_iff₀ hd', ← Nat.cast_lt (α := ℚ), shiftLeft_cast,
      two_zpow_neg_toNat he']
    have hp := two_zpow_pos e
    rw [← div_eq_mul_inv, div_lt_iff₀ hp, mul_comm]

theorem floorLog2_spec (n d : Nat) (hn : n ≠ 0) (hd : d ≠ 0) :
    (2 : ℚ) ^ floorLog2 n d ≤ (n : ℚ) / d ∧ (n : ℚ) / d < (2 : ℚ) ^ (floorLog2 n d + 1) := by
  have hdpos : 0 < d := Nat.pos_of_ne_zero hd
  have hd' : (0 : ℚ) < d := by exact_mod_cast hdpos
  obtain ⟨ha1, halo, hahi⟩ := bitLength_spec n n (Nat.le_refl _) hn
  obtain ⟨hb1, hblo, hbhi⟩ := bitLength_spec d d (Nat.le_refl _) hd
  unfold floorLog2
  generalize bitLength n n = a at *
  generalize bitLength d d = b at *
  have halo' : (2 : ℚ) ^ ((a : ℤ) - 1) ≤ n := by
    have : ((a : ℤ) - 1) = ((a - 1 : ℕ) : ℤ) := by omega
    rw [this, zpow_natCast]
    exact_mod_cast halo
  have hahi' : (n : ℚ) < (2 : ℚ) ^ (a : ℤ) := by
    rw [zpow_natCast]
    exact_mod_cast hahi
  have hblo' : (2 : ℚ) ^ ((b : ℤ) - 1) ≤ d := by
    have : ((b : ℤ) - 1) = ((b - 1 : ℕ) : ℤ) := by omega
    rw [this, zpow_natCast]
    exact_mod_cast hblo
  have hbhi' : (d : ℚ) < (2 : ℚ) ^ (b : ℤ) := by
    rw [zpow_natCast]
    exact_mod_cast hbhi
  have hlow : (2 : ℚ) ^ ((a : ℤ) - b - 1) < (n : ℚ) / d := by
    rw [lt_div_iff₀ hd']
    calc (2 : ℚ) ^ ((a : ℤ) - b - 1) * d < (2 : ℚ) ^ ((a : ℤ) - b - 1) * (2 : ℚ) ^ (b : ℤ) :=
          mul_lt_mul_of_pos_left hbhi' (two_zpow_pos _)
      _ = (2 : ℚ) ^ ((a : ℤ) - 1) := by
          rw [← zpow_add₀ (by norm_num : (2 : ℚ) ≠ 0)]
          congr 1
          ring
      _ ≤ n := halo'
  have hhigh : (n : ℚ) / d < (2 : ℚ) ^ ((a : ℤ) - b + 1) := by
    rw [div_lt_iff₀ hd']
    calc (n : ℚ) < (2 : ℚ) ^ (a : ℤ) := hahi'
      _ = (2 : ℚ) ^ ((a : ℤ) - b + 1) * (2 : ℚ) ^ ((b : ℤ) - 1) := by
          rw [← zpow_add₀ (by norm_num : (2 : ℚ) ≠ 0)]
          congr 1
          ring
      _ ≤ (2 : ℚ) ^ ((a : ℤ) - b + 1) * d :=
          mul_le_mul_of_nonneg_left hblo' (le_of_lt (two_zpow_pos _))
  by_cases hlt : ltPow2 n d ((a : ℤ) - b) = true
  · rw [if_pos hlt]
    refine ⟨le_of_lt hlow, ?_⟩
    have := (ltPow2_iff n d hdpos _).1 hlt
    have e : (a : ℤ) - b - 1 + 1 = (a : ℤ) - b := by ring
    rw [e]
    exact this
  · rw [if_neg hlt]
    refine ⟨?_, hhigh⟩
    have := mt (ltPow2_iff n d hdpos _).2 hlt
    exact not_lt.1 this

theorem roundHalfEven_near (N D : Nat) (hD : 0 < D) :
    NearInt ((N : ℚ) / D) (roundHalfEven N D) := by
  have hD' : (0 : ℚ) < D := by exact_mod_cast hD
  have hmod : N % D < D := Nat.mod_lt _ hD
  have hx : (N : ℚ) / D = ((N / D : ℕ) : ℚ) + ((N % D : ℕ) : ℚ) / D := by
    have h := Nat.div_add_mod N D
    have h' : (N : ℚ) = (D : ℚ) * ((N / D : ℕ) : ℚ) + ((N % D : ℕ) : ℚ) := by exact_mod_cast h.symm
    rw [h']
    field_simp
    ring
  unfold roundHalfEven NearInt
  generalize N / D = k at *
  generalize N % D = r at *
  have ht0 : (0 : ℚ) ≤ (r : ℚ) / D := div_nonneg (by positivity) (le_of_lt hD')
  by_cases h1 : 2 * r < D
  · have ht : (r : ℚ) / D < 1 / 2 := by
      rw [div_lt_iff₀ hD']
      have : ((2 * r : ℕ) : ℚ) < D := by exact_mod_cast h1
      push_cast at this
      linarith
    rw [if_pos h1, hx]
    have e : (k : ℚ) + (r : ℚ) / D - k = (r : ℚ) / D := by ring
    rw [e, abs_of_nonneg ht0]
    exact ⟨le_of_lt ht, fun h => absurd h (ne_of_lt ht)⟩
  · rw [if_neg h1]
    by_cases h2 : D < 2 * r
    · have ht : 1 / 2 < (r : ℚ) / D := by
        rw [lt_div_iff₀ hD']
        have : (D : ℚ) < ((2 * r : ℕ) : ℚ) := by exact_mod_cast h2
        push_cast at this
        linarith
      have ht1 : (r : ℚ) / D < 1 := by
        rw [div_lt_iff₀ hD']
        have : (r : ℚ) < D := by exact_mod_cast hmod
        linarith
      rw [if_pos h2, hx]
      have e : (k : ℚ) + (r : ℚ) / D - ((k + 1 : ℕ) : ℚ) = -(1 - (r : ℚ) / D) := by
        push_cast
        ring
      rw [e, abs_neg, abs_of_nonneg (by linarith)]
      exact ⟨by linarith, fun h => by linarith⟩
    · rw [if_neg h2]
      have h3 : 2 * r = D := by omega
      have ht : (r : ℚ) / D = 1 / 2 := by
        rw [div_eq_iff (ne_of_gt hD')]
        have : ((2 * r : ℕ) : ℚ) = D := by exact_mod_cast h3
        push_cast at this
        linarith
      by_cases h4 : k % 2 = 0
      · rw [if_pos h4, hx]
        have e : (k : ℚ) + (r : ℚ) / D - k = (r : ℚ) / D := by ring
        rw [e, abs_of_nonneg ht0, ht]
        exact ⟨le_refl _, fun _ => h4⟩
      · rw [if_neg h4, hx]
        have e : (k : ℚ) + (r : ℚ) / D - ((k + 1 : ℕ) : ℚ) = -(1 - (r : ℚ) / D) := by
          push_cast
          ring
        rw [e, abs_neg, abs_of_nonneg (by linarith), ht]
        exact ⟨by norm_num, fun _ => by omega⟩

/-- An integer nearest to `x` is at least as near as any other integer. -/
theorem NearInt.le_int {x : ℚ} {m : ℕ} (h : NearInt x m) (k : ℤ) :
    |x - m| ≤ |x - k| := by
  by_cases hk : k = (m : ℤ)
  · subst hk
    simp
  · have h1 : (1 : ℚ) ≤ |(k : ℚ) - m| := by
      have : (1 : ℤ) ≤ |k - (m : ℤ)| := Int.one_le_abs (sub_ne_zero.2 hk)
      have h2 : ((1 : ℤ) : ℚ) ≤ ((|k - (m : ℤ)| : ℤ) : ℚ) := by exact_mod_cast this
      simpa using h2
    have h2 : |(k : ℚ) - m| ≤ |x - m| + |x - k| := by
      have e : (k : ℚ) - m = (x - m) - (x - k) := by ring
      rw [e]
      exact abs_sub _ _
    linarith [h.1]

/-- When another integer is as near, the rounded one is even. -/
theorem NearInt.tie {x : ℚ} {m : ℕ} (h : NearInt x m) (k : ℤ) (hk : k ≠ (m : ℤ))
    (he : |x - k| = |x - m|) : m % 2 = 0 := by
  apply h.2
  have h1 : (1 : ℚ) ≤ |(k : ℚ) - m| := by
    have : (1 : ℤ) ≤ |k - (m : ℤ)| := Int.one_le_abs (sub_ne_zero.2 hk)
    have h2 : ((1 : ℤ) : ℚ) ≤ ((|k - (m : ℤ)| : ℤ) : ℚ) := by exact_mod_cast this
    simpa using h2
  have h2 : |(k : ℚ) - m| ≤ |x - m| + |x - k| := by
    have e : (k : ℚ) - m = (x - m) - (x - k) := by ring
    rw [e]
    exact abs_sub _ _
  have := h.1
  linarith

theorem NearInt.ge_of_le {x : ℚ} {m : ℕ} (h : NearInt x m) (K : ℕ) (hK : (K : ℚ) ≤ x) :
    K ≤ m := by
  by_contra hlt
  have hm : m + 1 ≤ K := by omega
  have hm' : ((m : ℚ) + 1) ≤ K := by exact_mod_cast hm
  have h1 := h.1
  rw [abs_le] at h1
  linarith [h1.2]

theorem NearInt.le_of_le {x : ℚ} {m : ℕ} (h : NearInt x m) (K : ℕ) (hK : x ≤ (K : ℚ)) :
    m ≤ K := by
  by_contra hlt
  have hm : K + 1 ≤ m := by omega
  have hm' : ((K : ℚ) + 1) ≤ m := by exact_mod_cast hm
  have h1 := h.1
  rw [abs_le] at h1
  linarith [h1.1]

theorem two_zpow_add (a b : ℤ) : (2 : ℚ) ^ (a + b) = (2 : ℚ) ^ a * (2 : ℚ) ^ b :=
  zpow_add₀ (by norm_num) a b

theorem two_zpow_le {a b : ℤ} (h : a ≤ b) : (2 : ℚ) ^ a ≤ (2 : ℚ) ^ b :=
  zpow_le_zpow_right₀ (by norm_num) h

theorem two_zpow_nat (k : ℕ) : (2 : ℚ) ^ (k : ℤ) = ((2 ^ k : ℕ) : ℚ) := by
  rw [zpow_natCast]
  push_cast
  rfl

theorem float64Scale_cases (n d : Nat) :
    floorLog2 n d - 52 ≤ float64Scale n d ∧ -1074 ≤ float64Scale n d ∧
      (-1074 < float64Scale n d → float64Scale n d = floorLog2 n d - 52) := by
  unfold float64Scale
  refine ⟨le_max_left _ _, le_max_right _ _, fun h => ?_⟩
  rcases max_cases (floorLog2 n d - 52) (-1074) with ⟨h1, _⟩ | ⟨h1, _⟩
  · exact h1
  · rw [h1] at h
    exact absurd h (lt_irrefl _)

theorem mantissa_near (n d : Nat) (hd : d ≠ 0) :
    NearInt ((n : ℚ) / d / (2 : ℚ) ^ float64Scale n d) (float64Mantissa n d) := by
  have hdpos : 0 < d := Nat.pos_of_ne_zero hd
  have hd' : (d : ℚ) ≠ 0 := by exact_mod_cast hd
  unfold float64Mantissa
  generalize float64Scale n d = s
  by_cases hs : 0 ≤ s
  · rw [if_pos hs]
    have hpos : 0 < d <<< s.toNat := by
      rw [Nat.shiftLeft_eq]
      positivity
    have h := roundHalfEven_near n (d <<< s.toNat) hpos
    rw [shiftLeft_cast, two_zpow_toNat hs] at h
    rw [div_div]
    exact h
  · have hs' : s < 0 := by omega
    rw [if_neg hs]
    have h := roundHalfEven_near (n <<< (-s).toNat) d hdpos
    rw [shiftLeft_cast, two_zpow_neg_toNat hs'] at h
    have e : (n : ℚ) / d / (2 : ℚ) ^ s = (n : ℚ) * ((2 : ℚ) ^ s)⁻¹ / d := by
      rw [div_div, mul_comm (d : ℚ), ← div_div, div_eq_mul_inv (n : ℚ)]
    rw [e]
    exact h

/-- Bounds on the scaled value and on the mantissa. -/
theorem mantissa_bounds (n d : Nat) (hn : n ≠ 0) (hd : d ≠ 0) :
    (n : ℚ) / d / (2 : ℚ) ^ float64Scale n d < ((2 ^ 53 : ℕ) : ℚ) ∧
      float64Mantissa n d ≤ 2 ^ 53 ∧
      (float64Scale n d = floorLog2 n d - 52 →
        ((2 ^ 52 : ℕ) : ℚ) ≤ (n : ℚ) / d / (2 : ℚ) ^ float64Scale n d ∧
          2 ^ 52 ≤ float64Mantissa n d) := by
  obtain ⟨hlo, hhi⟩ := floorLog2_spec n d hn hd
  obtain ⟨hs1, hs2, hs3⟩ := float64Scale_cases n d
  have hnear := mantissa_near n d hd
  have hp := two_zpow_pos (float64Scale n d)
  have hx : (n : ℚ) / d / (2 : ℚ) ^ float64Scale n d < ((2 ^ 53 : ℕ) : ℚ) := by
    rw [div_lt_iff₀ hp, ← two_zpow_nat, ← two_zpow_add]
    refine lt_of_lt_of_le hhi (two_zpow_le ?_)
    push_cast
    omega
  refine ⟨hx, hnear.le_of_le _ (le_of_lt hx), fun hs => ?_⟩
  have hx2 : ((2 ^ 52 : ℕ) : ℚ) ≤ (n : ℚ) / d / (2 : ℚ) ^ float64Scale n d := by
    rw [le_div_iff₀ hp, ← two_zpow_nat, ← two_zpow_add]
    refine le_trans (two_zpow_le ?_) hlo
    push_cast
    omega
  exact ⟨hx2, hnear.ge_of_le _ hx2⟩

/-- The overflow test of `roundFloat64` says that the rounded value reaches
`2 ^ 1024`. -/
theorem overflow_iff (n d : Nat) (hn : n ≠ 0) (hd : d ≠ 0) :
    (0 ≤ float64Scale n d ∧
        1 <<< 1024 ≤ float64Mantissa n d <<< (float64Scale n d).toNat) ↔
      (2 : ℚ) ^ (1024 : ℤ) ≤ (float64Mantissa n d : ℚ) * (2 : ℚ) ^ float64Scale n d := by
  obtain ⟨_, hm, _⟩ := mantissa_bounds n d hn hd
  generalize float64Mantissa n d = m at *
  generalize float64Scale n d = s at *
  have hm' : (m : ℚ) ≤ (2 : ℚ) ^ (53 : ℤ) := by
    have e : (2 : ℚ) ^ (53 : ℤ) = ((2 ^ 53 : ℕ) : ℚ) := by norm_num
    rw [e]
    exact_mod_cast hm
  by_cases hs : 0 ≤ s
  · have h1 : ((1 <<< 1024 : ℕ) : ℚ) = (2 : ℚ) ^ (1024 : ℤ) := by
      rw [shiftLeft_cast, ← zpow_natCast]
      simp
    have h2 : ((m <<< s.toNat : ℕ) : ℚ) = (m : ℚ) * (2 : ℚ) ^ s := by
      rw [shiftLeft_cast, two_zpow_toNat hs]
    rw [← h1, ← h2, Nat.cast_le]
    exact ⟨fun h => h.2, fun h => ⟨hs, h⟩⟩
  · constructor
    · intro h
      exact absurd h.1 hs
    · intro h
      exfalso
      have hs' : s ≤ 0 := by omega
      have h3 : (m : ℚ) * (2 : ℚ) ^ s ≤ (2 : ℚ) ^ (53 : ℤ) * (2 : ℚ) ^ (0 : ℤ) :=
        mul_le_mul hm' (two_zpow_le hs') (le_of_lt (two_zpow_pos _))
          (le_of_lt (two_zpow_pos _))
      rw [← two_zpow_add] at h3
      have h4 := le_trans h h3
      rw [zpow_le_zpow_iff_right₀ (by norm_num : (1 : ℚ) < 2)] at h4
      omega

/-- Against any float64 `f`, the value `m * 2 ^ s` with `m` nearest to `q / 2 ^ s` is
at least as near to `q`, and in a tie with another float64 `m` is even.  Here `s` is
never above the exponent of a float64 below `2 ^ lo ≤ q` that is finer than `s`. -/
theorem nearest_scaled {q x : ℚ} {m : ℕ} {s : ℤ} (hq : q = x * (2 : ℚ) ^ s)
    (hnear : NearInt x m)
    (hfine : -1074 < s → ((2 ^ 52 : ℕ) : ℚ) ≤ x) (f : ℚ) (hf : IsFloat64 f) :
    |q - (m : ℚ) * (2 : ℚ) ^ s| ≤ |q - f| ∧
      (f ≠ (m : ℚ) * (2 : ℚ) ^ s → |q - f| = |q - (m : ℚ) * (2 : ℚ) ^ s| → m % 2 = 0) := by
  obtain ⟨m', e', hm', he1, he2, hfe⟩ := hf
  have hp := two_zpow_pos s
  have hr : |q - (m : ℚ) * (2 : ℚ) ^ s| = |x - m| * (2 : ℚ) ^ s := by
    rw [hq, ← sub_mul, abs_mul, abs_of_pos hp]
  by_cases hle : s ≤ e'
  · -- `f` is a multiple of `2 ^ s`
    have hk : f = ((m' * 2 ^ (e' - s).toNat : ℕ) : ℚ) * (2 : ℚ) ^ s := by
      have h0 : 0 ≤ e' - s := by omega
      push_cast
      rw [two_zpow_toNat h0, mul_assoc, ← two_zpow_add, hfe]
      congr 2
      ring
    generalize m' * 2 ^ (e' - s).toNat = k at hk
    have hfk : |q - f| = |x - ((k : ℤ) : ℚ)| * (2 : ℚ) ^ s := by
      rw [hq, hk, ← sub_mul, abs_mul, abs_of_pos hp]
      simp
    rw [hr, hfk]
    refine ⟨mul_le_mul_of_nonneg_right (hnear.le_int k) (le_of_lt hp), fun hne heq => ?_⟩
    have hkm : (k : ℤ) ≠ (m : ℤ) := by
      intro h
      apply hne
      have : k = m := by exact_mod_cast h
      rw [hk, this]
    exact hnear.tie k hkm (mul_right_cancel₀ (ne_of_gt hp) heq)
  · -- `f` is finer than `2 ^ s`, hence below `2 ^ 52 * 2 ^ s ≤ q`
    have hlt : e' < s := by omega
    have hs : -1074 < s := by omega
    have hx := hfine hs
    have hfl : f < ((2 ^ 52 : ℕ) : ℚ) * (2 : ℚ) ^ s := by
      have h1 : (m' : ℚ) < (2 : ℚ) ^ (53 : ℤ) := by
        have e : (2 : ℚ) ^ (53 : ℤ) = ((2 ^ 53 : ℕ) : ℚ) := by norm_num
        rw [e]
        exact_mod_cast hm'
      have h2 : (2 : ℚ) ^ e' ≤ (2 : ℚ) ^ (s - 1) := two_zpow_le (by omega)
      have h3 : ((2 ^ 52 : ℕ) : ℚ) * (2 : ℚ) ^ s = (2 : ℚ) ^ (53 : ℤ) * (2 : ℚ) ^ (s - 1) := by
        have e : ((2 ^ 52 : ℕ) : ℚ) = (2 : ℚ) ^ (52 : ℤ) := by norm_num
        rw [e, ← two_zpow_add, ← two_zpow_add]
        congr 1
        ring
      rw [hfe, h3]
      calc (m' : ℚ) * (2 : ℚ) ^ e' ≤ (m' : ℚ) * (2 : ℚ) ^ (s - 1) :=
            mul_le_mul_of_nonneg_left h2 (by positivity)
        _ < (2 : ℚ) ^ (53 : ℤ) * (2 : ℚ) ^ (s - 1) :=
            mul_lt_mul_of_pos_right h1 (two_zpow_pos _)
    have hbase : ((2 ^ 52 : ℕ) : ℚ) * (2 : ℚ) ^ s ≤ q := by
      rw [hq]
      exact mul_le_mul_of_nonneg_right hx (le_of_lt hp)
    have h52 := hnear.le_int ((2 ^ 52 : ℕ) : ℤ)
    have h52' : |x - m| * (2 : ℚ) ^ s ≤ q - ((2 ^ 52 : ℕ) : ℚ) * (2 : ℚ) ^ s := by
      have e : q - ((2 ^ 52 : ℕ) : ℚ) * (2 : ℚ) ^ s =
          |x - (((2 ^ 52 : ℕ) : ℤ) : ℚ)| * (2 : ℚ) ^ s := by
        rw [hq, ← sub_mul]
        congr 1
        rw [abs_of_nonneg]
        · simp
        · have : ((((2 ^ 52 : ℕ) : ℤ) : ℚ)) = ((2 ^ 52 : ℕ) : ℚ) := by simp
          rw [this]
          linarith
      rw [e]
      exact mul_le_mul_of_nonneg_right h52 (le_of_lt hp)
    have hpos : 0 < q - f := by linarith
    rw [hr, abs_of_pos hpos]
    refine ⟨by linarith, fun _ heq => ?_⟩
    exfalso
    linarith

/-- The rounded value of a non-zero `n / d` that passes the overflow test is a
float64, in normalised form. -/
theorem rounded_rep (n d : Nat) (hn : n ≠ 0) (hd : d ≠ 0)
    (hno : ¬ (2 : ℚ) ^ (1024 : ℤ) ≤ (float64Mantissa n d : ℚ) * (2 : ℚ) ^ float64Scale n d) :
    ∃ (m0 : ℕ) (e0 : ℤ),
      Float64Rep ((float64Mantissa n d : ℚ) * (2 : ℚ) ^ float64Scale n d) m0 e0 ∧
        (float64Mantissa n d % 2 = 0 → m0 % 2 = 0) ∧ (2 ^ 52 ≤ m0 ∨ e0 = -1074) := by
  obtain ⟨_, hm, hbig⟩ := mantissa_bounds n d hn hd
  obtain ⟨_, hs2, hs3⟩ := float64Scale_cases n d
  generalize float64Mantissa n d = m at *
  generalize float64Scale n d = s at *
  have e52 : (2 : ℚ) ^ (52 : ℤ) = ((2 ^ 52 : ℕ) : ℚ) := by norm_num
  have e53 : (2 : ℚ) ^ (53 : ℤ) = ((2 ^ 53 : ℕ) : ℚ) := by norm_num
  by_cases hlt : m < 2 ^ 53
  · refine ⟨m, s, ⟨hlt, hs2, ?_, rfl⟩, fun h => h, ?_⟩
    · by_contra hcon
      have hs : 972 ≤ s := by omega
      obtain ⟨_, hm52⟩ := hbig (hs3 (by omega))
      apply hno
      have hm52' : (2 : ℚ) ^ (52 : ℤ) ≤ (m : ℚ) := by
        rw [e52]
        exact_mod_cast hm52
      calc (2 : ℚ) ^ (1024 : ℤ) = (2 : ℚ) ^ (52 : ℤ) * (2 : ℚ) ^ (972 : ℤ) := by
            rw [← two_zpow_add]
            norm_num
        _ ≤ (m : ℚ) * (2 : ℚ) ^ s :=
            mul_le_mul hm52' (two_zpow_le hs) (le_of_lt (two_zpow_pos _)) (by positivity)
    · by_cases hs : -1074 < s
      · exact Or.inl (hbig (hs3 hs)).2
      · exact Or.inr (by omega)
  · have hm53 : m = 2 ^ 53 := by omega
    subst hm53
    refine ⟨2 ^ 52, s + 1, ⟨by norm_num, by omega, ?_, ?_⟩, fun _ => by norm_num,
      Or.inl (le_refl _)⟩
    · by_contra hcon
      have hs : 971 ≤ s := by omega
      apply hno
      calc (2 : ℚ) ^ (1024 : ℤ) = (2 : ℚ) ^ (53 : ℤ) * (2 : ℚ) ^ (971 : ℤ) := by
            rw [← two_zpow_add]
            norm_num
        _ ≤ ((2 ^ 53 : ℕ) : ℚ) * (2 : ℚ) ^ s := by
            rw [← e53]
            exact mul_le_mul_of_nonneg_left (two_zpow_le hs) (le_of_lt (two_zpow_pos _))
    · rw [← e53, ← e52, ← two_zpow_add, ← two_zpow_add]
      congr 1
      ring

/-- What `roundFloat64` returns is the float64 nearest to `n / d`, ties to even. -/
theorem roundFloat64_some (n d : Nat) (hd : d ≠ 0) (r : ℚ) (h : roundFloat64 n d = some r) :
    NearestFloat64 ((n : ℚ) / d) r := by
  unfold roundFloat64 at h
  by_cases hn : n = 0
  · rw [if_pos hn] at h
    have hr : r = 0 := (Option.some.inj h).symm
    subst hr
    subst hn
    have h0 : IsFloat64 0 := ⟨0, 0, by norm_num, by norm_num, by norm_num, by simp⟩
    refine ⟨h0, fun f _ => by simp, fun f _ hne heq => ?_⟩
    exfalso
    apply hne
    simpa using heq
  · rw [if_neg hn] at h
    split_ifs at h with hov
    have hr : r = (float64Mantissa n d : ℚ) * (2 : ℚ) ^ float64Scale n d :=
      (Option.some.inj h).symm
    have hno := mt (overflow_iff n d hn hd).2 hov
    obtain ⟨m0, e0, hrep, heven, hnorm⟩ := rounded_rep n d hn hd hno
    have hnear := mantissa_near n d hd
    obtain ⟨_, _, hbig⟩ := mantissa_bounds n d hn hd
    obtain ⟨_, _, hs3⟩ := float64Scale_cases n d
    have hq : (n : ℚ) / d =
        (n : ℚ) / d / (2 : ℚ) ^ float64Scale n d * (2 : ℚ) ^ float64Scale n d :=
      (div_mul_cancel₀ _ (ne_of_gt (two_zpow_pos _))).symm
    have key := fun f hf => nearest_scaled hq hnear (fun hs => (hbig (hs3 hs)).1) f hf
    rw [hr]
    refine ⟨⟨m0, e0, hrep⟩, fun f hf => (key f hf).1, fun f hf hne heq => ?_⟩
    exact ⟨m0, e0, hrep, heven ((key f hf).2 hne heq), hnorm⟩

theorem float64Limit_eq :
    float64Limit = ((2 : ℚ) ^ (53 : ℤ) - 1 / 2) * (2 : ℚ) ^ (971 : ℤ) := by
  unfold float64Limit
  have h1 : (2 : ℚ) ^ (1024 : ℕ) = (2 : ℚ) ^ (53 : ℤ) * (2 : ℚ) ^ (971 : ℤ) := by
    rw [← two_zpow_add, ← zpow_natCast]
    norm_num
  have h2 : (2 : ℚ) ^ (971 : ℤ) = 2 * (2 : ℚ) ^ (970 : ℕ) := by
    have : (971 : ℤ) = 1 + 970 := by norm_num
    rw [this, two_zpow_add, ← zpow_natCast]
    norm_num
  rw [h1, h2]
  ring

theorem float64Limit_gt : (2 : ℚ) ^ (1023 : ℤ) < float64Limit := by
  rw [float64Limit_eq]
  have h1 : (2 : ℚ) ^ (1023 : ℤ) = (2 : ℚ) ^ (52 : ℤ) * (2 : ℚ) ^ (971 : ℤ) := by
    rw [← two_zpow_add]
    norm_num
  rw [h1]
  apply mul_lt_mul_of_pos_right _ (two_zpow_pos _)
  norm_num

theorem ite_none_iff {α : Type} (p : Prop) [Decidable p] (a : α) :
    (if p then none else some a) = none ↔ p := by
  by_cases h : p
  · rw [if_pos h]
    exact ⟨fun _ => h, fun _ => rfl⟩
  · rw [if_neg h]
    exact ⟨fun h' => (by cases h'), fun h' => absurd h' h⟩

/-- The overflow test of `roundFloat64` fires exactly from `float64Limit` on. -/
theorem roundFloat64_none (n d : Nat) (hd : d ≠ 0) :
    roundFloat64 n d = none ↔ float64Limit ≤ (n : ℚ) / d := by
  unfold roundFloat64
  by_cases hn : n = 0
  · subst hn
    simp only [if_true, reduceCtorEq, false_iff, not_le, Nat.cast_zero, zero_div]
    exact lt_trans (two_zpow_pos _) float64Limit_gt
  · rw [if_neg hn]
    have hov := overflow_iff n d hn hd
    have hnear := mantissa_near n d hd
    obtain ⟨hxlt, hm, hbig⟩ := mantissa_bounds n d hn hd
    obtain ⟨hs1, hs2, hs3⟩ := float64Scale_cases n d
    obtain ⟨hlo, hhi⟩ := floorLog2_spec n d hn hd
    have hq : (n : ℚ) / d =
        (n : ℚ) / d / (2 : ℚ) ^ float64Scale n d * (2 : ℚ) ^ float64Scale n d :=
      (div_mul_cancel₀ _ (ne_of_gt (two_zpow_pos _))).symm
    have e52 : (2 : ℚ) ^ (52 : ℤ) = ((2 ^ 52 : ℕ) : ℚ) := by norm_num
    have e53 : (2 : ℚ) ^ (53 : ℤ) = ((2 ^ 53 : ℕ) : ℚ) := by norm_num
    rw [ite_none_iff, hov]
    generalize float64Mantissa n d = m at *
    generalize float64Scale n d = s at *
    generalize floorLog2 n d = E at *
    generalize (n : ℚ) / d = q at *
    generalize hx : q / (2 : ℚ) ^ s = x at *
    have hp := two_zpow_pos s
    constructor
    · intro hge
      -- the scale is at least 971
      have hs971 : 971 ≤ s := by
        by_contra hcon
        have hs' : s ≤ 970 := by omega
        have hm' : (m : ℚ) ≤ (2 : ℚ) ^ (53 : ℤ) := by
          rw [e53]
          exact_mod_cast hm
        have h3 : (m : ℚ) * (2 : ℚ) ^ s ≤ (2 : ℚ) ^ (53 : ℤ) * (2 : ℚ) ^ (970 : ℤ) :=
          mul_le_mul hm' (two_zpow_le hs') (le_of_lt hp) (le_of_lt (two_zpow_pos _))
        rw [← two_zpow_add] at h3
        have h4 := le_trans hge h3
        rw [zpow_le_zpow_iff_right₀ (by norm_num : (1 : ℚ) < 2)] at h4
        omega
      have hsE : s = E - 52 := hs3 (by omega)
      by_cases hs972 : 972 ≤ s
      · have hE : (1024 : ℤ) ≤ E := by omega
        have h1 : (2 : ℚ) ^ (1024 : ℤ) ≤ q := le_trans (two_zpow_le hE) hlo
        have h2 : float64Limit ≤ (2 : ℚ) ^ (1024 : ℤ) := by
          unfold float64Limit
          have : (2 : ℚ) ^ (1024 : ℤ) = (2 : ℚ) ^ (1024 : ℕ) := by
            rw [← zpow_natCast]
            norm_num
          rw [this]
          have : (0 : ℚ) < (2 : ℚ) ^ (970 : ℕ) := by positivity
          linarith
        exact le_trans h2 h1
      · have hs' : s = 971 := by omega
        subst hs'
        have hm53 : (2 : ℚ) ^ (53 : ℤ) ≤ (m : ℚ) := by
          have h3 : (2 : ℚ) ^ (1024 : ℤ) = (2 : ℚ) ^ (53 : ℤ) * (2 : ℚ) ^ (971 : ℤ) := by
            rw [← two_zpow_add]
            norm_num
          rw [h3] at hge
          exact le_of_mul_le_mul_right hge hp
        have hxm : (m : ℚ) - 1 / 2 ≤ x := by
          have := hnear.1
          rw [abs_le] at this
          linarith [this.1]
        rw [float64Limit_eq, hq]
        apply mul_le_mul_of_nonneg_right _ (le_of_lt hp)
        linarith
    · intro hge
      have hE : (1023 : ℤ) ≤ E := by
        have h1 : (2 : ℚ) ^ (1023 : ℤ) < (2 : ℚ) ^ (E + 1) :=
          lt_trans (lt_of_lt_of_le float64Limit_gt hge) hhi
        rw [zpow_lt_zpow_iff_right₀ (by norm_num : (1 : ℚ) < 2)] at h1
        omega
      have hsE : s = E - 52 := by
        by_contra hne
        have : ¬ (-1074 < s) := fun h => hne (hs3 h)
        omega
      obtain ⟨hx52, hm52⟩ := hbig hsE
      by_cases hE' : (1024 : ℤ) ≤ E
      · have hs972 : (972 : ℤ) ≤ s := by omega
        have hm52' : (2 : ℚ) ^ (52 : ℤ) ≤ (m : ℚ) := by
          rw [e52]
          exact_mod_cast hm52
        calc (2 : ℚ) ^ (1024 : ℤ) = (2 : ℚ) ^ (52 : ℤ) * (2 : ℚ) ^ (972 : ℤ) := by
              rw [← two_zpow_add]
              norm_num
          _ ≤ (m : ℚ) * (2 : ℚ) ^ s :=
              mul_le_mul hm52' (two_zpow_le hs972) (le_of_lt (two_zpow_pos _)) (by positivity)
      · have hs' : s = 971 := by omega
        subst hs'
        have hxge : (2 : ℚ) ^ (53 : ℤ) - 1 / 2 ≤ x := by
          rw [float64Limit_eq, hq] at hge
          exact le_of_mul_le_mul_right hge hp
        have hm53 : 2 ^ 53 ≤ m := by
          by_contra hcon
          have hmle : m + 1 ≤ 2 ^ 53 := by omega
          have hmle' : (m : ℚ) + 1 ≤ (2 : ℚ) ^ (53 : ℤ) := by
            rw [e53]
            exact_mod_cast hmle
          have habs := hnear.1
          rw [abs_le] at habs
          have hxm : x - m = 1 / 2 := by linarith [habs.2]
          have hev := hnear.2 (by rw [hxm]; norm_num)
          have hmeq : (m : ℚ) + 1 = (2 : ℚ) ^ (53 : ℤ) := by linarith
          rw [e53] at hmeq
          have hmeq' : m + 1 = 2 ^ 53 := by exact_mod_cast hmeq
          omega
        have hm53' : (2 : ℚ) ^ (53 : ℤ) ≤ (m : ℚ) := by
          rw [e53]
          exact_mod_cast hm53
        calc (2 : ℚ) ^ (1024 : ℤ) = (2 : ℚ) ^ (53 : ℤ) * (2 : ℚ) ^ (971 : ℤ) := by
              rw [← two_zpow_add]
              norm_num
          _ ≤ (m : ℚ) * (2 : ℚ) ^ (971 : ℤ) :=
              mul_le_mul_of_nonneg_right hm53' (le_of_lt hp)

/-! ## The scanning loop against the shape of a numeral -/

theorem scanFloat_after_dot (cs ds : List Char) (k : Nat) (r : List Char × Nat) :
    scanFloat cs true ds k = some r ↔
      (∀ c ∈ cs, c.isDigit = true) ∧ ds ++ cs ≠ [] ∧ r = (ds ++ cs, k + cs.length) := by
  induction cs generalizing ds k with
  | nil =>
    simp only [scanFloat, List.append_nil, List.not_mem_nil, false_implies, implies_true,
      true_and, List.length_nil, Nat.add_zero]
    by_cases hds : ds = []
    · rw [if_pos hds]
      exact ⟨fun h => (by cases h), fun h => absurd hds h.1⟩
    · rw [if_neg hds]
      exact ⟨fun h => ⟨hds, (Option.some.inj h).symm⟩, fun h => congrArg some h.2.symm⟩
  | cons c cs ih =>
    unfold scanFloat
    by_cases hdot : c = '.'
    · subst hdot
      simp only [if_true]
      constructor
      · intro h
        cases h
      · rintro ⟨h, _⟩
        exact absurd (h '.' (List.mem_cons_self _ _)) (by decide)
    · rw [if_neg hdot]
      by_cases hdig : c.isDigit = true
      · rw [if_pos hdig, if_pos rfl, ih]
        simp only [List.mem_cons, forall_eq_or_imp, hdig, true_and, List.append_assoc,
          List.singleton_append, List.length_cons]
        have e : k + 1 + cs.length = k + (cs.length + 1) := by omega
        rw [e]
      · rw [if_neg hdig]
        constructor
        · intro h
          cases h
        · rintro ⟨h, _⟩
          exact absurd (h c (List.mem_cons_self _ _)) hdig

theorem scanFloat_before_dot (cs ds : List Char) (r : List Char × Nat) :
    scanFloat cs false ds 0 = some r ↔
      ((∀ c ∈ cs, c.isDigit = true) ∧ ds ++ cs ≠ [] ∧ r = (ds ++ cs, 0)) ∨
      (∃ ip fp, cs = ip ++ '.' :: fp ∧ (∀ c ∈ ip, c.isDigit = true) ∧
        (∀ c ∈ fp, c.isDigit = true) ∧ ds ++ (ip ++ fp) ≠ [] ∧
          r = (ds ++ (ip ++ fp), fp.length)) := by
  induction cs generalizing ds with
  | nil =>
    simp only [scanFloat, List.append_nil, List.not_mem_nil, false_implies, implies_true,
      true_and]
    by_cases hds : ds = []
    · rw [if_pos hds]
      constructor
      · intro h
        cases h
      · rintro (h | ⟨ip, fp, heq, _⟩)
        · exact absurd hds h.1
        · exact absurd heq (by simp)
    · rw [if_neg hds]
      constructor
      · intro h
        exact Or.inl ⟨hds, (Option.some.inj h).symm⟩
      · rintro (h | ⟨ip, fp, heq, _⟩)
        · exact congrArg some h.2.symm
        · exact absurd heq (by simp)
  | cons c cs ih =>
    unfold scanFloat
    by_cases hdot : c = '.'
    · subst hdot
      simp only [if_true, Bool.false_eq_true, if_false, scanFloat_after_dot, Nat.zero_add]
      constructor
      · rintro ⟨h1, h2, h3⟩
        exact Or.inr ⟨[], cs, rfl, by simp, h1, by simpa using h2, by simpa using h3⟩
      · rintro (⟨h, _⟩ | ⟨ip, fp, heq, hip, hfp, hne, hr⟩)
        · exact absurd (h '.' (List.mem_cons_self _ _)) (by decide)
        · cases ip with
          | nil =>
            simp only [List.nil_append, List.cons.injEq, true_and] at heq
            subst heq
            exact ⟨hfp, by simpa using hne, by simpa using hr⟩
          | cons a ip' =>
            simp only [List.cons_append, List.cons.injEq] at heq
            exact absurd (hip a (List.mem_cons_self _ _)) (by rw [← heq.1]; decide)
    · rw [if_neg hdot]
      by_cases hdig : c.isDigit = true
      · rw [if_pos hdig]
        simp only [Bool.false_eq_true, if_false]
        rw [ih]
        constructor
        · rintro (⟨h1, h2, h3⟩ | ⟨ip, fp, heq, hip, hfp, hne, hr⟩)
          · refine Or.inl ⟨?_, by simp, by simpa using h3⟩
            intro x hx
            rcases List.mem_cons.1 hx with rfl | hx
            · exact hdig
            · exact h1 x hx
          · refine Or.inr ⟨c :: ip, fp, by rw [heq]; rfl, ?_, hfp, by simp, by simpa using hr⟩
            intro x hx
            rcases List.mem_cons.1 hx with rfl | hx
            · exact hdig
            · exact hip x hx
        · rintro (⟨h1, h2, h3⟩ | ⟨ip, fp, heq, hip, hfp, hne, hr⟩)
          · exact Or.inl ⟨fun x hx => h1 x (List.mem_cons_of_mem _ hx), by simp,
              by simpa using h3⟩
          · cases ip with
            | nil =>
              simp only [List.nil_append, List.cons.injEq] at heq
              exact absurd heq.1 hdot
            | cons a ip' =>
              simp only [List.cons_append, List.cons.injEq] at heq
              obtain ⟨rfl, heq⟩ := heq
              exact Or.inr ⟨ip', fp, heq, fun x hx => hip x (List.mem_cons_of_mem _ hx), hfp,
                by simp, by simpa using hr⟩
      · rw [if_neg hdig]
        constructor
        · intro h
          cases h
        · rintro (⟨h, _⟩ | ⟨ip, fp, heq, hip, _, _, _⟩)
          · exact absurd (h c (List.mem_cons_self _ _)) hdig
          · cases ip with
            | nil =>
              simp only [List.nil_append, List.cons.injEq] at heq
              exact absurd heq.1 hdot
            | cons a ip' =>
              simp only [List.cons_append, List.cons.injEq] at heq
              exact absurd (hip a (List.mem_cons_self _ _)) (by rw [← heq.1]; exact hdig)

/-- The scanning loop accepts exactly the numerals, and delivers their digits. -/
theorem scanFloat_numeral (t : List Char) (r : List Char × Nat) :
    scanFloat t false [] 0 = some r ↔
      ∃ ip fp, Numeral t ip fp ∧ r = (ip ++ fp, fp.length) := by
  rw [scanFloat_before_dot]
  constructor
  · rintro (⟨h1, h2, h3⟩ | ⟨ip, fp, heq, hip, hfp, hne, hr⟩)
    · exact ⟨t, [], ⟨h1, by simp, Or.inl (by simpa using h2), Or.inl ⟨rfl, rfl⟩⟩,
        by simpa using h3⟩
    · refine ⟨ip, fp, ⟨hip, hfp, ?_, Or.inr heq⟩, by simpa using hr⟩
      by_contra hcon
      push_neg at hcon
      apply hne
      simp [hcon.1, hcon.2]
  · rintro ⟨ip, fp, ⟨hip, hfp, hne, hform⟩, hr⟩
    rcases hform with ⟨ht, hfp0⟩ | ht
    · subst hfp0
      subst ht
      refine Or.inl ⟨hip, ?_, by simpa using hr⟩
      rcases hne with h | h
      · simpa using h
      · exact absurd rfl h
    · refine Or.inr ⟨ip, fp, ht, hip, hfp, ?_, by simpa using hr⟩
      rcases hne with h | h
      · simp [h]
      · simp [h]

/-! ## Facts about the two string helpers -/

theorem replaceAllClass_nil (cls : Char → Bool) (s : List Char) :
    replaceAllClass cls [] s = s.filter (fun c => !cls c) := by
  induction s with
  | nil => rfl
  | cons c cs ih =>
    by_cases h : cls c = true
    · simp [replaceAllClass, h, ih]
    · simp [replaceAllClass, h, ih]

theorem filter_not_notDigitDot (s : List Char) :
    s.filter (fun c => !notDigitDot c) = s.filter (fun c => c.isDigit || c == '.') := by
  congr 1
  funext c
  simp [notDigitDot]

theorem matchHere_of_occurrence {base pre y m post : List Char}
    (h : Occurrence base pre y m post) :
    matchHere (base.drop pre.length) = some (y, m) := by
  obtain ⟨hb, hy, hyd, hm, hmd⟩ := h
  have h1 : base.drop pre.length = y ++ (template ++ (m ++ post)) := by
    rw [hb, List.drop_left]
  have e1 : (y ++ (template ++ (m ++ post))).take 4 = y := by
    rw [← hy, List.take_left]
  have e2 : (y ++ (template ++ (m ++ post))).drop 4 = template ++ (m ++ post) := by
    rw [← hy, List.drop_left]
  have e3 : (template ++ (m ++ post)).take template.length = template := List.take_left _ _
  have e4 : (template ++ (m ++ post)).drop template.length = m ++ post := List.drop_left _ _
  have e5 : (m ++ post).take 2 = m := by rw [← hm, List.take_left]
  have hyd' : y.all Char.isDigit = true := List.all_eq_true.2 hyd
  have hmd' : m.all Char.isDigit = true := List.all_eq_true.2 hmd
  simp only [matchHere, h1, e1, e2, e3, e4, e5]
  simp [hy, hm, hyd', hmd']

theorem occurrence_of_matchHere {s y m : List Char} (h : matchHere s = some (y, m)) :
    Occurrence s [] y m (((s.drop 4).drop template.length).drop 2) := by
  unfold matchHere at h
  simp only at h
  split_ifs at h with hc
  obtain ⟨h1, h2, h3, h4, h5⟩ := hc
  simp only [Option.some.injEq, Prod.mk.injEq] at h
  obtain ⟨ey, em⟩ := h
  refine ⟨?_, ey ▸ h1, ?_, em ▸ h4, ?_⟩
  · have a := (List.take_append_drop 4 s).symm
    have b := (List.take_append_drop template.length (s.drop 4)).symm
    rw [h3] at b
    have c := (List.take_append_drop 2 ((s.drop 4).drop template.length)).symm
    rw [← ey, ← em, List.nil_append, ← c, ← b, ← a]
  · rw [← ey]; exact List.all_eq_true.1 h2
  · rw [← em]; exact List.all_eq_true.1 h5

theorem findSubmatch_eq_none {s : List Char} :
    findSubmatch s = none ↔ ∀ k, k ≤ s.length → matchHere (s.drop k) = none := by
  induction s with
  | nil =>
    constructor
    · intro h k _
      simpa [findSubmatch] using h
    · intro h
      simpa [findSubmatch] using h 0 (Nat.le_refl _)
  | cons c cs ih =>
    constructor
    · intro h k hk
      unfold findSubmatch at h
      cases hm : matchHere (c :: cs) with
      | some r => rw [hm] at h; cases h
      | none =>
        rw [hm] at h
        cases k with
        | zero => simpa using hm
        | succ j =>
          simp only [List.drop_succ_cons]
          exact (ih.1 h) j (by simpa using hk)
    · intro h
      unfold findSubmatch
      have h0 := h 0 (Nat.zero_le _)
      simp only [List.drop_zero] at h0
      rw [h0]
      exact ih.2 (fun k hk => by
        have := h (k + 1) (by simpa using hk)
        simpa using this)

theorem findSubmatch_eq_some {s : List Char} {r : List Char × List Char}
    (h : findSubmatch s = some r) :
    ∃ k, k ≤ s.length ∧ matchHere (s.drop k) = some r ∧
      ∀ j, j < k → matchHere (s.drop j) = none := by
  induction s with
  | nil =>
    refine ⟨0, Nat.le_refl _, ?_, fun j hj => absurd hj (Nat.not_lt_zero _)⟩
    simpa [findSubmatch] using h
  | cons c cs ih =>
    unfold findSubmatch at h
    cases hm : matchHere (c :: cs) with
    | some r0 =>
      rw [hm] at h
      simp only [Option.some.injEq] at h
      subst h
      exact ⟨0, Nat.zero_le _, by simpa using hm, fun j hj => absurd hj (Nat.not_lt_zero _)⟩
    | none =>
      rw [hm] at h
      obtain ⟨k, hk, hmk, hlt⟩ := ih h
      refine ⟨k + 1, by simpa using hk, by simpa using hmk, ?_⟩
      intro j hj
      cases j with
      | zero => simpa using hm
      | succ i =>
        simp only [List.drop_succ_cons]
        exact hlt i (by omega)

theorem occurrence_length_le {base pre y m post : List Char}
    (h : Occurrence base pre y m post) : pre.length ≤ base.length := by
  rw [h.1]; simp

theorem atoi_digits {ds : List Char} (hne : ds ≠ []) (hd : ∀ c ∈ ds, c.isDigit = true) :
    atoi ds = (digitsVal ds : Int) := by
  have hall : ds.all Char.isDigit = true := List.all_eq_true.2 hd
  cases ds with
  | nil => exact absurd rfl hne
  | cons c cs =>
    have hc : c.isDigit = true := hd c (List.mem_cons_self _ _)
    have h1 : c ≠ '-' := by
      rintro rfl
      exact absurd hc (by decide)
    have h2 : c ≠ '+' := by
      rintro rfl
      exact absurd hc (by decide)
    unfold atoi
    split
    · rename_i heq
      exact absurd (List.cons.inj heq).1 h1
    · rename_i heq
      exact absurd (List.cons.inj heq).1 h2
    · simp only [hall, ne_eq, not_false_eq_true, and_self, reduceCtorEq, ite_true]

theorem filepathBase_join (dir name : List Char) (hname : name ≠ [])
    (hs : ∀ c ∈ name, c ≠ '/') : filepathBase (dir ++ '/' :: name) = name := by
  have hlast : name.getLast hname ≠ '/' := hs _ (List.getLast_mem hname)
  obtain ⟨c, cs, hrev⟩ : ∃ c cs, name.reverse = c :: cs := by
    cases hr : name.reverse with
    | nil => exact absurd (List.reverse_eq_nil_iff.1 hr) hname
    | cons c cs => exact ⟨c, cs, rfl⟩
  have hc : c ≠ '/' := hs c (by
    have : c ∈ name.reverse := by rw [hrev]; exact List.mem_cons_self _ _
    exact List.mem_reverse.1 this)
  have hrs : ∀ x ∈ name.reverse, (!(x == '/')) = true := by
    intro x hx
    have := hs x (List.mem_reverse.1 hx)
    simpa using this
  unfold filepathBase
  have hne : dir ++ '/' :: name ≠ [] := by simp
  rw [if_neg hne]
  have e1 : (dir ++ '/' :: name).reverse = name.reverse ++ '/' :: dir.reverse := by simp
  have e2 : List.dropWhile (fun c => c == '/') (name.reverse ++ '/' :: dir.reverse)
      = name.reverse ++ '/' :: dir.reverse := by
    have hc' : (c == '/') = false := by simpa using hc
    rw [hrev]
    simp [List.dropWhile, hc']
  have e3 : List.takeWhile (fun c => !(c == '/')) (name.reverse ++ '/' :: dir.reverse)
      = name.reverse := by
    rw [List.takeWhile_append_of_pos hrs]
    simp [List.takeWhile]
  simp only [e1, e2, List.reverse_reverse, e3]
  rw [if_neg hname]

/-! ## C1, C2: the two string functions -/

theorem occurrence_of_matchHere_drop {base : List Char} {k : Nat}
    {r : List Char × List Char} (hmk : matchHere (base.drop k) = some r) :
    Occurrence base (base.take k) r.1 r.2
      ((((base.drop k).drop 4).drop template.length).drop 2) := by
  obtain ⟨a, b, c, d, e⟩ := occurrence_of_matchHere (s := base.drop k) (y := r.1) (m := r.2) hmk
  refine ⟨?_, b, c, d, e⟩
  rw [List.nil_append] at a
  rw [← a, List.take_append_drop]

theorem findSubmatch_leftmost {base pre y m post : List Char}
    (h : Occurrence base pre y m post)
    (hmin : ∀ pre' y' m' post', Occurrence base pre' y' m' post' → pre.length ≤ pre'.length) :
    findSubmatch base = some (y, m) := by
  have hm := matchHere_of_occurrence h
  have hle := occurrence_length_le h
  cases hf : findSubmatch base with
  | none =>
    have := (findSubmatch_eq_none.1 hf) pre.length hle
    rw [hm] at this
    cases this
  | some r =>
    obtain ⟨k, hk, hmk, hlt⟩ := findSubmatch_eq_some hf
    have hk1 : ¬ pre.length < k := by
      intro hlt'
      have := hlt _ hlt'
      rw [hm] at this
      cases this
    have hocc := occurrence_of_matchHere_drop hmk
    have hk2 := hmin _ _ _ _ hocc
    rw [List.length_take, Nat.min_eq_left hk] at hk2
    have hkeq : k = pre.length := by omega
    rw [hkeq, hm] at hmk
    exact congrArg _ (Option.some.inj hmk).symm

theorem cleanRevenueValue_eq (s : String) :
    cleanRevenueValue s =
      if keptChars s = [] then .ok 0 else parseFloat (String.mk (keptChars s)) := by
  unfold cleanRevenueValue keptChars
  simp only [replaceAllClass_nil, filter_not_notDigitDot]
  by_cases h : s.data.filter (fun c => c.isDigit || c == '.') = []
  · rw [if_pos h, if_pos (by rw [h])]
  · rw [if_neg h, if_neg (fun hh => h (by simpa using congrArg String.data hh))]

theorem parseFloat_numeral (t ip fp : List Char) (h : Numeral t ip fp) :
    parseFloat (String.mk t) =
      match roundFloat64 (digitsVal (ip ++ fp)) (10 ^ fp.length) with
      | none => .error ("strconv.ParseFloat: parsing \"" ++ String.mk t ++ "\": value out of range")
      | some r => .ok r := by
  unfold parseFloat
  have := (scanFloat_numeral t (ip ++ fp, fp.length)).2 ⟨ip, fp, h, rfl⟩
  simp only [this]

theorem parseFloat_not_numeral (t : List Char) (h : ¬ ∃ ip fp, Numeral t ip fp) :
    parseFloat (String.mk t) =
      .error ("strconv.ParseFloat: parsing \"" ++ String.mk t ++ "\": invalid syntax") := by
  unfold parseFloat
  cases hs : scanFloat (String.mk t).data false [] 0 with
  | none => rfl
  | some r =>
    exfalso
    obtain ⟨ip, fp, hn, _⟩ := (scanFloat_numeral t r).1 hs
    exact h ⟨ip, fp, hn⟩

theorem numeralValue_eq (ip fp : List Char) :
    numeralValue ip fp = ((digitsVal (ip ++ fp) : ℕ) : ℚ) / ((10 ^ fp.length : ℕ) : ℚ) := by
  unfold numeralValue
  push_cast
  rfl

theorem numeral_unique {t ip fp ip' fp' : List Char} (h : Numeral t ip fp)
    (h' : Numeral t ip' fp') : ip ++ fp = ip' ++ fp' ∧ fp.length = fp'.length := by
  have a := (scanFloat_numeral t (ip ++ fp, fp.length)).2 ⟨ip, fp, h, rfl⟩
  have b := (scanFloat_numeral t (ip' ++ fp', fp'.length)).2 ⟨ip', fp', h', rfl⟩
  rw [a] at b
  simpa using b

set_option maxRecDepth 100000 in
/-- C1 (as stated, refuted): the text of 310 nines is a decimal numeral (it keeps all
its characters and is made of digits) and yet `cleanRevenueValue` returns an error,
the range error of `strconv.ParseFloat`. -/
theorem range_error_on_numeral :
    keptChars hugeNumeral = List.replicate 310 '9' ∧
    Numeral (keptChars hugeNumeral) (List.replicate 310 '9') [] ∧
    cleanRevenueValue hugeNumeral =
      .error ("strconv.ParseFloat: parsing \"" ++ hugeNumeral ++ "\": value out of range") := by
  have hk : keptChars hugeNumeral = List.replicate 310 '9' := by decide
  refine ⟨hk, ⟨?_, by simp, Or.inl (by decide), Or.inl ⟨hk, rfl⟩⟩, by decide⟩
  intro c hc
  rw [(List.mem_replicate.1 hc).2]
  rfl

/-- C1 (amended): `cleanRevenueValue` deletes every character other than an ASCII
digit or a dot.  An empty remainder gives 0 without error.  A remainder that is
a decimal numeral (digits with at most one dot and at least one digit) of value below
`2 ^ 1024 - 2 ^ 970` gives the float64 nearest to that value, ties to even.  An error
is returned exactly when the remainder is not empty and is either no such numeral or
a numeral of value `2 ^ 1024 - 2 ^ 970` or more.  So the empty string gives 0,
"¥1,234.56" gives the float64 nearest 1234.56, and "1.2.3" is an error. -/
theorem cleanRevenueValue_spec (s : String) :
    (keptChars s = [] → cleanRevenueValue s = .ok 0) ∧
    (∀ ip fp, Numeral (keptChars s) ip fp → numeralValue ip fp < float64Limit →
      ∃ r, cleanRevenueValue s = .ok r ∧ NearestFloat64 (numeralValue ip fp) r) ∧
    ((∃ e, cleanRevenueValue s = .error e) ↔
      keptChars s ≠ [] ∧ ((¬ ∃ ip fp, Numeral (keptChars s) ip fp) ∨
        ∃ ip fp, Numeral (keptChars s) ip fp ∧ float64Limit ≤ numeralValue ip fp)) ∧
    cleanRevenueValue "" = .ok 0 ∧
    (cleanRevenueValue "¥1,234.56" = .ok ((5429652300748554 : ℚ) / 2 ^ 42) ∧
      |(5429652300748554 : ℚ) / 2 ^ 42 - 1234.56| ≤ 1 / 2 ^ 43) ∧
    cleanRevenueValue "9007199254740993" = .ok 9007199254740992 ∧
    cleanRevenueValue "1.2.3" =
      .error "strconv.ParseFloat: parsing \"1.2.3\": invalid syntax" := by
  have hpow : ∀ k : ℕ, (10 ^ k : ℕ) ≠ 0 := fun k => by positivity
  refine ⟨?_, ?_, ?_, by decide, ⟨?_, ?_⟩, ?_, by decide⟩
  · intro h
    rw [cleanRevenueValue_eq, if_pos h]
  · intro ip fp hn hlt
    have hne : keptChars s ≠ [] := by
      intro h0
      rw [h0] at hn
      obtain ⟨_, _, hne, hform⟩ := hn
      rcases hform with ⟨h1, h2⟩ | h1
      · rcases hne with h | h
        · exact h h1.symm
        · exact h h2
      · exact absurd h1 (by simp)
    rw [cleanRevenueValue_eq, if_neg hne, parseFloat_numeral _ ip fp hn]
    cases hr : roundFloat64 (digitsVal (ip ++ fp)) (10 ^ fp.length) with
    | none =>
      exfalso
      have := (roundFloat64_none _ _ (hpow fp.length)).1 hr
      rw [← numeralValue_eq] at this
      exact absurd hlt (not_lt.2 this)
    | some r =>
      refine ⟨r, rfl, ?_⟩
      have := roundFloat64_some _ _ (hpow fp.length) r hr
      rw [← numeralValue_eq] at this
      exact this
  · rw [cleanRevenueValue_eq]
    by_cases h0 : keptChars s = []
    · rw [if_pos h0]
      constructor
      · rintro ⟨e, he⟩
        cases he
      · rintro ⟨h, _⟩
        exact absurd h0 h
    · rw [if_neg h0]
      by_cases hn : ∃ ip fp, Numeral (keptChars s) ip fp
      · obtain ⟨ip, fp, hnum⟩ := hn
        rw [parseFloat_numeral _ ip fp hnum]
        cases hr : roundFloat64 (digitsVal (ip ++ fp)) (10 ^ fp.length) with
        | none =>
          have hge := (roundFloat64_none _ _ (hpow fp.length)).1 hr
          rw [← numeralValue_eq] at hge
          exact ⟨fun _ => ⟨h0, Or.inr ⟨ip, fp, hnum, hge⟩⟩, fun _ => ⟨_, rfl⟩⟩
        | some r =>
          constructor
          · rintro ⟨e, he⟩
            cases he
          · rintro ⟨_, hcase⟩
            exfalso
            rcases hcase with hno | ⟨ip', fp', hnum', hge⟩
            · exact hno ⟨ip, fp, hnum⟩
            · obtain ⟨h1, h2⟩ := numeral_unique hnum hnum'
              have hv : numeralValue ip' fp' = numeralValue ip fp := by
                unfold numeralValue
                rw [h1, h2]
              rw [hv, numeralValue_eq] at hge
              have := (roundFloat64_none _ _ (hpow fp.length)).2 hge
              rw [hr] at this
              cases this
      · rw [parseFloat_not_numeral _ hn]
        exact ⟨fun _ => ⟨h0, Or.inl hn⟩, fun _ => ⟨_, rfl⟩⟩
  · have h : cleanRevenueValue "¥1,234.56" =
        .ok (((5429652300748554 : ℕ) : ℚ) * (2 : ℚ) ^ (-42 : ℤ)) := rfl
    rw [h]
    norm_num
  · rw [abs_le]
    constructor <;> norm_num
  · have h : cleanRevenueValue "9007199254740993" =
        .ok (((4503599627370496 : ℕ) : ℚ) * (2 : ℚ) ^ (1 : ℤ)) := rfl
    rw [h]
    norm_num

/-- Witness of C1 (amended): the remainder of "¥1,234.56" is the numeral 1234.56,
below the range limit, and the result is the float64 nearest to it. -/
theorem cleanRevenueValue_spec_witness :
    Numeral (keptChars "¥1,234.56") "1234".data "56".data ∧
      numeralValue "1234".data "56".data < float64Limit ∧
      ∃ r, cleanRevenueValue "¥1,234.56" = .ok r ∧
        NearestFloat64 (numeralValue "1234".data "56".data) r := by
  have hn : Numeral (keptChars "¥1,234.56") "1234".data "56".data :=
    ⟨by decide, by decide, Or.inl (by decide), Or.inr (by decide)⟩
  have hv : numeralValue "1234".data "56".data < float64Limit := by
    have e : numeralValue "1234".data "56".data = ((123456 : ℕ) : ℚ) / 10 ^ 2 := rfl
    rw [e]
    refine lt_trans ?_ float64Limit_gt
    have : (2 : ℚ) ^ (1023 : ℤ) = (2 : ℚ) ^ (11 : ℤ) * (2 : ℚ) ^ (1012 : ℤ) := by
      rw [← two_zpow_add]
      norm_num
    rw [this]
    have h1 : (1 : ℚ) ≤ (2 : ℚ) ^ (1012 : ℤ) := by
      have := two_zpow_le (show (0 : ℤ) ≤ 1012 by norm_num)
      simpa using this
    have h2 : ((123456 : ℕ) : ℚ) / 10 ^ 2 < (2 : ℚ) ^ (11 : ℤ) := by norm_num
    nlinarith [two_zpow_pos (11 : ℤ)]
  exact ⟨hn, hv, (cleanRevenueValue_spec "¥1,234.56").2.1 _ _ hn hv⟩

/-- C2: `extractYearMonth` fails exactly when the base name of the path has no
occurrence of four ASCII digits, "区域结算单(" and two ASCII digits; otherwise it
returns the values of the digits of the leftmost occurrence.  A directory component
is not part of the base name, so a match there does not count. -/
theorem extractYearMonth_spec (filePath : String) :
    ((∃ e, extractYearMonth filePath = .error e) ↔
      ¬ ∃ pre y m post, Occurrence (filepathBase filePath.data) pre y m post) ∧
    (∀ pre y m post, Occurrence (filepathBase filePath.data) pre y m post →
      (∀ pre' y' m' post', Occurrence (filepathBase filePath.data) pre' y' m' post' →
        pre.length ≤ pre'.length) →
      extractYearMonth filePath = .ok ((digitsVal y : Int), (digitsVal m : Int))) ∧
    extractYearMonth "2021区域结算单(03.01-03.31).xlsx" = .ok (2021, 3) ∧
    (∀ dir name : List Char, name ≠ [] → (∀ c ∈ name, c ≠ '/') →
      filepathBase (dir ++ '/' :: name) = name) ∧
    extractYearMonth "2021区域结算单(03.01-03.31)/a.xlsx" =
      .error "无法从文件名提取年份和月份: 2021区域结算单(03.01-03.31)/a.xlsx" := by
  refine ⟨?_, ?_, by decide, fun dir name h1 h2 => filepathBase_join dir name h1 h2, by decide⟩
  · constructor
    · rintro ⟨e, he⟩ ⟨pre, y, m, post, hocc⟩
      have hm := matchHere_of_occurrence hocc
      have hle := occurrence_length_le hocc
      unfold extractYearMonth at he
      cases hf : findSubmatch (filepathBase filePath.data) with
      | none =>
        have := (findSubmatch_eq_none.1 hf) pre.length hle
        rw [hm] at this
        cases this
      | some r =>
        simp only [hf] at he
        cases he
    · intro hno
      unfold extractYearMonth
      cases hf : findSubmatch (filepathBase filePath.data) with
      | none => exact ⟨"无法从文件名提取年份和月份: " ++ filePath, by simp only [hf]⟩
      | some r =>
        exfalso
        obtain ⟨k, hk, hmk, -⟩ := findSubmatch_eq_some hf
        exact hno ⟨_, _, _, _, occurrence_of_matchHere_drop hmk⟩
  · intro pre y m post hocc hmin
    have hf := findSubmatch_leftmost hocc hmin
    unfold extractYearMonth
    simp only [hf]
    have hy : y ≠ [] := by
      intro h0
      have := hocc.2.1
      rw [h0] at this
      cases this
    have hm : m ≠ [] := by
      intro h0
      have := hocc.2.2.2.1
      rw [h0] at this
      cases this
    rw [atoi_digits hy hocc.2.2.1, atoi_digits hm hocc.2.2.2.2]

/-- Witness of C2: the base name "2021区域结算单(03.01-03.31).xlsx" has its leftmost
occurrence at the start, and the result is the value of its digits. -/
theorem extractYearMonth_spec_witness :
    Occurrence (filepathBase "2021区域结算单(03.01-03.31).xlsx".data) [] "2021".data "03".data
        ".01-03.31).xlsx".data ∧
      extractYearMonth "2021区域结算单(03.01-03.31).xlsx" =
        .ok ((digitsVal "2021".data : Int), (digitsVal "03".data : Int)) := by
  have hocc : Occurrence (filepathBase "2021区域结算单(03.01-03.31).xlsx".data) []
      "2021".data "03".data ".01-03.31).xlsx".data :=
    ⟨by decide, rfl, by decide, rfl, by decide⟩
  exact ⟨hocc, (extractYearMonth_spec "2021区域结算单(03.01-03.31).xlsx").2.1 _ _ _ _ hocc
    (fun _ _ _ _ _ => Nat.zero_le _)⟩

/-! ## Maps and `range` -/

theorem range_mem {K V : Type} [DecidableEq K] (it : MapIter) (m : GoMap K V) (k : K) (v : V) :
    (k, v) ∈ it.range m ↔ m.lookup k = some v := by
  unfold MapIter.range
  rw [(it.perm _).mem_iff, List.mem_map]
  constructor
  · rintro ⟨e, he, heq⟩
    cases heq
    exact AList.mem_lookup_iff.2 he
  · intro h
    exact ⟨⟨k, v⟩, AList.mem_lookup_iff.1 h, rfl⟩

theorem keys_perm {K V : Type} (it : MapIter) (m : GoMap K V) : (it.keys m).Perm m.keys := by
  unfold MapIter.keys MapIter.range
  refine ((it.perm _).map Prod.fst).trans ?_
  rw [List.map_map]
  exact List.Perm.refl _

theorem keys_nodup {K V : Type} (it : MapIter) (m : GoMap K V) : (it.keys m).Nodup :=
  (keys_perm it m).nodup_iff.2 m.keys_nodup

theorem keys_mem {K V : Type} [DecidableEq K] (it : MapIter) (m : GoMap K V) (k : K) :
    k ∈ it.keys m ↔ m.lookup k ≠ none := by
  rw [(keys_perm it m).mem_iff, ← AList.mem_keys, ← AList.lookup_isSome,
    Option.isSome_iff_ne_none]

theorem assoc_eq_none {K V : Type} [DecidableEq K] (es : List (K × V)) (k : K) :
    assoc es k = none ↔ k ∉ es.map Prod.fst := by
  induction es with
  | nil => simp [assoc]
  | cons e rest ih =>
    obtain ⟨k', v⟩ := e
    by_cases h : k = k'
    · simp [assoc, h]
    · simp [assoc, h, ih]

theorem assoc_eq_some {K V : Type} [DecidableEq K] (es : List (K × V))
    (hnd : (es.map Prod.fst).Nodup) (k : K) (v : V) :
    assoc es k = some v ↔ (k, v) ∈ es := by
  induction es with
  | nil => simp [assoc]
  | cons e rest ih =>
    obtain ⟨k', v'⟩ := e
    simp only [List.map_cons, List.nodup_cons] at hnd
    by_cases h : k = k'
    · subst h
      simp only [assoc, if_true, Option.some.injEq, List.mem_cons, Prod.mk.injEq, true_and]
      constructor
      · intro h; exact Or.inl h.symm
      · rintro (h | h)
        · exact h.symm
        · exact absurd (List.mem_map_of_mem Prod.fst h) hnd.1
    · simp [assoc, h, ih hnd.2]

theorem assoc_range {K V : Type} [DecidableEq K] (it : MapIter) (m : GoMap K V) (k : K) :
    assoc (it.range m) k = m.lookup k := by
  have hnd : ((it.range m).map Prod.fst).Nodup := keys_nodup it m
  cases h : m.lookup k with
  | none =>
    rw [assoc_eq_none]
    intro hk
    exact (keys_mem it m k).1 hk h
  | some v =>
    rw [assoc_eq_some _ hnd]
    exact (range_mem it m k v).2 h

/-! ## One pass of the accumulation loop -/

theorem lookup_insert_eq {K V : Type} [DecidableEq K] (m : GoMap K V) (k k' : K) (v : V) :
    (m.insert k v).lookup k' = if k' = k then some v else m.lookup k' := by
  by_cases h : k' = k
  · subst h
    rw [if_pos rfl]
    exact AList.lookup_insert m
  · rw [if_neg h]
    exact AList.lookup_insert_ne h

theorem lookup_empty_eq {K V : Type} [DecidableEq K] (k : K) :
    (∅ : GoMap K V).lookup k = none := AList.lookup_empty k

theorem yearly_insert (m : GoMap String (GoMap Int ℚ)) (code : String) (inner : GoMap Int ℚ)
    (c : String) (y : Int) :
    yearly (m.insert code inner) c y = if c = code then inner.lookup y else yearly m c y := by
  unfold yearly
  rw [lookup_insert_eq]
  by_cases h : c = code
  · simp [h]
  · simp [h]

theorem addAt_spec (m : GoMap String (GoMap Int ℚ)) (code : String) (y : Int) (v : ℚ)
    (b : Prop) [Decidable b] (hb : b ↔ m.lookup code = none) :
    ∃ m', addAt (if b then m.insert code ∅ else m) code y v = some m' ∧
      YearEffect (fun c => decide (c = code)) (fun _ => v) y m m' := by
  by_cases hb' : b
  · have hnone := hb.1 hb'
    rw [if_pos hb']
    refine ⟨_, by simp only [addAt, AList.lookup_insert]; rfl, ?_, ?_⟩
    · intro c y'
      rw [yearly_insert]
      by_cases hc : c = code
      · subst hc
        by_cases hy : y' = y
        · subst hy
          simp [-AList.insert_empty, yearly, hnone, lookup_insert_eq, getNum, lookup_empty_eq]
        · simp [-AList.insert_empty, yearly, hnone, lookup_insert_eq, hy, lookup_empty_eq]
      · simp [hc, yearly_insert]
    · intro c
      by_cases hc : c = code
      · simp [hc, lookup_insert_eq]
      · simp [hc, lookup_insert_eq]
  · have hsome : m.lookup code ≠ none := fun h => hb' (hb.2 h)
    rw [if_neg hb']
    obtain ⟨inner, hinner⟩ := Option.ne_none_iff_exists'.1 hsome
    refine ⟨_, by simp only [addAt, hinner]; rfl, ?_, ?_⟩
    · intro c y'
      rw [yearly_insert]
      by_cases hc : c = code
      · subst hc
        by_cases hy : y' = y
        · subst hy
          simp [yearly, hinner, lookup_insert_eq, getNum]
        · simp [yearly, hinner, lookup_insert_eq, hy]
      · simp [hc]
    · intro c
      by_cases hc : c = code
      · simp [hc, lookup_insert_eq, hinner]
      · simp [hc, lookup_insert_eq]

theorem monthly_insert (st : Acc) (code : String) (year month : Int) (snap : GoMap String ℚ)
    (mr : GoMap String (GoMap Int (GoMap Int (GoMap String ℚ))))
    (hmr : mr = st.monthlyResults.insert code
      (((st.monthlyResults.lookup code).getD ∅).insert year
        (((((st.monthlyResults.lookup code).getD ∅).lookup year).getD ∅).insert month snap)))
    (st' : Acc) (hst : st'.monthlyResults = mr) (c : String) (y m : Int) :
    monthly st' c y m =
      if c = code ∧ y = year ∧ m = month then some snap else monthly st c y m := by
  unfold monthly monthsOf
  rw [hst, hmr, lookup_insert_eq]
  by_cases hc : c = code
  · subst hc
    by_cases hy : y = year
    · subst hy
      by_cases hm : m = month
      · simp [hm, lookup_insert_eq]
      · simp [hm, lookup_insert_eq]
    · simp [hy, lookup_insert_eq]
  · simp [hc]

theorem accumulateEntry_spec (fd : FileData) (st : Acc) (code : String) (revenue : ℚ)
    (hs : Sync st) :
    ∃ st', accumulateEntry fd st code revenue = some st' ∧
      Effect fd (fun c => decide (c = code)) (fun _ => revenue) st st' := by
  obtain ⟨h1, h2, h3⟩ := hs code
  obtain ⟨fr, hfr, efr⟩ := addAt_spec st.finalResults code fd.year revenue
    (st.finalResults.lookup code = none) Iff.rfl
  obtain ⟨pv, hpv, epv⟩ := addAt_spec st.peakValleyResults code fd.year
    (getNum2 fd.subItemRevenue code "削峰填谷收益") (st.finalResults.lookup code = none) h1.symm
  obtain ⟨ef, hef, eef⟩ := addAt_spec st.efficiencyResults code fd.year
    (getNum2 fd.subItemRevenue code "效率提升收益") (st.finalResults.lookup code = none) h2.symm
  obtain ⟨ot, hot, eot⟩ := addAt_spec st.otherResults code fd.year
    (getNum2 fd.subItemRevenue code "其他收益") (st.finalResults.lookup code = none) h3.symm
  have key : ∀ (p : Acc → GoMap String (GoMap Int ℚ)) (q : Acc),
      p (if st.finalResults.lookup code = none then q else st) =
        if st.finalResults.lookup code = none then p q else p st := by
    intro p q
    split_ifs <;> rfl
  have hmr : (if st.finalResults.lookup code = none then
      ({ st with
        finalResults := st.finalResults.insert code ∅
        peakValleyResults := st.peakValleyResults.insert code ∅
        efficiencyResults := st.efficiencyResults.insert code ∅
        otherResults := st.otherResults.insert code ∅ } : Acc) else st).monthlyResults
      = st.monthlyResults := by
    split_ifs <;> rfl
  have hnm : (if st.finalResults.lookup code = none then
      ({ st with
        finalResults := st.finalResults.insert code ∅
        peakValleyResults := st.peakValleyResults.insert code ∅
        efficiencyResults := st.efficiencyResults.insert code ∅
        otherResults := st.otherResults.insert code ∅ } : Acc) else st).finalStationNames
      = st.finalStationNames := by
    split_ifs <;> rfl
  unfold accumulateEntry
  simp only [key Acc.finalResults, key Acc.peakValleyResults, key Acc.efficiencyResults,
    key Acc.otherResults, hmr, hnm, hfr, hpv, hef, hot]
  refine ⟨_, rfl, ⟨efr, ?_, ?_, ?_, ?_, ?_⟩⟩
  · exact ⟨fun c y => by rw [epv.1 c y]; by_cases hc : c = code <;> simp [hc], epv.2⟩
  · exact ⟨fun c y => by rw [eef.1 c y]; by_cases hc : c = code <;> simp [hc], eef.2⟩
  · exact ⟨fun c y => by rw [eot.1 c y]; by_cases hc : c = code <;> simp [hc], eot.2⟩
  · intro c
    simp only [lookup_insert_eq, decide_eq_true_eq]
    by_cases hc : c = code
    · subst hc
      simp
    · simp [hc]
  · intro c y m
    rw [monthly_insert st code fd.year fd.month (snapshot fd code revenue) _ rfl _ rfl c y m]
    by_cases hc : c = code <;> simp [hc]

/-! ## Composing effects: one file, then a sequence of files -/

theorem yearEffect_refl (val : String → ℚ) (y : Int) (m : GoMap String (GoMap Int ℚ)) :
    YearEffect (fun _ => false) val y m m :=
  ⟨fun c y' => by simp, fun c => by simp⟩

theorem yearEffect_congr {d d' : String → Bool} {val val' : String → ℚ} {y : Int}
    {m m' : GoMap String (GoMap Int ℚ)} (hd : ∀ c, d c = d' c)
    (hv : ∀ c, d c = true → val c = val' c) (h : YearEffect d val y m m') :
    YearEffect d' val' y m m' := by
  refine ⟨fun c y' => ?_, fun c => ?_⟩
  · rw [h.1 c y', ← hd c]
    by_cases hc : d c = true
    · simp [hc, hv c hc]
    · simp [hc]
  · rw [h.2 c, hd c]

theorem yearEffect_comp {d1 d2 : String → Bool} {val : String → ℚ} {y : Int}
    {m m1 m2 : GoMap String (GoMap Int ℚ)} (h1 : YearEffect d1 val y m m1)
    (h2 : YearEffect d2 val y m1 m2) (hd : ∀ c, d1 c = true → d2 c = false) :
    YearEffect (fun c => d1 c || d2 c) val y m m2 := by
  refine ⟨fun c y' => ?_, fun c => ?_⟩
  · rw [h2.1 c y', h1.1 c y']
    cases h1c : d1 c
    · cases h2c : d2 c <;> simp [h1c, h2c]
    · simp [h1c, hd c h1c]
  · rw [h2.2 c, h1.2 c]
    cases h1c : d1 c <;> cases h2c : d2 c <;> simp [h1c, h2c]

theorem Effect.refl (fd : FileData) (val : String → ℚ) (st : Acc) :
    Effect fd (fun _ => false) val st st :=
  ⟨yearEffect_refl _ _ _, yearEffect_refl _ _ _, yearEffect_refl _ _ _, yearEffect_refl _ _ _,
    fun c => by simp, fun c y m => by simp⟩

theorem Effect.congr {fd : FileData} {d d' : String → Bool} {val val' : String → ℚ}
    {st st' : Acc} (hd : ∀ c, d c = d' c) (hv : ∀ c, d c = true → val c = val' c)
    (h : Effect fd d val st st') : Effect fd d' val' st st' := by
  refine ⟨yearEffect_congr hd hv h.final, yearEffect_congr hd (fun _ _ => rfl) h.peak,
    yearEffect_congr hd (fun _ _ => rfl) h.effi, yearEffect_congr hd (fun _ _ => rfl) h.other,
    fun c => ?_, fun c y m => ?_⟩
  · rw [h.names c, hd c]
  · rw [h.months c y m, ← hd c]
    by_cases hc : d c = true
    · simp [hc, hv c hc]
    · simp [hc]

theorem Effect.comp {fd : FileData} {d1 d2 : String → Bool} {val : String → ℚ}
    {st st1 st2 : Acc} (h1 : Effect fd d1 val st st1) (h2 : Effect fd d2 val st1 st2)
    (hd : ∀ c, d1 c = true → d2 c = false) :
    Effect fd (fun c => d1 c || d2 c) val st st2 := by
  refine ⟨yearEffect_comp h1.final h2.final hd, yearEffect_comp h1.peak h2.peak hd,
    yearEffect_comp h1.effi h2.effi hd, yearEffect_comp h1.other h2.other hd,
    fun c => ?_, fun c y m => ?_⟩
  · rw [h2.names c, h1.names c]
    cases h1c : d1 c
    · cases h2c : d2 c <;> simp [h1c, h2c]
    · simp [h1c, hd c h1c]
  · rw [h2.months c y m, h1.months c y m]
    cases h1c : d1 c
    · cases h2c : d2 c <;> simp [h1c, h2c]
    · simp [h1c, hd c h1c]

theorem Effect.sync {fd : FileData} {d : String → Bool} {val : String → ℚ} {st st' : Acc}
    (h : Effect fd d val st st') (hs : Sync st) : Sync st' := by
  intro c
  obtain ⟨a, b, e⟩ := hs c
  refine ⟨?_, ?_, ?_⟩
  · rw [h.peak.2 c, h.final.2 c, a]
  · rw [h.effi.2 c, h.final.2 c, b]
  · rw [h.other.2 c, h.final.2 c, e]

theorem sync_empty : Sync Acc.empty := by
  intro c
  simp [Acc.empty, lookup_empty_eq]

theorem accumulateList_spec (fd : FileData) (es : List (String × ℚ))
    (hnd : (es.map Prod.fst).Nodup) (st : Acc) (hs : Sync st) :
    ∃ st', accumulateList fd es st = some st' ∧
      Effect fd (fun c => (assoc es c).isSome) (fun c => (assoc es c).getD 0) st st' := by
  induction es generalizing st with
  | nil =>
    exact ⟨st, rfl, (Effect.refl fd (fun _ => 0) st).congr (fun c => by simp [assoc]) (by simp)⟩
  | cons e rest ih =>
    obtain ⟨code, revenue⟩ := e
    simp only [List.map_cons, List.nodup_cons] at hnd
    obtain ⟨st1, hst1, e1⟩ := accumulateEntry_spec fd st code revenue hs
    obtain ⟨st2, hst2, e2⟩ := ih hnd.2 st1 (e1.sync hs)
    refine ⟨st2, by simp only [accumulateList, hst1, hst2], ?_⟩
    have hrest : ∀ c, (assoc rest c).isSome = true → c ≠ code := by
      intro c hc hcc
      subst hcc
      have := (assoc_eq_none rest c).2 hnd.1
      rw [this] at hc
      cases hc
    have e1' : Effect fd (fun c => decide (c = code))
        (fun c => (assoc ((code, revenue) :: rest) c).getD 0) st st1 :=
      e1.congr (fun _ => rfl) (fun c hc => by
        have : c = code := by simpa using hc
        simp [assoc, this])
    have e2' : Effect fd (fun c => (assoc rest c).isSome)
        (fun c => (assoc ((code, revenue) :: rest) c).getD 0) st1 st2 :=
      e2.congr (fun _ => rfl) (fun c hc => by simp [assoc, hrest c hc])
    refine (e1'.comp e2' ?_).congr ?_ (fun _ _ => rfl)
    · intro c hc
      have hcc : c = code := by simpa using hc
      subst hcc
      rw [(assoc_eq_none rest c).2 hnd.1]
      rfl
    · intro c
      by_cases hc : c = code
      · simp [assoc, hc]
      · simp [assoc, hc]

theorem accumulate_spec (it : MapIter) (fd : FileData) (st : Acc) (hs : Sync st) :
    ∃ st', accumulate it fd st = some st' ∧
      Effect fd (fileDom fd) (getNum fd.totalRevenue) st st' := by
  obtain ⟨st', h, e⟩ := accumulateList_spec fd (it.range fd.totalRevenue)
    (keys_nodup it fd.totalRevenue) st hs
  refine ⟨st', h, e.congr (fun c => by simp only [assoc_range, fileDom]) (fun c _ => by
    simp only [assoc_range, getNum])⟩

theorem accumulateAll_total (it : MapIter) (fds : List FileData) (st : Acc) (hs : Sync st) :
    ∃ st', accumulateAll it fds st = some st' ∧ Sync st' := by
  induction fds generalizing st with
  | nil => exact ⟨st, rfl, hs⟩
  | cons fd rest ih =>
    obtain ⟨st1, h1, e1⟩ := accumulate_spec it fd st hs
    obtain ⟨st2, h2, s2⟩ := ih st1 (e1.sync hs)
    exact ⟨st2, by simp only [accumulateAll, h1, h2], s2⟩

/-- Unfolding of the run over `fd :: rest` through the state after `fd`. -/
theorem accumulateAll_cons_some {it : MapIter} {fd : FileData} {rest : List FileData}
    {st st' : Acc} (hs : Sync st) (h : accumulateAll it (fd :: rest) st = some st') :
    ∃ st1, Effect fd (fileDom fd) (getNum fd.totalRevenue) st st1
      ∧ Sync st1 ∧ accumulateAll it rest st1 = some st' := by
  obtain ⟨st1, h1, e1⟩ := accumulate_spec it fd st hs
  refine ⟨st1, e1, e1.sync hs, ?_⟩
  simpa only [accumulateAll, h1] using h

/-! ## A sequence of files -/

theorem accumulate_effect (it : MapIter) {fd : FileData} {st st' : Acc} (hs : Sync st)
    (h : accumulate it fd st = some st') :
    Effect fd (fileDom fd) (getNum fd.totalRevenue) st st' := by
  obtain ⟨st1, h1, e1⟩ := accumulate_spec it fd st hs
  rw [h] at h1
  cases h1
  exact e1

theorem yearly_chain (it : MapIter) (p : Acc → GoMap String (GoMap Int ℚ))
    (val : FileData → String → ℚ)
    (hp : ∀ fd st st', Effect fd (fileDom fd) (getNum fd.totalRevenue) st st' →
      YearEffect (fileDom fd) (val fd) fd.year (p st) (p st')) :
    ∀ (fds : List FileData) (st st' : Acc), Sync st → accumulateAll it fds st = some st' →
      ∀ c y, yearly (p st') c y =
        if (contributing fds c y).isEmpty then yearly (p st) c y
        else some ((yearly (p st) c y).getD 0 +
          ((contributing fds c y).map (fun fd => val fd c)).sum) := by
  intro fds
  induction fds with
  | nil =>
    intro st st' _ h c y
    simp only [accumulateAll, Option.some.injEq] at h
    subst h
    simp [contributing]
  | cons fd rest ih =>
    intro st st' hs h c y
    obtain ⟨st1, e1, s1, hrest⟩ := accumulateAll_cons_some hs h
    rw [ih st1 st' s1 hrest c y, (hp fd st st1 e1).1 c y]
    by_cases hfd : (decide (fd.year = y) && (fd.totalRevenue.lookup c).isSome) = true
    · have hc : contributing (fd :: rest) c y = fd :: contributing rest c y := by
        simp only [contributing, List.filter_cons, hfd, if_true]
      have hcond : fileDom fd c = true ∧ y = fd.year := by
        simp only [Bool.and_eq_true, decide_eq_true_eq] at hfd
        exact ⟨hfd.2, hfd.1.symm⟩
      rw [hc, if_pos hcond]
      by_cases hr : (contributing rest c y).isEmpty = true
      · have : contributing rest c y = [] := List.isEmpty_iff.1 hr
        simp [this]
      · simp [hr, add_assoc]
    · have hc : contributing (fd :: rest) c y = contributing rest c y := by
        simp only [contributing, List.filter_cons, hfd]
        rfl
      have hcond : ¬ (fileDom fd c = true ∧ y = fd.year) := by
        intro hcd
        apply hfd
        simp only [Bool.and_eq_true, decide_eq_true_eq]
        exact ⟨hcd.2.symm, hcd.1⟩
      rw [hc, if_neg hcond]

theorem keys_chain (it : MapIter) :
    ∀ (fds : List FileData) (st st' : Acc), Sync st → accumulateAll it fds st = some st' →
      ∀ c, st'.finalResults.lookup c = none ↔
        (st.finalResults.lookup c = none ∧ ∀ fd ∈ fds, fd.totalRevenue.lookup c = none) := by
  intro fds
  induction fds with
  | nil =>
    intro st st' _ h c
    simp only [accumulateAll, Option.some.injEq] at h
    subst h
    simp
  | cons fd rest ih =>
    intro st st' hs h c
    obtain ⟨st1, e1, s1, hrest⟩ := accumulateAll_cons_some hs h
    rw [ih st1 st' s1 hrest c, e1.final.2 c]
    simp only [fileDom, List.mem_cons, forall_eq_or_imp]
    cases hl : fd.totalRevenue.lookup c <;> simp [and_comm]

theorem last_wins {α : Type} (it : MapIter) (obs : Acc → Option α) (q : FileData → Bool)
    (w : FileData → α)
    (hstep : ∀ fd st st', Effect fd (fileDom fd) (getNum fd.totalRevenue) st st' →
      obs st' = if q fd = true then some (w fd) else obs st) :
    ∀ (fds : List FileData) (st st' : Acc), Sync st → accumulateAll it fds st = some st' →
      obs st' = match (fds.filter q).getLast? with
        | some fd => some (w fd)
        | none => obs st := by
  intro fds
  induction fds with
  | nil =>
    intro st st' _ h
    simp only [accumulateAll, Option.some.injEq] at h
    subst h
    rfl
  | cons fd rest ih =>
    intro st st' hs h
    obtain ⟨st1, e1, s1, hrest⟩ := accumulateAll_cons_some hs h
    rw [ih st1 st' s1 hrest, hstep fd st st1 e1]
    by_cases hq : q fd = true
    · have hf : List.filter q (fd :: rest) = fd :: List.filter q rest := by simp [hq]
      rw [hf, List.getLast?_cons, if_pos hq]
      cases (rest.filter q).getLast? <;> rfl
    · have hf : List.filter q (fd :: rest) = List.filter q rest := by simp [hq]
      rw [hf, if_neg hq]

theorem names_chain (it : MapIter) (fds : List FileData) (st st' : Acc) (hs : Sync st)
    (h : accumulateAll it fds st = some st') (c : String) :
    st'.finalStationNames.lookup c = match lastWith fds c with
      | some fd => some ((fd.stationInfo.lookup c).getD "")
      | none => st.finalStationNames.lookup c :=
  last_wins it (fun s => s.finalStationNames.lookup c)
    (fun fd => (fd.totalRevenue.lookup c).isSome) (fun fd => (fd.stationInfo.lookup c).getD "")
    (fun _ _ _ e => e.names c) fds st st' hs h

theorem months_chain (it : MapIter) (fds : List FileData) (st st' : Acc) (hs : Sync st)
    (h : accumulateAll it fds st = some st') (c : String) (y m : Int) :
    monthly st' c y m = match lastOfPeriod fds c y m with
      | some fd => some (snapshot fd c (getNum fd.totalRevenue c))
      | none => monthly st c y m :=
  last_wins it (fun s => monthly s c y m)
    (fun fd => decide (fd.year = y) && decide (fd.month = m) && (fd.totalRevenue.lookup c).isSome)
    (fun fd => snapshot fd c (getNum fd.totalRevenue c))
    (fun fd _ _ e => by
      beta_reduce
      rw [e.months c y m]
      simp only [fileDom, Bool.and_eq_true, decide_eq_true_eq]
      by_cases hc : (fd.totalRevenue.lookup c).isSome = true
      · by_cases hy : y = fd.year
        · by_cases hm : m = fd.month
          · simp [hc, hy, hm]
          · simp [hc, hy, hm, Ne.symm hm]
        · simp [hc, hy, Ne.symm hy]
      · simp [hc]) fds st st' hs h

theorem yearly_empty (c : String) (y : Int) : yearly (∅ : GoMap String (GoMap Int ℚ)) c y = none := by
  simp [yearly, lookup_empty_eq]

theorem totals_from_empty (it : MapIter) (fds : List FileData) (st : Acc)
    (h : accumulateAll it fds Acc.empty = some st) (c : String) (y : Int) :
    yearly st.finalResults c y = specTotal fds c y (fun fd => getNum fd.totalRevenue c) ∧
    yearly st.peakValleyResults c y =
      specTotal fds c y (fun fd => getNum2 fd.subItemRevenue c "削峰填谷收益") ∧
    yearly st.efficiencyResults c y =
      specTotal fds c y (fun fd => getNum2 fd.subItemRevenue c "效率提升收益") ∧
    yearly st.otherResults c y =
      specTotal fds c y (fun fd => getNum2 fd.subItemRevenue c "其他收益") := by
  refine ⟨?_, ?_, ?_, ?_⟩
  · rw [yearly_chain it Acc.finalResults (fun fd => getNum fd.totalRevenue)
      (fun _ _ _ e => e.final) fds _ st sync_empty h c y]
    simp [specTotal, Acc.empty, yearly_empty]
  · rw [yearly_chain it Acc.peakValleyResults
      (fun fd c => getNum2 fd.subItemRevenue c "削峰填谷收益")
      (fun _ _ _ e => e.peak) fds _ st sync_empty h c y]
    simp [specTotal, Acc.empty, yearly_empty]
  · rw [yearly_chain it Acc.efficiencyResults
      (fun fd c => getNum2 fd.subItemRevenue c "效率提升收益")
      (fun _ _ _ e => e.effi) fds _ st sync_empty h c y]
    simp [specTotal, Acc.empty, yearly_empty]
  · rw [yearly_chain it Acc.otherResults
      (fun fd c => getNum2 fd.subItemRevenue c "其他收益")
      (fun _ _ _ e => e.other) fds _ st sync_empty h c y]
    simp [specTotal, Acc.empty, yearly_empty]

/-! ## Yearly totals against monthly snapshots -/

theorem entries_perm_of_lookup {K V : Type} [DecidableEq K] (s t : GoMap K V)
    (h : ∀ k, s.lookup k = t.lookup k) : s.entries.Perm t.entries := by
  apply List.lookup_ext s.nodupKeys t.nodupKeys
  intro k v
  have := h k
  unfold AList.lookup at this
  rw [this]

theorem getNum2_eq (m : GoMap String (GoMap Int ℚ)) (c : String) (y : Int) :
    getNum2 m c y = (yearly m c y).getD 0 := by
  unfold getNum2 yearly getNum
  cases m.lookup c <;> rfl

theorem monthSum_congr {st st' : Acc} {c : String} {y : Int}
    (h : ∀ m, monthly st' c y m = monthly st c y m) (key : String) :
    monthSum st' c y key = monthSum st c y key := by
  unfold monthSum
  exact ((entries_perm_of_lookup _ _ h).map _).sum_eq

theorem monthSum_fresh {st st' : Acc} {c : String} {y mo : Int} {snap : GoMap String ℚ}
    (h : ∀ m, monthly st' c y m = if m = mo then some snap else monthly st c y m)
    (hnew : monthly st c y mo = none) (key : String) :
    monthSum st' c y key = getNum snap key + monthSum st c y key := by
  unfold monthSum
  have hp : (monthsOf st' c y).entries.Perm ((monthsOf st c y).insert mo snap).entries := by
    apply entries_perm_of_lookup
    intro k
    rw [lookup_insert_eq]
    exact h k
  rw [(hp.map _).sum_eq, AList.insert_entries_of_neg (AList.lookup_eq_none.1 hnew)]
  simp

theorem snapshot_total (fd : FileData) (c : String) (v : ℚ) :
    getNum (snapshot fd c v) "总收益" = v := by
  simp [snapshot, getNum, lookup_insert_eq, -AList.insert_empty]

theorem snapshot_peak (fd : FileData) (c : String) (v : ℚ) :
    getNum (snapshot fd c v) "削峰填谷收益" = getNum2 fd.subItemRevenue c "削峰填谷收益" := by
  simp [snapshot, getNum, lookup_insert_eq, -AList.insert_empty]

theorem snapshot_effi (fd : FileData) (c : String) (v : ℚ) :
    getNum (snapshot fd c v) "效率提升收益" = getNum2 fd.subItemRevenue c "效率提升收益" := by
  simp [snapshot, getNum, lookup_insert_eq, -AList.insert_empty]

theorem snapshot_other (fd : FileData) (c : String) (v : ℚ) :
    getNum (snapshot fd c v) "其他收益" = getNum2 fd.subItemRevenue c "其他收益" := by
  simp [snapshot, getNum, lookup_insert_eq, -AList.insert_empty]

theorem yearEffect_getNum2 {d : String → Bool} {val : String → ℚ} {year : Int}
    {m m' : GoMap String (GoMap Int ℚ)} (h : YearEffect d val year m m') (c : String) (y : Int) :
    Income.getNum2 m' c y =
      if d c = true ∧ y = year then Income.getNum2 m c y + val c else Income.getNum2 m c y := by
  rw [getNum2_eq, getNum2_eq, h.1 c y]
  split_ifs <;> rfl

theorem agree_step {fd : FileData} {d : String → Bool} {val : String → ℚ} {st st' : Acc}
    (e : Effect fd d val st st')
    (hnew : ∀ c, d c = true → monthly st c fd.year fd.month = none) (ha : Agree st) :
    Agree st' := by
  intro c y
  obtain ⟨a1, a2, a3, a4⟩ := ha c y
  rw [yearEffect_getNum2 e.final, yearEffect_getNum2 e.peak, yearEffect_getNum2 e.effi,
    yearEffect_getNum2 e.other]
  by_cases hc : d c = true ∧ y = fd.year
  · obtain ⟨hd, hy⟩ := hc
    subst hy
    have hm : ∀ m, monthly st' c fd.year m =
        if m = fd.month then some (snapshot fd c (val c)) else monthly st c fd.year m := by
      intro m
      rw [e.months c fd.year m]
      simp [hd]
    have hn := hnew c hd
    simp only [hd, and_self, if_true, monthSum_fresh hm hn, snapshot_total, snapshot_peak,
      snapshot_effi, snapshot_other, a1, a2, a3, a4]
    refine ⟨add_comm _ _, add_comm _ _, add_comm _ _, add_comm _ _⟩
  · have hm : ∀ m, monthly st' c y m = monthly st c y m := by
      intro m
      rw [e.months c y m]
      have : ¬ (d c = true ∧ y = fd.year ∧ m = fd.month) := fun h => hc ⟨h.1, h.2.1⟩
      rw [if_neg this]
    simp only [if_neg hc, monthSum_congr hm]
    exact ⟨a1, a2, a3, a4⟩

theorem agree_chain (it : MapIter) :
    ∀ (fds : List FileData) (st st' : Acc), Sync st → Agree st →
      (∀ fd ∈ fds, ∀ c, monthly st c fd.year fd.month = none) → UniquePeriods fds →
      accumulateAll it fds st = some st' → Agree st' := by
  intro fds
  induction fds with
  | nil =>
    intro st st' _ ha _ _ h
    simp only [accumulateAll, Option.some.injEq] at h
    subst h
    exact ha
  | cons fd rest ih =>
    intro st st' hs ha hnew hu h
    obtain ⟨st1, e1, s1, hrest⟩ := accumulateAll_cons_some hs h
    have hu' := List.pairwise_cons.1 hu
    refine ih st1 st' s1 (agree_step e1 (fun c _ => hnew fd (List.mem_cons_self _ _) c) ha)
      ?_ hu'.2 hrest
    intro fd' hfd' c
    rw [e1.months c fd'.year fd'.month]
    have hne : ¬ (fileDom fd c = true ∧ fd'.year = fd.year ∧ fd'.month = fd.month) := by
      intro hh
      exact hu'.1 fd' hfd' ⟨hh.2.1.symm, hh.2.2.symm⟩
    rw [if_neg hne]
    exact hnew fd' (List.mem_cons_of_mem _ hfd') c

theorem agree_empty : Agree Acc.empty := by
  intro c y
  simp [Acc.empty, getNum2, monthSum, monthsOf, lookup_empty_eq]

theorem monthly_empty (c : String) (y m : Int) : monthly Acc.empty c y m = none := by
  simp [Acc.empty, monthly, monthsOf, lookup_empty_eq]

/-! ## Cells written by the report loops -/

theorem writeBlock_cell (sh : Sheet) (col row : Nat) (b : Block) (c r : Nat) :
    writeBlock sh col row b c r =
      if r = row ∧ col ≤ c ∧ c < col + 4 then some (b.get (c - col)) else sh c r := by
  by_cases hr : r = row
  · subst hr
    have hcases : c < col ∨ c = col ∨ c = col + 1 ∨ c = col + 2 ∨ c = col + 3 ∨ col + 4 ≤ c := by
      omega
    rcases hcases with h | h | h | h | h | h
    · have h0 : ¬ (col ≤ c ∧ c < col + 4) := by omega
      have h1 : c ≠ col := by omega
      have h2 : c ≠ col + 1 := by omega
      have h3 : c ≠ col + 2 := by omega
      have h4 : c ≠ col + 3 := by omega
      simp [writeBlock, setCellValue, h0, h1, h2, h3, h4]
    · subst h
      simp [writeBlock, setCellValue, Block.get]
    · subst h
      simp [writeBlock, setCellValue, Block.get]
    · subst h
      simp [writeBlock, setCellValue, Block.get]
    · subst h
      simp [writeBlock, setCellValue, Block.get]
    · have h0 : ¬ (col ≤ c ∧ c < col + 4) := by omega
      have h1 : c ≠ col := by omega
      have h2 : c ≠ col + 1 := by omega
      have h3 : c ≠ col + 2 := by omega
      have h4 : c ≠ col + 3 := by omega
      simp [writeBlock, setCellValue, h0, h1, h2, h3, h4]
  · simp [writeBlock, setCellValue, hr]

theorem writeBlocks_other (row : Nat) (bs : List (Option Block)) (col : Nat) (sh : Sheet)
    (c r : Nat) (h : r ≠ row ∨ c < col ∨ col + 4 * bs.length ≤ c) :
    writeBlocks row bs col sh c r = sh c r := by
  induction bs generalizing col sh with
  | nil => rfl
  | cons b rest ih =>
    simp only [writeBlocks]
    rw [ih (col + 4) _ (by
      rcases h with h | h | h
      · exact Or.inl h
      · exact Or.inr (Or.inl (by omega))
      · exact Or.inr (Or.inr (by simp only [List.length_cons] at h; omega)))]
    cases b with
    | none => rfl
    | some blk =>
      simp only [writeBlock_cell]
      have : ¬ (r = row ∧ col ≤ c ∧ c < col + 4) := by
        rintro ⟨h1, h2, h3⟩
        rcases h with h | h | h
        · exact h h1
        · omega
        · simp only [List.length_cons] at h; omega
      rw [if_neg this]

theorem writeBlocks_some (row : Nat) (bs : List (Option Block)) (col : Nat) (sh : Sheet)
    (k j : Nat) (blk : Block) (hk : bs[k]? = some (some blk)) (hj : j < 4) :
    writeBlocks row bs col sh (col + 4 * k + j) row = some (blk.get j) := by
  induction bs generalizing col sh k with
  | nil => simp at hk
  | cons b rest ih =>
    cases k with
    | zero =>
      simp only [List.getElem?_cons_zero, Option.some.injEq] at hk
      subst hk
      simp only [writeBlocks]
      rw [writeBlocks_other _ _ _ _ _ _ (Or.inr (Or.inl (by omega))), writeBlock_cell]
      have : row = row ∧ col ≤ col + 4 * 0 + j ∧ col + 4 * 0 + j < col + 4 := by omega
      rw [if_pos this]
      congr 2
      omega
    | succ k' =>
      simp only [List.getElem?_cons_succ] at hk
      simp only [writeBlocks]
      have := ih (col + 4) (match b with
        | some blk => writeBlock sh col row blk
        | none => sh) k' hk
      have e : col + 4 * (k' + 1) + j = col + 4 + 4 * k' + j := by omega
      rw [e]
      exact this

theorem writeBlocks_none (row : Nat) (bs : List (Option Block)) (col : Nat) (sh : Sheet)
    (k j : Nat) (hk : bs[k]? = some none) (hj : j < 4) :
    writeBlocks row bs col sh (col + 4 * k + j) row = sh (col + 4 * k + j) row := by
  induction bs generalizing col sh k with
  | nil => simp at hk
  | cons b rest ih =>
    cases k with
    | zero =>
      simp only [List.getElem?_cons_zero, Option.some.injEq] at hk
      subst hk
      simp only [writeBlocks]
      rw [writeBlocks_other _ _ _ _ _ _ (Or.inr (Or.inl (by omega)))]
    | succ k' =>
      simp only [List.getElem?_cons_succ] at hk
      simp only [writeBlocks]
      have e : col + 4 * (k' + 1) + j = col + 4 + 4 * k' + j := by omega
      rw [e, ih (col + 4) _ k' hk]
      cases b with
      | none => rfl
      | some blk =>
        show writeBlock sh col row blk (col + 4 + 4 * k' + j) row = _
        rw [writeBlock_cell]
        have : ¬ (row = row ∧ col ≤ col + 4 + 4 * k' + j ∧ col + 4 + 4 * k' + j < col + 4) := by
          omega
        rw [if_neg this]

theorem writeBlocks_append (row : Nat) (as bs : List (Option Block)) (col : Nat) (sh : Sheet) :
    writeBlocks row (as ++ bs) col sh =
      writeBlocks row bs (col + 4 * as.length) (writeBlocks row as col sh) := by
  induction as generalizing col sh with
  | nil => rfl
  | cons a rest ih =>
    have e : col + 4 * (rest.length + 1) = col + 4 + 4 * rest.length := by omega
    rw [List.cons_append, List.length_cons, e]
    exact ih (col + 4) _

theorem writeRows_other_row (name : String → String) (content : String → List (Option Block))
    (codes : List String) (r0 : Nat) (sh : Sheet) (c r : Nat)
    (h : r < r0 ∨ r0 + codes.length ≤ r) :
    writeRows name content codes r0 sh c r = sh c r := by
  induction codes generalizing r0 sh with
  | nil => rfl
  | cons code rest ih =>
    simp only [writeRows]
    have hne : r ≠ r0 := by
      simp only [List.length_cons] at h
      omega
    rw [ih (r0 + 1) _ (by simp only [List.length_cons] at h; omega),
      writeBlocks_other _ _ _ _ _ _ (Or.inl hne)]
    simp [setCellValue, hne]

theorem writeRows_row (name : String → String) (content : String → List (Option Block))
    (codes : List String) (r0 : Nat) (sh : Sheet) (i : Nat) (code : String)
    (hi : codes[i]? = some code) (c : Nat) :
    writeRows name content codes r0 sh c (r0 + i) =
      writeBlocks (r0 + i) (content code) 3
        (setCellValue (setCellValue sh 1 (r0 + i) (.str (name code))) 2 (r0 + i) (.str code))
        c (r0 + i) := by
  induction codes generalizing r0 sh i with
  | nil => simp at hi
  | cons code0 rest ih =>
    cases i with
    | zero =>
      simp only [List.getElem?_cons_zero, Option.some.injEq] at hi
      subst hi
      simp only [writeRows, Nat.add_zero]
      rw [writeRows_other_row _ _ _ _ _ _ _ (Or.inl (by omega))]
    | succ i' =>
      simp only [List.getElem?_cons_succ] at hi
      simp only [writeRows]
      have e : r0 + (i' + 1) = r0 + 1 + i' := by omega
      rw [e, ih (r0 + 1) _ i' hi]
      have hne : r0 + 1 + i' ≠ r0 := by omega
      by_cases hc : r0 + 1 + i' = r0 + 1 + i' ∧ 3 ≤ c ∧ c < 3 + 4 * (content code).length
      · -- inside the block area both sides are decided by the same list of blocks
        have key : ∀ (s1 s2 : Sheet), s1 c (r0 + 1 + i') = s2 c (r0 + 1 + i') →
            writeBlocks (r0 + 1 + i') (content code) 3 s1 c (r0 + 1 + i') =
              writeBlocks (r0 + 1 + i') (content code) 3 s2 c (r0 + 1 + i') := by
          intro s1 s2 h12
          generalize content code = bs
          generalize (3 : Nat) = col
          induction bs generalizing col s1 s2 with
          | nil => exact h12
          | cons b rest' ih' =>
            simp only [writeBlocks]
            apply ih'
            cases b with
            | none => exact h12
            | some blk =>
              simp only [writeBlock_cell]
              split_ifs
              · rfl
              · exact h12
        apply key
        have h1 : c ≠ 1 := by omega
        have h2 : c ≠ 2 := by omega
        simp only [setCellValue, h1, h2, false_and, if_false]
        rw [writeBlocks_other _ _ _ _ _ _ (Or.inl hne)]
        simp [setCellValue, hne]
      · have hout : c < 3 ∨ 3 + 4 * (content code).length ≤ c := by omega
        rw [writeBlocks_other _ _ _ _ _ _ (Or.inr hout), writeBlocks_other _ _ _ _ _ _ (Or.inr hout)]
        simp only [setCellValue]
        rw [writeBlocks_other _ _ _ _ _ _ (Or.inl hne)]
        simp [setCellValue, hne]

/-! ## The report loops as rows of blocks -/

theorem yearHeaders_eq (ys : List Int) (col : Nat) (sh : Sheet) :
    yearHeaders ys col sh = writeBlocks 1 (ys.map (fun y => some (yearHeader y))) col sh := by
  induction ys generalizing col sh with
  | nil => rfl
  | cons y rest ih => simp only [yearHeaders, List.map_cons, writeBlocks, ih]

theorem fillYearRow_eq (st : Acc) (code : String) (row : Nat) (ys : List Int) (col : Nat)
    (sh : Sheet) :
    fillYearRow st code row ys col sh =
      writeBlocks row (ys.map (fun y => some (yearValues st code y))) col sh := by
  induction ys generalizing col sh with
  | nil => rfl
  | cons y rest ih => simp only [fillYearRow, List.map_cons, writeBlocks, ih]

theorem fillYearly_eq (st : Acc) (ys : List Int) (codes : List String) (r0 : Nat) (sh : Sheet) :
    fillYearly st ys codes r0 sh =
      writeRows (getStr st.finalStationNames)
        (fun code => ys.map (fun y => some (yearValues st code y))) codes r0 sh := by
  induction codes generalizing r0 sh with
  | nil => rfl
  | cons code rest ih => simp only [fillYearly, writeRows, fillYearRow_eq, ih]

theorem fillSummary_eq (it : MapIter) (st : Acc) (codes : List String) (r0 : Nat) (sh : Sheet) :
    fillSummary it st codes r0 sh =
      writeRows (getStr st.finalStationNames) (fun code => [some (totalsBlock it st code)])
        codes r0 sh := by
  induction codes generalizing r0 sh with
  | nil => rfl
  | cons code rest ih => simp only [fillSummary, writeRows, writeBlocks, ih, totalsBlock]

theorem monthHeaders_eq (year : Int) (ms : List Int) (cs : Nat × Sheet) :
    monthHeaders year ms cs =
      (cs.1 + 4 * ms.length,
        writeBlocks 1 (ms.map (fun m => some (monthHeader year m))) cs.1 cs.2) := by
  induction ms generalizing cs with
  | nil => rfl
  | cons m rest ih =>
    simp only [monthHeaders, ih, List.map_cons, writeBlocks, List.length_cons]
    congr 1
    omega

theorem pairsOf_cons (it : MapIter) (st : Acc) (y : Int) (rest : List Int) :
    pairsOf it st (y :: rest) =
      (monthsOfYear it st y).map (fun m => (y, m)) ++ pairsOf it st rest := by
  simp [pairsOf, List.flatMap]

theorem monthlyHeaders_eq (it : MapIter) (st : Acc) (ys : List Int) (cs : Nat × Sheet) :
    monthlyHeaders it st ys cs =
      (cs.1 + 4 * (pairsOf it st ys).length,
        writeBlocks 1 ((pairsOf it st ys).map (fun p => some (monthHeader p.1 p.2))) cs.1 cs.2) := by
  induction ys generalizing cs with
  | nil => rfl
  | cons y rest ih =>
    simp only [monthlyHeaders, ih, monthHeaders_eq, pairsOf_cons, List.map_append,
      List.map_map, writeBlocks_append, List.length_append, List.length_map]
    refine Prod.ext ?_ rfl
    simp only
    omega

theorem fillMonths_eq (st : Acc) (code : String) (row : Nat) (year : Int) (ms : List Int)
    (cs : Nat × Sheet) :
    fillMonths st code row year ms cs =
      (cs.1 + 4 * ms.length,
        writeBlocks row (ms.map (fun m => (monthly st code year m).map monthValues)) cs.1 cs.2) := by
  induction ms generalizing cs with
  | nil => rfl
  | cons m rest ih =>
    simp only [fillMonths, List.map_cons, writeBlocks, List.length_cons]
    cases hm : monthly st code year m with
    | none =>
      simp only [ih, Option.map_none']
      congr 1
      omega
    | some rev =>
      simp only [ih, Option.map_some']
      congr 1
      omega

theorem fillMonthRow_eq (it : MapIter) (st : Acc) (code : String) (row : Nat) (ys : List Int)
    (cs : Nat × Sheet) :
    fillMonthRow it st code row ys cs =
      (cs.1 + 4 * (pairsOf it st ys).length,
        writeBlocks row
          ((pairsOf it st ys).map (fun p => (monthly st code p.1 p.2).map monthValues))
          cs.1 cs.2) := by
  induction ys generalizing cs with
  | nil => rfl
  | cons y rest ih =>
    simp only [fillMonthRow, ih, fillMonths_eq, pairsOf_cons, List.map_append,
      List.map_map, writeBlocks_append, List.length_append, List.length_map]
    refine Prod.ext ?_ rfl
    simp only
    omega

theorem fillMonthly_eq (it : MapIter) (st : Acc) (ys : List Int) (codes : List String)
    (r0 : Nat) (sh : Sheet) :
    fillMonthly it st ys codes r0 sh =
      writeRows (getStr st.finalStationNames)
        (fun code => (pairsOf it st ys).map (fun p => (monthly st code p.1 p.2).map monthValues))
        codes r0 sh := by
  induction codes generalizing r0 sh with
  | nil => rfl
  | cons code rest ih => simp only [fillMonthly, writeRows, fillMonthRow_eq, ih]

/-! ## The sorted key lists -/

theorem sortStrings_sorted (l : List String) (h : l.Nodup) :
    (sortStrings l).Sorted (· < ·) :=
  (List.sorted_insertionSort (· ≤ ·) l).lt_of_le
    ((List.perm_insertionSort (· ≤ ·) l).nodup_iff.2 h)

theorem sortInts_sorted (l : List Int) (h : l.Nodup) : (sortInts l).Sorted (· < ·) :=
  (List.sorted_insertionSort (· ≤ ·) l).lt_of_le
    ((List.perm_insertionSort (· ≤ ·) l).nodup_iff.2 h)

theorem sortStrings_mem (l : List String) (x : String) : x ∈ sortStrings l ↔ x ∈ l :=
  (List.perm_insertionSort (· ≤ ·) l).mem_iff

theorem sortInts_mem (l : List Int) (x : Int) : x ∈ sortInts l ↔ x ∈ l :=
  (List.perm_insertionSort (· ≤ ·) l).mem_iff

theorem sortedCodes_sorted (it : MapIter) (st : Acc) :
    (sortedCodes it st).Sorted (· < ·) :=
  sortStrings_sorted _ (keys_nodup it st.finalResults)

theorem sortedCodes_mem (it : MapIter) (st : Acc) (c : String) :
    c ∈ sortedCodes it st ↔ st.finalResults.lookup c ≠ none := by
  unfold sortedCodes
  rw [sortStrings_mem, keys_mem]

theorem foldl_insert_lookup (l : List Int) (ys0 : GoMap Int Bool) (y : Int) :
    (l.foldl (fun ys year => ys.insert year true) ys0).lookup y ≠ none ↔
      y ∈ l ∨ ys0.lookup y ≠ none := by
  induction l generalizing ys0 with
  | nil => simp
  | cons a rest ih =>
    simp only [List.foldl_cons, ih, lookup_insert_eq, List.mem_cons]
    by_cases h : y = a
    · simp [h]
    · simp [h, or_comm]

theorem foldl_years_lookup (it : MapIter) (es : List (String × GoMap Int ℚ))
    (ys0 : GoMap Int Bool) (y : Int) :
    (es.foldl (fun years e => (it.keys e.2).foldl (fun ys year => ys.insert year true) years)
        ys0).lookup y ≠ none ↔
      (∃ e ∈ es, e.2.lookup y ≠ none) ∨ ys0.lookup y ≠ none := by
  induction es generalizing ys0 with
  | nil => simp
  | cons e rest ih =>
    simp only [List.foldl_cons, ih, foldl_insert_lookup, keys_mem, List.mem_cons,
      exists_eq_or_imp]
    constructor
    · rintro (h | h | h)
      · exact Or.inl (Or.inr h)
      · exact Or.inl (Or.inl h)
      · exact Or.inr h
    · rintro ((h | h) | h)
      · exact Or.inr (Or.inl h)
      · exact Or.inl h
      · exact Or.inr (Or.inr h)

theorem yearly_ne_none (m : GoMap String (GoMap Int ℚ)) (c : String) (y : Int) :
    yearly m c y ≠ none ↔ ∃ inner, m.lookup c = some inner ∧ inner.lookup y ≠ none := by
  unfold yearly
  cases m.lookup c with
  | none => simp
  | some inner => simp

theorem collectYears_lookup (it : MapIter) (st : Acc) (y : Int) :
    (collectYears it st).lookup y ≠ none ↔ ∃ c, yearly st.finalResults c y ≠ none := by
  unfold collectYears
  rw [foldl_years_lookup]
  simp only [lookup_empty_eq, ne_eq, not_true_eq_false, or_false]
  constructor
  · rintro ⟨⟨c, inner⟩, he, hy⟩
    exact ⟨c, (yearly_ne_none _ _ _).2 ⟨inner, (range_mem it _ c inner).1 he, hy⟩⟩
  · rintro ⟨c, hc⟩
    obtain ⟨inner, h1, h2⟩ := (yearly_ne_none _ _ _).1 hc
    exact ⟨(c, inner), (range_mem it _ c inner).2 h1, h2⟩

theorem yearList_mem (it : MapIter) (st : Acc) (y : Int) :
    y ∈ yearList it st ↔ ∃ c, yearly st.finalResults c y ≠ none := by
  unfold yearList
  rw [sortInts_mem, keys_mem, collectYears_lookup]

theorem yearList_sorted (it : MapIter) (st : Acc) : (yearList it st).Sorted (· < ·) :=
  sortInts_sorted _ (keys_nodup it _)

/-! ## The (year, month) columns -/

theorem marked_markMonth (ym : GoMap Int (GoMap Int Bool)) (year month y m : Int) :
    marked (markMonth ym year month) y m ↔ (y = year ∧ m = month) ∨ marked ym y m := by
  unfold marked markMonth
  rw [lookup_insert_eq]
  by_cases hy : y = year
  · subst hy
    by_cases hm : m = month
    · simp [hm, lookup_insert_eq]
    · simp [hm, lookup_insert_eq]
  · simp [hy]

theorem marked_foldl_markMonth (year : Int) (ms : List Int) (ym : GoMap Int (GoMap Int Bool))
    (y m : Int) :
    marked (ms.foldl (fun acc month => markMonth acc year month) ym) y m ↔
      (y = year ∧ m ∈ ms) ∨ marked ym y m := by
  induction ms generalizing ym with
  | nil => simp
  | cons a rest ih =>
    simp only [List.foldl_cons, ih, marked_markMonth, List.mem_cons]
    constructor
    · rintro (⟨h1, h2⟩ | ⟨h1, h2⟩ | h)
      · exact Or.inl ⟨h1, Or.inr h2⟩
      · exact Or.inl ⟨h1, Or.inl h2⟩
      · exact Or.inr h
    · rintro (⟨h1, h2 | h2⟩ | h)
      · exact Or.inr (Or.inl ⟨h1, h2⟩)
      · exact Or.inl ⟨h1, h2⟩
      · exact Or.inr (Or.inr h)

theorem marked_markYear (it : MapIter) (ym : GoMap Int (GoMap Int Bool)) (year : Int)
    (monthData : GoMap Int (GoMap String ℚ)) (y m : Int) :
    marked (markYear it ym year monthData) y m ↔
      (y = year ∧ monthData.lookup m ≠ none) ∨ marked ym y m := by
  unfold markYear
  simp only [marked_foldl_markMonth, keys_mem]
  have hsame : marked (if ym.lookup year = none then ym.insert year ∅ else ym) y m ↔
      marked ym y m := by
    by_cases h : ym.lookup year = none
    · rw [if_pos h]
      unfold marked
      rw [lookup_insert_eq]
      by_cases hy : y = year
      · subst hy
        simp [h, lookup_empty_eq]
      · simp [hy]
    · rw [if_neg h]
  rw [hsame]

theorem marked_foldl_markYear (it : MapIter) (es : List (Int × GoMap Int (GoMap String ℚ)))
    (ym : GoMap Int (GoMap Int Bool)) (y m : Int) :
    marked (es.foldl (fun acc e2 => markYear it acc e2.1 e2.2) ym) y m ↔
      (∃ e ∈ es, y = e.1 ∧ e.2.lookup m ≠ none) ∨ marked ym y m := by
  induction es generalizing ym with
  | nil => simp
  | cons e rest ih =>
    simp only [List.foldl_cons, ih, marked_markYear, List.mem_cons, exists_eq_or_imp]
    constructor
    · rintro (h | h | h)
      · exact Or.inl (Or.inr h)
      · exact Or.inl (Or.inl h)
      · exact Or.inr h
    · rintro ((h | h) | h)
      · exact Or.inr (Or.inl h)
      · exact Or.inl h
      · exact Or.inr (Or.inr h)

theorem marked_foldl_codes (it : MapIter)
    (es : List (String × GoMap Int (GoMap Int (GoMap String ℚ))))
    (ym : GoMap Int (GoMap Int Bool)) (y m : Int) :
    marked (es.foldl
        (fun ym e => (it.range e.2).foldl (fun acc e2 => markYear it acc e2.1 e2.2) ym) ym) y m ↔
      (∃ e ∈ es, ∃ md, e.2.lookup y = some md ∧ md.lookup m ≠ none) ∨ marked ym y m := by
  induction es generalizing ym with
  | nil => simp
  | cons e rest ih =>
    simp only [List.foldl_cons, ih, marked_foldl_markYear, List.mem_cons, exists_eq_or_imp]
    have hin : (∃ e2 ∈ it.range e.2, y = e2.1 ∧ e2.2.lookup m ≠ none) ↔
        ∃ md, e.2.lookup y = some md ∧ md.lookup m ≠ none := by
      constructor
      · rintro ⟨⟨y', md⟩, hmem, hy, hm⟩
        simp only at hy
        subst hy
        exact ⟨md, (range_mem it _ _ _).1 hmem, hm⟩
      · rintro ⟨md, h1, h2⟩
        exact ⟨(y, md), (range_mem it _ _ _).2 h1, rfl, h2⟩
    rw [hin]
    constructor
    · rintro (h | h | h)
      · exact Or.inl (Or.inr h)
      · exact Or.inl (Or.inl h)
      · exact Or.inr h
    · rintro ((h | h) | h)
      · exact Or.inr (Or.inl h)
      · exact Or.inl h
      · exact Or.inr (Or.inr h)

theorem monthly_ne_none (st : Acc) (c : String) (y m : Int) :
    monthly st c y m ≠ none ↔
      ∃ yd, st.monthlyResults.lookup c = some yd ∧
        ∃ md, yd.lookup y = some md ∧ md.lookup m ≠ none := by
  unfold monthly monthsOf
  cases h1 : st.monthlyResults.lookup c with
  | none => simp [lookup_empty_eq]
  | some yd =>
    cases h2 : yd.lookup y with
    | none => simp [h2, lookup_empty_eq]
    | some md => simp [h2]

theorem marked_collect (it : MapIter) (st : Acc) (y m : Int) :
    marked (collectYearsMonths it st) y m ↔ ∃ c, monthly st c y m ≠ none := by
  unfold collectYearsMonths
  rw [marked_foldl_codes]
  have h0 : ¬ marked (∅ : GoMap Int (GoMap Int Bool)) y m := by
    simp [marked, lookup_empty_eq]
  simp only [h0, or_false]
  constructor
  · rintro ⟨⟨c, yd⟩, hmem, md, h1, h2⟩
    exact ⟨c, (monthly_ne_none st c y m).2 ⟨yd, (range_mem it _ _ _).1 hmem, md, h1, h2⟩⟩
  · rintro ⟨c, hc⟩
    obtain ⟨yd, h1, md, h2, h3⟩ := (monthly_ne_none st c y m).1 hc
    exact ⟨(c, yd), (range_mem it _ _ _).2 h1, md, h2, h3⟩

theorem marked_year (ym : GoMap Int (GoMap Int Bool)) (y m : Int) (h : marked ym y m) :
    ym.lookup y ≠ none := by
  intro hn
  apply h
  rw [hn]
  simp [lookup_empty_eq]

theorem monthPairs_mem (it : MapIter) (st : Acc) (y m : Int) :
    (y, m) ∈ monthPairs it st ↔ ∃ c, monthly st c y m ≠ none := by
  rw [← marked_collect it st y m]
  unfold monthPairs
  simp only [List.mem_flatMap, List.mem_map, Prod.mk.injEq]
  constructor
  · rintro ⟨y', _, m', hm', rfl, rfl⟩
    unfold monthsOfYear at hm'
    rw [sortInts_mem, keys_mem] at hm'
    exact hm'
  · intro h
    refine ⟨y, ?_, m, ?_, rfl, rfl⟩
    · unfold monthlyYearList
      rw [sortInts_mem, keys_mem]
      exact marked_year _ y m h
    · unfold monthsOfYear
      rw [sortInts_mem, keys_mem]
      exact h

theorem monthPairs_sorted (it : MapIter) (st : Acc) :
    (monthPairs it st).Pairwise pairLt := by
  unfold monthPairs
  rw [List.pairwise_flatMap]
  constructor
  · intro y _
    rw [List.pairwise_map]
    have hs : (monthsOfYear it st y).Sorted (· < ·) := sortInts_sorted _ (keys_nodup it _)
    exact hs.imp (fun hlt => Or.inr ⟨rfl, hlt⟩)
  · have hs : (monthlyYearList it st).Sorted (· < ·) := sortInts_sorted _ (keys_nodup it _)
    refine hs.imp ?_
    intro a b hab p hp q hq
    simp only [List.mem_map] at hp hq
    obtain ⟨_, _, rfl⟩ := hp
    obtain ⟨_, _, rfl⟩ := hq
    exact Or.inl hab

theorem monthPairs_eq (it : MapIter) (st : Acc) :
    monthPairs it st = pairsOf it st (monthlyYearList it st) := rfl

/-! ## Cells of a station row -/

theorem writeRows_name (name : String → String) (content : String → List (Option Block))
    (codes : List String) (r0 : Nat) (sh : Sheet) (i : Nat) (code : String)
    (hi : codes[i]? = some code) :
    writeRows name content codes r0 sh 1 (r0 + i) = some (.str (name code)) ∧
      writeRows name content codes r0 sh 2 (r0 + i) = some (.str code) := by
  constructor
  · rw [writeRows_row _ _ _ _ _ _ _ hi, writeBlocks_other _ _ _ _ _ _ (Or.inr (Or.inl (by omega)))]
    simp [setCellValue]
  · rw [writeRows_row _ _ _ _ _ _ _ hi, writeBlocks_other _ _ _ _ _ _ (Or.inr (Or.inl (by omega)))]
    simp [setCellValue]

theorem writeRows_block (name : String → String) (content : String → List (Option Block))
    (codes : List String) (r0 : Nat) (sh : Sheet) (i : Nat) (code : String)
    (hi : codes[i]? = some code) (k j : Nat) (blk : Block)
    (hk : (content code)[k]? = some (some blk)) (hj : j < 4) :
    writeRows name content codes r0 sh (3 + 4 * k + j) (r0 + i) = some (blk.get j) := by
  rw [writeRows_row _ _ _ _ _ _ _ hi, writeBlocks_some _ _ _ _ _ _ _ hk hj]

theorem writeRows_skip (name : String → String) (content : String → List (Option Block))
    (codes : List String) (r0 : Nat) (sh : Sheet) (i : Nat) (code : String)
    (hi : codes[i]? = some code) (k j : Nat)
    (hk : (content code)[k]? = some none) (hj : j < 4) :
    writeRows name content codes r0 sh (3 + 4 * k + j) (r0 + i) = sh (3 + 4 * k + j) (r0 + i) := by
  rw [writeRows_row _ _ _ _ _ _ _ hi, writeBlocks_none _ _ _ _ _ _ hk hj]
  have h1 : 3 + 4 * k + j ≠ 1 := by omega
  have h2 : 3 + 4 * k + j ≠ 2 := by omega
  simp [setCellValue, h1, h2]

theorem sumYears_eq (st : Acc) (code : String) (l : List Int)
    (acc : Option ℚ × Option ℚ × Option ℚ × Option ℚ) :
    sumYears st code l acc =
      ((l.map (fun y => getNum2 st.finalResults code y)).foldl addTotal acc.1,
        (l.map (fun y => getNum2 st.peakValleyResults code y)).foldl addTotal acc.2.1,
        (l.map (fun y => getNum2 st.efficiencyResults code y)).foldl addTotal acc.2.2.1,
        (l.map (fun y => getNum2 st.otherResults code y)).foldl addTotal acc.2.2.2) := by
  induction l generalizing acc with
  | nil => simp [sumYears]
  | cons y rest ih => simp [sumYears, ih]

theorem stationTotals_eq (it : MapIter) (st : Acc) (code : String) :
    stationTotals it st code =
      (runningTotal (visitedValues it st st.finalResults code),
        runningTotal (visitedValues it st st.peakValleyResults code),
        runningTotal (visitedValues it st st.efficiencyResults code),
        runningTotal (visitedValues it st st.otherResults code)) := by
  unfold stationTotals runningTotal visitedValues
  rw [sumYears_eq]

theorem visitedValues_sum (it : MapIter) (st : Acc) (m : GoMap String (GoMap Int ℚ))
    (code : String) : (visitedValues it st m code).sum = stationSum st m code := by
  unfold visitedValues stationSum
  exact ((keys_perm it ((st.finalResults.lookup code).getD ∅)).map _).sum_eq

theorem isFloat64_nonneg {q : ℚ} (h : IsFloat64 q) : 0 ≤ q := by
  obtain ⟨m, e, -, -, -, rfl⟩ := h
  exact mul_nonneg (Nat.cast_nonneg m) (two_zpow_pos e).le

theorem isFloat64_lt_limit {q : ℚ} (h : IsFloat64 q) : q < float64Limit := by
  obtain ⟨m, e, hm, -, he, rfl⟩ := h
  have h1 : (m : ℚ) ≤ 2 ^ 53 - 1 := by
    have : m + 1 ≤ 2 ^ 53 := hm
    have h2 : ((m + 1 : ℕ) : ℚ) ≤ ((2 ^ 53 : ℕ) : ℚ) := Nat.cast_le.2 this
    push_cast at h2
    linarith
  have h3 : (2 : ℚ) ^ e ≤ (2 : ℚ) ^ (971 : ℤ) := zpow_le_zpow_right₀ (by norm_num) he
  have h4 : (m : ℚ) * (2 : ℚ) ^ e ≤ (2 ^ 53 - 1) * (2 : ℚ) ^ (971 : ℤ) :=
    mul_le_mul h1 h3 (two_zpow_pos e).le (by norm_num)
  refine lt_of_le_of_lt h4 ?_
  unfold float64Limit
  have e1 : (2 : ℚ) ^ (971 : ℤ) = (2 : ℚ) ^ (970 : ℕ) * 2 := by
    rw [show (971 : ℤ) = ((970 + 1 : ℕ) : ℤ) by norm_num, zpow_natCast, pow_succ]
  have e2 : (2 : ℚ) ^ (1024 : ℕ) = (2 : ℚ) ^ (970 : ℕ) * 2 ^ 54 := by
    rw [← pow_add]
  rw [e1, e2]
  have hp : (0 : ℚ) < (2 : ℚ) ^ (970 : ℕ) := by positivity
  nlinarith

theorem float64Add_exact (a b : ℚ) (h : IsFloat64 (a + b)) : float64Add a b = some (a + b) := by
  have h0 := isFloat64_nonneg h
  have hd : (a + b).den ≠ 0 := (a + b).den_nz
  have hq : (((a + b).num.natAbs : ℕ) : ℚ) / ((a + b).den : ℚ) = a + b := by
    have hn : (((a + b).num.natAbs : ℕ) : ℤ) = (a + b).num :=
      Int.natAbs_of_nonneg (Rat.num_nonneg.2 h0)
    have : (((a + b).num.natAbs : ℕ) : ℚ) = (((a + b).num : ℤ) : ℚ) := by
      rw [← Int.cast_natCast, hn]
    rw [this]
    exact Rat.num_div_den (a + b)
  unfold float64Add
  cases hr : roundFloat64 (a + b).num.natAbs (a + b).den with
  | none =>
    exfalso
    have := (roundFloat64_none _ _ hd).1 hr
    rw [hq] at this
    exact absurd (isFloat64_lt_limit h) (not_lt.2 this)
  | some r =>
    have hn := roundFloat64_some _ _ hd r hr
    rw [hq] at hn
    have := hn.2.1 (a + b) h
    rw [sub_self, abs_zero] at this
    have hr0 : a + b - r = 0 := abs_eq_zero.1 (le_antisymm this (abs_nonneg _))
    have : r = a + b := by linarith
    simp [this, not_lt.2 h0]

theorem foldl_addTotal_exact (l : List ℚ) (a : ℚ)
    (h : ∀ k, IsFloat64 (a + (l.take k).sum)) : l.foldl addTotal (some a) = some (a + l.sum) := by
  induction l generalizing a with
  | nil => simp
  | cons x rest ih =>
    have h1 : IsFloat64 (a + x) := by
      have := h 1
      simpa using this
    simp only [List.foldl_cons, addTotal, Option.bind, float64Add_exact a x h1]
    have := ih (a + x) (fun k => by
      have := h (k + 1)
      simpa [add_assoc] using this)
    change List.foldl addTotal (some (a + x)) rest = _
    rw [this, List.sum_cons, add_assoc]

theorem runningTotal_exact (l : List ℚ) (h : NoRounding l) : runningTotal l = some l.sum := by
  unfold runningTotal
  rw [foldl_addTotal_exact l 0 (fun k => by simpa using h k), zero_add]

theorem pairLt_ne {p q : Int × Int} (h : pairLt p q) : p ≠ q := by
  rintro rfl
  rcases h with h | ⟨_, h⟩
  · exact lt_irrefl _ h
  · exact lt_irrefl _ h

theorem pairLt_asymm {p q : Int × Int} (h : pairLt p q) (h' : pairLt q p) : p = q := by
  exfalso
  unfold pairLt at h h'
  omega

theorem sorted_ints_unique {l1 l2 : List Int} (h1 : l1.Sorted (· < ·)) (h2 : l2.Sorted (· < ·))
    (hm : ∀ y, y ∈ l1 ↔ y ∈ l2) : l1 = l2 :=
  List.eq_of_perm_of_sorted ((List.perm_ext_iff_of_nodup h1.nodup h2.nodup).2 hm) h1 h2

theorem sorted_pairs_unique {l1 l2 : List (Int × Int)} (h1 : l1.Pairwise pairLt)
    (h2 : l2.Pairwise pairLt) (hm : ∀ p, p ∈ l1 ↔ p ∈ l2) : l1 = l2 := by
  have n1 : l1.Nodup := h1.imp pairLt_ne
  have n2 : l2.Nodup := h2.imp pairLt_ne
  have hp := (List.perm_ext_iff_of_nodup n1 n2).2 hm
  exact @List.eq_of_perm_of_sorted _ pairLt ⟨fun _ _ => pairLt_asymm⟩ _ _ hp h1 h2

/-! ## Reading one workbook -/

theorem dailyLoop_ne_err
    (stationNames summaryRow codes : List String) (i : Nat)
    (acc : GoMap String ℚ × GoMap String String) (msg : String) :
    dailyLoop stationNames summaryRow codes i acc ≠ .err msg := by
  induction codes generalizing i acc with
  | nil => simp [dailyLoop]
  | cons code rest ih =>
    unfold dailyLoop
    cases summaryRow[i]? with
    | none => exact ih _ _
    | some cell =>
      simp only
      cases cleanRevenueValue cell with
      | error e => exact ih _ _
      | ok v =>
        simp only
        cases stationNames[i]? with
        | none => simp
        | some name => exact ih _ _

theorem dailyLoop_lookup
    (stationNames summaryRow codes : List String) (i : Nat)
    (acc res : GoMap String ℚ × GoMap String String)
    (h : dailyLoop stationNames summaryRow codes i acc = .ok res) (c : String)
    (hc : res.1.lookup c ≠ none) :
    acc.1.lookup c ≠ none ∨ ∃ (j : Nat) (cell : String) (v : ℚ),
      codes[j]? = some c ∧ summaryRow[i + j]? = some cell ∧
        cleanRevenueValue cell = .ok v := by
  induction codes generalizing i acc with
  | nil =>
    simp only [dailyLoop, Res.ok.injEq] at h
    subst h
    exact Or.inl hc
  | cons code rest ih =>
    have shift : (∃ (j : Nat) (cell : String) (v : ℚ),
        rest[j]? = some c ∧ summaryRow[i + 1 + j]? = some cell ∧
          cleanRevenueValue cell = .ok v) →
        ∃ (j : Nat) (cell : String) (v : ℚ),
          (code :: rest)[j]? = some c ∧ summaryRow[i + j]? = some cell ∧
            cleanRevenueValue cell = .ok v := by
      rintro ⟨j, cell, v, h1, h2, h3⟩
      refine ⟨j + 1, cell, v, by simpa using h1, ?_, h3⟩
      have e : i + (j + 1) = i + 1 + j := by omega
      rw [e]
      exact h2
    unfold dailyLoop at h
    cases hs : summaryRow[i]? with
    | none =>
      rw [hs] at h
      rcases ih _ _ h with h' | h'
      · exact Or.inl h'
      · exact Or.inr (shift h')
    | some cell =>
      rw [hs] at h
      simp only at h
      cases hv : cleanRevenueValue cell with
      | error e =>
        rw [hv] at h
        rcases ih _ _ h with h' | h'
        · exact Or.inl h'
        · exact Or.inr (shift h')
      | ok v =>
        rw [hv] at h
        simp only at h
        cases hn : stationNames[i]? with
        | none =>
          rw [hn] at h
          cases h
        | some name =>
          rw [hn] at h
          rcases ih _ _ h with h' | h'
          · simp only [lookup_insert_eq] at h'
            by_cases hcc : c = code
            · subst hcc
              exact Or.inr ⟨0, cell, v, by simp, by simpa using hs, hv⟩
            · rw [if_neg hcc] at h'
              exact Or.inl h'
          · exact Or.inr (shift h')

theorem sliceFrom_eq_some {α : Type} {l r : List α} {n : Nat} (h : sliceFrom l n = some r) :
    r = l.drop n := by
  unfold sliceFrom at h
  split_ifs at h
  exact (Option.some.inj h).symm

theorem processDailySheet_err (f : InputFile)
    (msg : String) (h : processDailySheet f = .err msg) :
    dailyRows f = none ∨ ∃ rows, dailyRows f = some rows ∧ rows.length < 4 := by
  unfold processDailySheet at h
  unfold dailyRows
  cases hb : f.book with
  | none => exact Or.inl rfl
  | some wb =>
    rw [hb] at h
    simp only at h
    cases hd : wb.daily with
    | none => exact Or.inl (by simp [hd])
    | some rows =>
      rw [hd] at h
      simp only at h
      by_cases hl : rows.length < 4
      · exact Or.inr ⟨rows, by simp [hd], hl⟩
      · exfalso
        rw [if_neg hl] at h
        split at h
        · exact dailyLoop_ne_err _ _ _ _ _ _ h
        · cases h

theorem processDailySheet_ok (f : InputFile)
    (res : GoMap String ℚ × GoMap String String)
    (h : processDailySheet f = .ok res) :
    ∃ rows, dailyRows f = some rows ∧ ∀ c, res.1.lookup c ≠ none →
      ∃ (i : Nat) (cell : String) (v : ℚ), (dailyCodes rows)[i]? = some c ∧
        (dailySummary rows)[i]? = some cell ∧ cleanRevenueValue cell = .ok v := by
  unfold processDailySheet at h
  cases hb : f.book with
  | none =>
    rw [hb] at h
    cases h
  | some wb =>
    rw [hb] at h
    simp only at h
    cases hd : wb.daily with
    | none =>
      rw [hd] at h
      cases h
    | some rows =>
      rw [hd] at h
      simp only at h
      refine ⟨rows, by simp [dailyRows, hb, hd], ?_⟩
      by_cases hl : rows.length < 4
      · rw [if_pos hl] at h
        cases h
      · rw [if_neg hl] at h
        split at h
        · rename_i stationNames stationCodes summaryRow h2 h3 h4
          intro c hc
          rcases dailyLoop_lookup _ _ _ _ _ _ h c hc with h' | ⟨j, cell, v, h5, h6, h7⟩
          · exact absurd (lookup_empty_eq c) h'
          · refine ⟨j, cell, v, ?_, ?_, h7⟩
            · cases h33 : rows[3]? with
              | none => rw [h33] at h3; cases h3
              | some r3 =>
                rw [h33] at h3
                have := sliceFrom_eq_some h3
                simp only [dailyCodes, h33, Option.getD_some, ← this]
                exact h5
            · cases h44 : rows[rows.length - 1]? with
              | none => rw [h44] at h4; cases h4
              | some r4 =>
                rw [h44] at h4
                have := sliceFrom_eq_some h4
                simp only [dailySummary, h44, Option.getD_some, ← this]
                simpa using h6
        · cases h

theorem subItemLoop_ne_err
    (r1 r2 r3 codes : List String) (i : Nat) (acc : GoMap String (GoMap String ℚ))
    (msg : String) : subItemLoop r1 r2 r3 codes i acc ≠ .err msg := by
  induction codes generalizing i acc with
  | nil => simp [subItemLoop]
  | cons code rest ih =>
    unfold subItemLoop
    cases r1[i]? with
    | none => simp
    | some c1 =>
      simp only
      cases r2[i]? with
      | none => simp
      | some c2 =>
        simp only
        cases r3[i]? with
        | none => simp
        | some c3 => exact ih _ _

theorem processSubItemSheet_err (f : InputFile)
    (msg : String) (h : processSubItemSheet f = .err msg) :
    subItemRows f = none ∨ dailyRows f = none ∨
      ∃ rows, subItemRows f = some rows ∧ rows.length < 5 := by
  unfold processSubItemSheet at h
  unfold subItemRows dailyRows
  cases hb : f.book with
  | none => exact Or.inl rfl
  | some wb =>
    rw [hb] at h
    simp only at h
    cases hd : wb.subItem with
    | none => exact Or.inl (by simp [hd])
    | some rows =>
      rw [hd] at h
      simp only at h
      cases hd1 : wb.daily with
      | none => exact Or.inr (Or.inl (by simp [hd1]))
      | some rows1 =>
        rw [hd1] at h
        simp only at h
        by_cases hl : rows.length < 5
        · exact Or.inr (Or.inr ⟨rows, by simp [hd], hl⟩)
        · exfalso
          rw [if_neg hl] at h
          split at h
          · exact subItemLoop_ne_err _ _ _ _ _ _ _ h
          · cases h

theorem unchanged_of_effect {fd : FileData} {d : String → Bool} {val : String → ℚ}
    {st st' : Acc} (e : Effect fd d val st st') (c : String) (hc : d c = false) :
    UnchangedAt st st' c := by
  refine ⟨?_, fun y => ?_, fun y => ?_, fun y => ?_, fun y => ?_, ?_, fun y m => ?_⟩
  · rw [e.final.2 c]
    simp [hc]
  · rw [e.final.1 c y]; simp [hc]
  · rw [e.peak.1 c y]; simp [hc]
  · rw [e.effi.1 c y]; simp [hc]
  · rw [e.other.1 c y]; simp [hc]
  · rw [e.names c]; simp [hc]
  · rw [e.months c y m]; simp [hc]

theorem unchangedAt_refl (st : Acc) (c : String) : UnchangedAt st st c :=
  ⟨Iff.rfl, fun _ => rfl, fun _ => rfl, fun _ => rfl, fun _ => rfl, rfl, fun _ _ => rfl⟩

/-- The outcomes of one directory entry: the accumulators are left as they are, or
the file is accumulated. -/
theorem visit_cases (it : MapIter) (f : InputFile)
    (st st' : Acc) (h : visit it f st = some st') :
    st' = st ∨ ∃ year month res sub, extractYearMonth f.path = .ok (year, month) ∧
      processDailySheet f = .ok res ∧
      processSubItemSheet f = .ok sub ∧
      accumulate it ⟨year, month, res.1, res.2, sub⟩ st = some st' := by
  unfold visit at h
  split_ifs at h with hext
  · cases hy : extractYearMonth f.path with
    | error e =>
      rw [hy] at h
      exact Or.inl (Option.some.inj h).symm
    | ok ym =>
      obtain ⟨year, month⟩ := ym
      rw [hy] at h
      simp only at h
      cases hd : processDailySheet f with
      | panic => rw [hd] at h; cases h
      | err msg => rw [hd] at h; exact Or.inl (Option.some.inj h).symm
      | ok res =>
        obtain ⟨total, info⟩ := res
        rw [hd] at h
        simp only at h
        cases hsub : processSubItemSheet f with
        | panic => rw [hsub] at h; cases h
        | err msg => rw [hsub] at h; exact Or.inl (Option.some.inj h).symm
        | ok sub =>
          rw [hsub] at h
          exact Or.inr ⟨year, month, (total, info), sub, rfl, rfl, rfl, h⟩
  · exact Or.inl (Option.some.inj h).symm

theorem visit_sync (it : MapIter) (f : InputFile)
    (st st' : Acc) (hs : Sync st) (h : visit it f st = some st') : Sync st' := by
  rcases visit_cases it f st st' h with rfl | ⟨_, _, _, _, _, _, _, ha⟩
  · exact hs
  · exact (accumulate_effect it hs ha).sync hs

theorem walk_sync (it : MapIter)
    (fs : List InputFile) (st st' : Acc) (hs : Sync st)
    (h : walk it fs st = some st') : Sync st' := by
  induction fs generalizing st with
  | nil =>
    simp only [walk, Option.some.injEq] at h
    subst h
    exact hs
  | cons f rest ih =>
    unfold walk at h
    cases hv : visit it f st with
    | none => rw [hv] at h; cases h
    | some st1 =>
      rw [hv] at h
      exact ih st1 (visit_sync it f st st1 hs hv) h

theorem visit_unchanged (it : MapIter) (f : InputFile)
    (st st' : Acc) (hs : Sync st) (h : visit it f st = some st') (c : String)
    (hno : NoTotal f c) : UnchangedAt st st' c := by
  rcases visit_cases it f st st' h with rfl | ⟨year, month, res, sub, _, hd, _, ha⟩
  · exact unchangedAt_refl _ c
  · refine unchanged_of_effect (accumulate_effect it hs ha) c ?_
    obtain ⟨rows, hrows, hall⟩ := processDailySheet_ok f res hd
    simp only [fileDom]
    cases hl : res.1.lookup c with
    | none => rfl
    | some v =>
      exfalso
      obtain ⟨i, cell, v', h1, h2, h3⟩ := hall c (by rw [hl]; simp)
      obtain ⟨e, he⟩ := hno rows hrows i cell h1 h2
      rw [he] at h3
      cases h3

theorem dailyLoop_spec (names summary codes : List String) (i : Nat)
    (acc : GoMap String ℚ × GoMap String String)
    (hlen : i + codes.length ≤ names.length) :
    ∃ res, dailyLoop names summary codes i acc = .ok res ∧
      ∀ c,
        ((∀ j cell v, codes[j]? = some c → summary[i + j]? = some cell →
            cleanRevenueValue cell ≠ .ok v) →
          res.1.lookup c = acc.1.lookup c ∧ res.2.lookup c = acc.2.lookup c) ∧
        (∀ j cell v, codes[j]? = some c → summary[i + j]? = some cell →
          cleanRevenueValue cell = .ok v →
          (∀ k cell' w, j < k → codes[k]? = some c → summary[i + k]? = some cell' →
            cleanRevenueValue cell' ≠ .ok w) →
          res.1.lookup c = some v ∧ res.2.lookup c = names[i + j]?) := by
  induction codes generalizing i acc with
  | nil =>
    refine ⟨acc, rfl, fun c => ⟨fun _ => ⟨rfl, rfl⟩, ?_⟩⟩
    intro j cell v hj
    simp at hj
  | cons code rest ih =>
    have hlen' : i + 1 + rest.length ≤ names.length := by
      simp only [List.length_cons] at hlen
      omega
    have hi : i < names.length := by
      simp only [List.length_cons] at hlen
      omega
    have shift : ∀ j : Nat, i + (j + 1) = i + 1 + j := fun j => by omega
    -- the head column does not yield a total
    have skip : (∀ cell v, summary[i]? = some cell → cleanRevenueValue cell ≠ .ok v) →
        dailyLoop names summary (code :: rest) i acc = dailyLoop names summary rest (i + 1) acc →
        ∃ res, dailyLoop names summary (code :: rest) i acc = .ok res ∧
          ∀ c,
            ((∀ j cell v, (code :: rest)[j]? = some c → summary[i + j]? = some cell →
                cleanRevenueValue cell ≠ .ok v) →
              res.1.lookup c = acc.1.lookup c ∧ res.2.lookup c = acc.2.lookup c) ∧
            (∀ j cell v, (code :: rest)[j]? = some c → summary[i + j]? = some cell →
              cleanRevenueValue cell = .ok v →
              (∀ k cell' w, j < k → (code :: rest)[k]? = some c → summary[i + k]? = some cell' →
                cleanRevenueValue cell' ≠ .ok w) →
              res.1.lookup c = some v ∧ res.2.lookup c = names[i + j]?) := by
      intro hbad heq
      obtain ⟨res, hres, hall⟩ := ih (i + 1) acc hlen'
      refine ⟨res, heq.trans hres, fun c => ⟨?_, ?_⟩⟩
      · intro hno
        refine (hall c).1 (fun j cell v hj hs => ?_)
        refine hno (j + 1) cell v (by simpa using hj) ?_
        rw [shift]
        exact hs
      · intro j cell v hj hs hv hlast
        cases j with
        | zero => exact absurd hv (hbad cell v (by simpa using hs))
        | succ j =>
          rw [shift]
          refine (hall c).2 j cell v (by simpa using hj) (by rw [← shift]; exact hs) hv ?_
          intro k cell' w hk hck hsk
          refine hlast (k + 1) cell' w (by omega) (by simpa using hck) ?_
          rw [shift]
          exact hsk
    cases hs : summary[i]? with
    | none =>
      refine skip (fun cell v h => ?_) ?_
      · rw [hs] at h
        cases h
      · rw [dailyLoop, hs]
    | some cell0 =>
      cases hv0 : cleanRevenueValue cell0 with
      | error e =>
        refine skip (fun cell v h => ?_) ?_
        · rw [hs] at h
          cases h
          rw [hv0]
          simp
        · rw [dailyLoop, hs]
          simp only [hv0]
      | ok v0 =>
        have hn : names[i]? = some names[i] := List.getElem?_eq_getElem hi
        obtain ⟨res, hres, hall⟩ :=
          ih (i + 1) (acc.1.insert code v0, acc.2.insert code names[i]) hlen'
        have heq : dailyLoop names summary (code :: rest) i acc =
            dailyLoop names summary rest (i + 1)
              (acc.1.insert code v0, acc.2.insert code names[i]) := by
          rw [dailyLoop, hs]
          simp only [hv0, hn]
        refine ⟨res, heq.trans hres, fun c => ⟨?_, ?_⟩⟩
        · intro hno
          have hne : c ≠ code := by
            rintro rfl
            exact hno 0 cell0 v0 (by simp) (by simpa using hs) hv0
          have := (hall c).1 (fun j cell v hj hsj => by
            refine hno (j + 1) cell v (by simpa using hj) ?_
            rw [shift]
            exact hsj)
          simpa [lookup_insert_eq, hne] using this
        · intro j cell v hj hsj hv hlast
          cases j with
          | zero =>
            have hc : code = c := by simpa using hj
            subst hc
            have hcell : cell = cell0 := by
              have : summary[i]? = some cell := by simpa using hsj
              rw [hs] at this
              exact (Option.some.inj this).symm
            subst hcell
            rw [hv0] at hv
            cases hv
            have := (hall code).1 (fun k cell' w hk hsk => by
              refine hlast (k + 1) cell' w (by omega) (by simpa using hk) ?_
              rw [shift]
              exact hsk)
            simpa [lookup_insert_eq, hn] using this
          | succ j =>
            rw [shift]
            refine (hall c).2 j cell v (by simpa using hj) (by rw [← shift]; exact hsj) hv ?_
            intro k cell' w hk hck hsk
            refine hlast (k + 1) cell' w (by omega) (by simpa using hck) ?_
            rw [shift]
            exact hsk

theorem cellValue_eq (row : List String) (j : Nat) (cell : String) (h : row[j]? = some cell) :
    cellValue row j =
      match cleanRevenueValue cell with
      | .ok v => v
      | .error _ => 0 := by
  simp only [cellValue, h]

theorem subItems_values (c1 c2 c3 : String) :
    getNum (setSubItem (setSubItem (setSubItem ∅ "削峰填谷收益" c1) "效率提升收益" c2)
        "其他收益" c3) "削峰填谷收益" =
      (match cleanRevenueValue c1 with
        | .ok v => v
        | .error _ => 0) ∧
    getNum (setSubItem (setSubItem (setSubItem ∅ "削峰填谷收益" c1) "效率提升收益" c2)
        "其他收益" c3) "效率提升收益" =
      (match cleanRevenueValue c2 with
        | .ok v => v
        | .error _ => 0) ∧
    getNum (setSubItem (setSubItem (setSubItem ∅ "削峰填谷收益" c1) "效率提升收益" c2)
        "其他收益" c3) "其他收益" =
      (match cleanRevenueValue c3 with
        | .ok v => v
        | .error _ => 0) := by
  have n12 : ("削峰填谷收益" : String) ≠ "效率提升收益" := by decide
  have n13 : ("削峰填谷收益" : String) ≠ "其他收益" := by decide
  have n23 : ("效率提升收益" : String) ≠ "其他收益" := by decide
  unfold setSubItem getNum
  cases cleanRevenueValue c1 <;> cases cleanRevenueValue c2 <;> cases cleanRevenueValue c3 <;>
    simp [lookup_insert_eq, lookup_empty_eq, n12, n13, n23, n12.symm, n13.symm, n23.symm,
      -AList.insert_empty]

theorem subItemLoop_spec (r1 r2 r3 codes : List String) (i : Nat)
    (acc : GoMap String (GoMap String ℚ))
    (h1 : i + codes.length ≤ r1.length) (h2 : i + codes.length ≤ r2.length)
    (h3 : i + codes.length ≤ r3.length) :
    ∃ res, subItemLoop r1 r2 r3 codes i acc = .ok res ∧
      ∀ c, (c ∉ codes → res.lookup c = acc.lookup c) ∧
        ∀ j, codes[j]? = some c → (∀ k, j < k → codes[k]? ≠ some c) →
          getNum2 res c "削峰填谷收益" = cellValue r1 (i + j) ∧
          getNum2 res c "效率提升收益" = cellValue r2 (i + j) ∧
          getNum2 res c "其他收益" = cellValue r3 (i + j) := by
  induction codes generalizing i acc with
  | nil =>
    refine ⟨acc, rfl, fun c => ⟨fun _ => rfl, ?_⟩⟩
    intro j hj
    simp at hj
  | cons code rest ih =>
    simp only [List.length_cons] at h1 h2 h3
    have hi1 : i < r1.length := by omega
    have hi2 : i < r2.length := by omega
    have hi3 : i < r3.length := by omega
    have e1 : r1[i]? = some r1[i] := List.getElem?_eq_getElem hi1
    have e2 : r2[i]? = some r2[i] := List.getElem?_eq_getElem hi2
    have e3 : r3[i]? = some r3[i] := List.getElem?_eq_getElem hi3
    have shift : ∀ j : Nat, i + (j + 1) = i + 1 + j := fun j => by omega
    obtain ⟨res, hres, hall⟩ := ih (i + 1)
      (acc.insert code (setSubItem (setSubItem (setSubItem ∅ "削峰填谷收益" r1[i])
        "效率提升收益" r2[i]) "其他收益" r3[i]))
      (by omega) (by omega) (by omega)
    have heq : subItemLoop r1 r2 r3 (code :: rest) i acc = .ok res := by
      rw [subItemLoop, e1]
      simp only [e2, e3]
      exact hres
    refine ⟨res, heq, fun c => ⟨?_, ?_⟩⟩
    · intro hc
      have hne : c ≠ code := fun h => hc (by simp [h])
      have hr : c ∉ rest := fun h => hc (by simp [h])
      rw [(hall c).1 hr, lookup_insert_eq, if_neg hne]
    · intro j hj hlast
      cases j with
      | zero =>
        have hc : code = c := by simpa using hj
        subst hc
        have hr : code ∉ rest := by
          intro hmem
          obtain ⟨k, hk, hke⟩ := List.getElem_of_mem hmem
          refine hlast (k + 1) (by omega) ?_
          simp [List.getElem?_eq_getElem hk, hke]
        have hl := (hall code).1 hr
        rw [lookup_insert_eq, if_pos rfl] at hl
        have hv := subItems_values r1[i] r2[i] r3[i]
        simp only [getNum2, hl, Nat.add_zero, cellValue_eq _ _ _ e1, cellValue_eq _ _ _ e2,
          cellValue_eq _ _ _ e3]
        exact hv
      | succ j =>
        rw [shift]
        refine (hall c).2 j (by simpa using hj) (fun k hk => ?_)
        have := hlast (k + 1) (by omega)
        simpa using this

theorem dailyRows_eq {f : InputFile} {rows : List (List String)} (h : dailyRows f = some rows) :
    ∃ wb, f.book = some wb ∧ wb.daily = some rows := by
  unfold dailyRows at h
  cases hb : f.book with
  | none => rw [hb] at h; cases h
  | some wb =>
    rw [hb] at h
    exact ⟨wb, rfl, h⟩

theorem subItemRows_eq {f : InputFile} {rows : List (List String)}
    (h : subItemRows f = some rows) : ∃ wb, f.book = some wb ∧ wb.subItem = some rows := by
  unfold subItemRows at h
  cases hb : f.book with
  | none => rw [hb] at h; cases h
  | some wb =>
    rw [hb] at h
    exact ⟨wb, rfl, h⟩

theorem row_slice (rows : List (List String)) (k n : Nat) (hk : k < rows.length)
    (hn : n ≤ ((rows[k]?).getD []).length) :
    (rows[k]? >>= (sliceFrom · n)) = some (((rows[k]?).getD []).drop n) := by
  have e : rows[k]? = some rows[k] := List.getElem?_eq_getElem hk
  rw [e] at hn ⊢
  simp only [Option.getD_some] at hn ⊢
  change sliceFrom rows[k] n = _
  unfold sliceFrom
  rw [if_pos hn]

theorem processDailySheet_spec (f : InputFile) (rows srows : List (List String))
    (h : WellShaped f rows srows) :
    ∃ res, processDailySheet f = .ok res ∧
      ∀ c, (NoTotal f c → res.1.lookup c = none) ∧
        ∀ i v, LastTotal rows c i v →
          res.1.lookup c = some v ∧ res.2.lookup c = (dailyNames rows)[i]? := by
  obtain ⟨hd, -, hl, -, h2, h3, h4, hn, -⟩ := h
  obtain ⟨wb, hb, hwd⟩ := dailyRows_eq hd
  obtain ⟨res, hres, hall⟩ := dailyLoop_spec (dailyNames rows) (dailySummary rows)
    (dailyCodes rows) 0 (∅, ∅) (by omega)
  have heq : processDailySheet f = .ok res := by
    unfold processDailySheet
    rw [hb]
    simp only [hwd]
    rw [if_neg (by omega), row_slice rows 2 1 (by omega) h2, row_slice rows 3 1 (by omega) h3,
      row_slice rows (rows.length - 1) 1 (by omega) h4]
    exact hres
  refine ⟨res, heq, fun c => ⟨?_, ?_⟩⟩
  · intro hno
    have := ((hall c).1 (fun j cell v hj hs hv => by
      obtain ⟨e, he⟩ := hno rows hd j cell hj (by simpa using hs)
      rw [he] at hv
      cases hv)).1
    rw [this]
    exact lookup_empty_eq c
  · rintro i v ⟨⟨hc, cell, hs, hv⟩, hlast⟩
    have := (hall c).2 i cell v hc (by simpa using hs) hv (fun k cell' w hk hck hsk hw =>
      hlast k w hk ⟨hck, cell', by simpa using hsk, hw⟩)
    simpa using this

theorem processSubItemSheet_spec (f : InputFile) (rows srows : List (List String))
    (h : WellShaped f rows srows) :
    ∃ sub, processSubItemSheet f = .ok sub ∧
      ∀ c j, LastColumn rows c j →
        getNum2 sub c "削峰填谷收益" = cellValue (subItemCells srows 3) j ∧
        getNum2 sub c "效率提升收益" = cellValue (subItemCells srows 2) j ∧
        getNum2 sub c "其他收益" = cellValue (subItemCells srows 1) j := by
  obtain ⟨hd, hsr, hl, hl5, -, h3, -, -, hk⟩ := h
  obtain ⟨wb, hb, hwd⟩ := dailyRows_eq hd
  obtain ⟨wb', hb', hws⟩ := subItemRows_eq hsr
  have hwb : wb' = wb := by
    rw [hb] at hb'
    exact (Option.some.inj hb').symm
  subst hwb
  have k1 := hk 1 (Or.inl rfl)
  have k2 := hk 2 (Or.inr (Or.inl rfl))
  have k3 := hk 3 (Or.inr (Or.inr rfl))
  obtain ⟨sub, hsub, hall⟩ := subItemLoop_spec (subItemCells srows 3) (subItemCells srows 2)
    (subItemCells srows 1) (dailyCodes rows) 0 ∅
    (by simp only [subItemCells, List.length_drop]; omega)
    (by simp only [subItemCells, List.length_drop]; omega)
    (by simp only [subItemCells, List.length_drop]; omega)
  have heq : processSubItemSheet f = .ok sub := by
    unfold processSubItemSheet
    rw [hb]
    simp only [hwd, hws]
    rw [if_neg (by omega), row_slice rows 3 1 (by omega) h3,
      row_slice srows (srows.length - 3) 3 (by omega) (by omega),
      row_slice srows (srows.length - 2) 3 (by omega) (by omega),
      row_slice srows (srows.length - 1) 3 (by omega) (by omega)]
    exact hsub
  refine ⟨sub, heq, fun c j hj => ?_⟩
  have := (hall c).2 j hj.1 hj.2
  simpa using this

theorem total_cases (f : InputFile) (rows : List (List String))
    (hd : dailyRows f = some rows) (c : String) :
    NoTotal f c ∨ ∃ i v, LastTotal rows c i v := by
  classical
  by_cases hex : ∃ i v, GoodTotal rows c i v
  · right
    obtain ⟨i0, v0, h0⟩ := hex
    have hb : ∀ i v, GoodTotal rows c i v → i ≤ (dailyCodes rows).length := by
      rintro i v ⟨hc, -⟩
      by_contra hlt
      rw [List.getElem?_eq_none (by omega)] at hc
      cases hc
    have hP : ∃ v, GoodTotal rows c
        (Nat.findGreatest (fun i => ∃ v, GoodTotal rows c i v) (dailyCodes rows).length) v :=
      Nat.findGreatest_spec (P := fun i => ∃ v, GoodTotal rows c i v) (hb i0 v0 h0) ⟨v0, h0⟩
    obtain ⟨v, hv⟩ := hP
    refine ⟨_, v, hv, fun j w hj hg => ?_⟩
    exact Nat.findGreatest_is_greatest (P := fun i => ∃ v, GoodTotal rows c i v) hj
      (hb j w hg) ⟨w, hg⟩
  · left
    intro rows' hd' i cell hc hs
    rw [hd] at hd'
    cases hd'
    cases hv : cleanRevenueValue cell with
    | error e => exact ⟨e, rfl⟩
    | ok v => exact absurd ⟨i, v, hc, cell, hs, hv⟩ hex

/-! ## The claims about the accumulation (C3, C4, C9) -/

/-- C3: after the accumulation loop has processed any sequence of successfully read
files (in any visiting order of the maps), it ends without panic and for every
station code `c` and year `y` the entry `finalResults[c][y]` is the exact sum of the
totals of the contributing files (those of year `y` whose daily sheet yielded a
total for `c`); the three sub-item accumulators hold the sums of the sub-item values,
an absent sub-item counting as 0; there is no entry when no file contributes. -/
theorem yearly_totals_are_sums (it : MapIter) (fds : List FileData) :
    ∃ st, accumulateAll it fds Acc.empty = some st ∧ ∀ c y,
      yearly st.finalResults c y = specTotal fds c y (fun fd => getNum fd.totalRevenue c) ∧
      yearly st.peakValleyResults c y =
        specTotal fds c y (fun fd => getNum2 fd.subItemRevenue c "削峰填谷收益") ∧
      yearly st.efficiencyResults c y =
        specTotal fds c y (fun fd => getNum2 fd.subItemRevenue c "效率提升收益") ∧
      yearly st.otherResults c y =
        specTotal fds c y (fun fd => getNum2 fd.subItemRevenue c "其他收益") := by
  obtain ⟨st, h, _⟩ := accumulateAll_total it fds Acc.empty sync_empty
  exact ⟨st, h, fun c y => totals_from_empty it fds st h c y⟩

/-- C4 (as stated, refuted): with two files that name station "A" as "X" and then
as "Y", the recorded name is "Y", not the first-seen "X". -/
theorem first_seen_name_overwritten :
    (accumulateAll MapIter.stored [janFile, febFile] Acc.empty).map
        (fun st => st.finalStationNames.lookup "A") = some (some "Y") ∧
      (firstWith [janFile, febFile] "A").map (fun fd => fd.stationInfo.lookup "A")
        = some (some "X") := by
  decide

/-- C4 (amended): the name recorded for a station code is the last one seen:
`finalStationNames[c]` is the name given for `c` by the last processed file whose
daily sheet yielded a total for `c`, and there is no entry when there is no such
file. -/
theorem last_seen_name_wins (it : MapIter) (fds : List FileData) :
    ∃ st, accumulateAll it fds Acc.empty = some st ∧ ∀ c,
      st.finalStationNames.lookup c =
        (lastWith fds c).map (fun fd => (fd.stationInfo.lookup c).getD "") := by
  obtain ⟨st, h, _⟩ := accumulateAll_total it fds Acc.empty sync_empty
  refine ⟨st, h, fun c => ?_⟩
  rw [names_chain it fds _ st sync_empty h c]
  cases lastWith fds c <;> simp [Acc.empty, lookup_empty_eq]

/-- C9: the accumulation ends without panic; when no two processed files have the
same (year, month), every yearly total (all four categories) equals the sum over the
recorded months of the matching entry of the monthly snapshots.  In general the
monthly snapshot of (`c`, `y`, `m`) is that of the last file of that period with a
total for `c`, while the yearly total sums every contributing file. -/
theorem yearly_agrees_with_monthly (it : MapIter) (fds : List FileData) :
    ∃ st, accumulateAll it fds Acc.empty = some st ∧
      (UniquePeriods fds → Agree st) ∧
      (∀ c y m, monthly st c y m =
        (lastOfPeriod fds c y m).map (fun fd => snapshot fd c (getNum fd.totalRevenue c))) ∧
      (∀ c y, yearly st.finalResults c y =
        specTotal fds c y (fun fd => getNum fd.totalRevenue c)) := by
  obtain ⟨st, h, _⟩ := accumulateAll_total it fds Acc.empty sync_empty
  refine ⟨st, h, fun hu => ?_, fun c y m => ?_, fun c y => (totals_from_empty it fds st h c y).1⟩
  · exact agree_chain it fds _ st sync_empty agree_empty
      (fun fd _ c => monthly_empty c fd.year fd.month) hu h
  · rw [months_chain it fds _ st sync_empty h c y m]
    cases lastOfPeriod fds c y m <;> simp [monthly_empty]

/-- Witness of C9: the January and February files have distinct periods, and the
totals agree with the snapshots after them. -/
theorem yearly_agrees_with_monthly_witness :
    UniquePeriods [janFile, febFile] ∧
      ∃ st, accumulateAll MapIter.reversed [janFile, febFile] Acc.empty = some st ∧ Agree st := by
  refine ⟨by decide, ?_⟩
  obtain ⟨st, h, ha, _⟩ := yearly_agrees_with_monthly MapIter.reversed [janFile, febFile]
  exact ⟨st, h, ha (by decide)⟩

/-! ## The claims about the report sheets (C6, C7, C8) -/

theorem summarySheet_eq (it : MapIter) (st : Acc) :
    summarySheet it st =
      writeRows (getStr st.finalStationNames) (fun code => [some (totalsBlock it st code)])
        (sortedCodes it st) 2
        (writeBlock (setCellValue (setCellValue Sheet.blank 1 1 (.str "站点名称")) 2 1
          (.str "站点编码")) 3 1
          (.str "总收益", .str "削峰填谷收益", .str "效率提升收益", .str "其它收益")) := by
  unfold summarySheet
  simp only [fillSummary_eq]

theorem detailSheet_eq (it : MapIter) (st : Acc) :
    detailSheet it st =
      writeRows (getStr st.finalStationNames)
        (fun code => (yearList it st).map (fun y => some (yearValues st code y)))
        (sortedCodes it st) 2
        (writeBlocks 1 ((yearList it st).map (fun y => some (yearHeader y))) 3
          (setCellValue (setCellValue Sheet.blank 1 1 (.str "站点名称")) 2 1
            (.str "站点编码"))) := by
  unfold detailSheet
  simp only [fillYearly_eq, yearHeaders_eq]

theorem monthlySheet_eq (it : MapIter) (st : Acc) :
    monthlySheet it st =
      writeRows (getStr st.finalStationNames)
        (fun code => (monthPairs it st).map (fun p => (monthly st code p.1 p.2).map monthValues))
        (sortedCodes it st) 2
        (writeBlocks 1 ((monthPairs it st).map (fun p => some (monthHeader p.1 p.2))) 3
          (setCellValue (setCellValue Sheet.blank 1 1 (.str "站点名称")) 2 1
            (.str "站点编码"))) := by
  unfold monthlySheet
  simp only [fillMonthly_eq, monthlyHeaders_eq, monthPairs_eq]

theorem headerBase_cell (c r : Nat) :
    setCellValue (setCellValue Sheet.blank 1 1 (.str "站点名称")) 2 1 (.str "站点编码") c r =
      if c = 2 ∧ r = 1 then some (.str "站点编码")
      else if c = 1 ∧ r = 1 then some (.str "站点名称") else none := rfl

theorem summarySheet_totals (it : MapIter) (st : Acc) (i : Nat) (code : String)
    (hi : (sortedCodes it st)[i]? = some code) :
    summarySheet it st 3 (i + 2) =
      some (totalCell (runningTotal (visitedValues it st st.finalResults code))) ∧
    summarySheet it st 4 (i + 2) =
      some (totalCell (runningTotal (visitedValues it st st.peakValleyResults code))) ∧
    summarySheet it st 5 (i + 2) =
      some (totalCell (runningTotal (visitedValues it st st.efficiencyResults code))) ∧
    summarySheet it st 6 (i + 2) =
      some (totalCell (runningTotal (visitedValues it st st.otherResults code))) := by
  have e : i + 2 = 2 + i := by omega
  rw [e, summarySheet_eq]
  have hb : ∀ (sh : Sheet) (j : Nat), j < 4 →
      writeRows (getStr st.finalStationNames) (fun code => [some (totalsBlock it st code)])
        (sortedCodes it st) 2 sh (3 + 4 * 0 + j) (2 + i) = some ((totalsBlock it st code).get j) :=
    fun sh j hj => writeRows_block _ _ _ _ sh i code hi 0 j _ rfl hj
  refine ⟨?_, ?_, ?_, ?_⟩
  · refine (hb _ 0 (by omega)).trans ?_
    simp [Block.get, totalsBlock, stationTotals_eq]
  · refine (hb _ 1 (by omega)).trans ?_
    simp [Block.get, totalsBlock, stationTotals_eq]
  · refine (hb _ 2 (by omega)).trans ?_
    simp [Block.get, totalsBlock, stationTotals_eq]
  · refine (hb _ 3 (by omega)).trans ?_
    simp [Block.get, totalsBlock, stationTotals_eq]

theorem float64Add_nat (a b : ℚ) (n : ℕ) (r : ℚ) (h : a + b = (n : ℚ))
    (hr : roundFloat64 n 1 = some r) : float64Add a b = some r := by
  unfold float64Add
  rw [h]
  have h0 : ¬ ((n : ℚ) < 0) := not_lt.2 (Nat.cast_nonneg n)
  simp [hr, h0]

theorem totalCell_exact (l : List ℚ) (h : NoRounding l) :
    totalCell (runningTotal l) = .num l.sum := by
  rw [runningTotal_exact l h]
  rfl

/-- C8 (as stated, refuted): the three yearly files of station "A" with the totals 1,
1 and 2^53 give the same accumulators for both visiting orders, with the exact sum
2^53 + 2 over the years; the summary total written for "A" is 2^53 when the years
are visited as stored (2^53 + 1 rounds back to 2^53 twice) and 2^53 + 2 when they
are visited in the reverse order: it is not one sum over the years. -/
theorem summary_total_depends_on_order :
    walk MapIter.stored threeYearFiles Acc.empty = some threeYearAcc ∧
    walk MapIter.reversed threeYearFiles Acc.empty = some threeYearAcc ∧
    yearly threeYearAcc.finalResults "A" 2019 = some 1 ∧
    yearly threeYearAcc.finalResults "A" 2020 = some 1 ∧
    yearly threeYearAcc.finalResults "A" 2021 = some 9007199254740992 ∧
    stationSum threeYearAcc threeYearAcc.finalResults "A" = 9007199254740994 ∧
    summarySheet MapIter.stored threeYearAcc 2 2 = some (.str "A") ∧
    summarySheet MapIter.reversed threeYearAcc 2 2 = some (.str "A") ∧
    summarySheet MapIter.stored threeYearAcc 3 2 = some (.num 9007199254740992) ∧
    summarySheet MapIter.reversed threeYearAcc 3 2 = some (.num 9007199254740994) := by
  have y19 : yearly threeYearAcc.finalResults "A" 2019 = some 1 := by
    have h : yearly threeYearAcc.finalResults "A" 2019 =
        some (0 + ((4503599627370496 : ℕ) : ℚ) * (2 : ℚ) ^ (-52 : ℤ)) := rfl
    rw [h]
    norm_num
  have y20 : yearly threeYearAcc.finalResults "A" 2020 = some 1 := by
    have h : yearly threeYearAcc.finalResults "A" 2020 =
        some (0 + ((4503599627370496 : ℕ) : ℚ) * (2 : ℚ) ^ (-52 : ℤ)) := rfl
    rw [h]
    norm_num
  have y21 : yearly threeYearAcc.finalResults "A" 2021 = some 9007199254740992 := by
    have h : yearly threeYearAcc.finalResults "A" 2021 =
        some (0 + ((4503599627370496 : ℕ) : ℚ) * (2 : ℚ) ^ (1 : ℤ)) := rfl
    rw [h]
    norm_num
  have vs : visitedValues MapIter.stored threeYearAcc threeYearAcc.finalResults "A" =
      [9007199254740992, 1, 1] := by
    have h : visitedValues MapIter.stored threeYearAcc threeYearAcc.finalResults "A" =
        [0 + ((4503599627370496 : ℕ) : ℚ) * (2 : ℚ) ^ (1 : ℤ),
          0 + ((4503599627370496 : ℕ) : ℚ) * (2 : ℚ) ^ (-52 : ℤ),
          0 + ((4503599627370496 : ℕ) : ℚ) * (2 : ℚ) ^ (-52 : ℤ)] := rfl
    rw [h]
    norm_num
  have vr : visitedValues MapIter.reversed threeYearAcc threeYearAcc.finalResults "A" =
      [1, 1, 9007199254740992] := by
    have h : visitedValues MapIter.reversed threeYearAcc threeYearAcc.finalResults "A" =
        [0 + ((4503599627370496 : ℕ) : ℚ) * (2 : ℚ) ^ (-52 : ℤ),
          0 + ((4503599627370496 : ℕ) : ℚ) * (2 : ℚ) ^ (-52 : ℤ),
          0 + ((4503599627370496 : ℕ) : ℚ) * (2 : ℚ) ^ (1 : ℤ)] := rfl
    rw [h]
    norm_num
  have r1 : roundFloat64 1 1 = some 1 := by
    have h : roundFloat64 1 1 = some (((4503599627370496 : ℕ) : ℚ) * (2 : ℚ) ^ (-52 : ℤ)) := rfl
    rw [h]
    norm_num
  have r2 : roundFloat64 2 1 = some 2 := by
    have h : roundFloat64 2 1 = some (((4503599627370496 : ℕ) : ℚ) * (2 : ℚ) ^ (-51 : ℤ)) := rfl
    rw [h]
    norm_num
  have rA : roundFloat64 9007199254740992 1 = some 9007199254740992 := by
    have h : roundFloat64 9007199254740992 1 =
        some (((4503599627370496 : ℕ) : ℚ) * (2 : ℚ) ^ (1 : ℤ)) := rfl
    rw [h]
    norm_num
  have rB : roundFloat64 9007199254740993 1 = some 9007199254740992 := by
    have h : roundFloat64 9007199254740993 1 =
        some (((4503599627370496 : ℕ) : ℚ) * (2 : ℚ) ^ (1 : ℤ)) := rfl
    rw [h]
    norm_num
  have rC : roundFloat64 9007199254740994 1 = some 9007199254740994 := by
    have h : roundFloat64 9007199254740994 1 =
        some (((4503599627370497 : ℕ) : ℚ) * (2 : ℚ) ^ (1 : ℤ)) := rfl
    rw [h]
    norm_num
  have a1 : float64Add 0 9007199254740992 = some 9007199254740992 :=
    float64Add_nat _ _ 9007199254740992 _ (by norm_num) rA
  have a2 : float64Add 9007199254740992 1 = some 9007199254740992 :=
    float64Add_nat _ _ 9007199254740993 _ (by norm_num) rB
  have b1 : float64Add 0 1 = some 1 := float64Add_nat _ _ 1 _ (by norm_num) r1
  have b2 : float64Add 1 1 = some 2 := float64Add_nat _ _ 2 _ (by norm_num) r2
  have b3 : float64Add 2 9007199254740992 = some 9007199254740994 :=
    float64Add_nat _ _ 9007199254740994 _ (by norm_num) rC
  have ts : runningTotal [9007199254740992, 1, 1] = some 9007199254740992 := by
    simp only [runningTotal, List.foldl_cons, List.foldl_nil, addTotal, Option.bind, a1, a2]
  have tr : runningTotal [1, 1, 9007199254740992] = some 9007199254740994 := by
    simp only [runningTotal, List.foldl_cons, List.foldl_nil, addTotal, Option.bind, b1, b2, b3]
  have cs : (sortedCodes MapIter.stored threeYearAcc)[0]? = some "A" := by decide
  have cr : (sortedCodes MapIter.reversed threeYearAcc)[0]? = some "A" := by decide
  have hsum : stationSum threeYearAcc threeYearAcc.finalResults "A" = 9007199254740994 := by
    rw [← visitedValues_sum MapIter.stored, vs]
    norm_num
  refine ⟨rfl, rfl, y19, y20, y21, hsum, ?_, ?_, ?_, ?_⟩
  · rw [summarySheet_eq]
    exact (writeRows_name _ _ _ _ _ 0 _ cs).2
  · rw [summarySheet_eq]
    exact (writeRows_name _ _ _ _ _ 0 _ cr).2
  · rw [(summarySheet_totals MapIter.stored threeYearAcc 0 "A" cs).1, vs, ts]
    rfl
  · rw [(summarySheet_totals MapIter.reversed threeYearAcc 0 "A" cr).1, vr, tr]
    rfl

/-- C8 (amended): `sortedCodes` lists every station code that has an entry in
`finalResults` exactly once, in strictly ascending order (the order of Lean strings,
which is the byte-wise order of their UTF-8 encodings); in each of the three report
sheets the `i`-th code (from 0) is written in row `i + 2` with the name that
`finalStationNames` holds for it (the empty string when it holds none); the summary
row holds, per category, the float64 running sum of the yearly entries of that
station, added from 0 in the order in which `range` visits the years of
`finalResults[code]`, and this is the exact sum over those years whenever no addition
of the running sum rounds. -/
theorem station_rows_sorted (it : MapIter) (st : Acc) :
    (sortedCodes it st).Sorted (· < ·) ∧ (sortedCodes it st).Nodup ∧
    (∀ c, c ∈ sortedCodes it st ↔ st.finalResults.lookup c ≠ none) ∧
    ∀ i code, (sortedCodes it st)[i]? = some code →
      (summarySheet it st 1 (i + 2) =
          some (.str ((st.finalStationNames.lookup code).getD "")) ∧
        summarySheet it st 2 (i + 2) = some (.str code)) ∧
      (detailSheet it st 1 (i + 2) =
          some (.str ((st.finalStationNames.lookup code).getD "")) ∧
        detailSheet it st 2 (i + 2) = some (.str code)) ∧
      (monthlySheet it st 1 (i + 2) =
          some (.str ((st.finalStationNames.lookup code).getD "")) ∧
        monthlySheet it st 2 (i + 2) = some (.str code)) ∧
      (summarySheet it st 3 (i + 2) =
          some (totalCell (runningTotal (visitedValues it st st.finalResults code))) ∧
        summarySheet it st 4 (i + 2) =
          some (totalCell (runningTotal (visitedValues it st st.peakValleyResults code))) ∧
        summarySheet it st 5 (i + 2) =
          some (totalCell (runningTotal (visitedValues it st st.efficiencyResults code))) ∧
        summarySheet it st 6 (i + 2) =
          some (totalCell (runningTotal (visitedValues it st st.otherResults code)))) ∧
      (NoRounding (visitedValues it st st.finalResults code) →
        summarySheet it st 3 (i + 2) = some (.num (stationSum st st.finalResults code))) ∧
      (NoRounding (visitedValues it st st.peakValleyResults code) →
        summarySheet it st 4 (i + 2) =
          some (.num (stationSum st st.peakValleyResults code))) ∧
      (NoRounding (visitedValues it st st.efficiencyResults code) →
        summarySheet it st 5 (i + 2) =
          some (.num (stationSum st st.efficiencyResults code))) ∧
      (NoRounding (visitedValues it st st.otherResults code) →
        summarySheet it st 6 (i + 2) = some (.num (stationSum st st.otherResults code))) := by
  refine ⟨sortedCodes_sorted it st, (sortedCodes_sorted it st).nodup, sortedCodes_mem it st, ?_⟩
  intro i code hi
  have e : i + 2 = 2 + i := by omega
  obtain ⟨t1, t2, t3, t4⟩ := summarySheet_totals it st i code hi
  refine ⟨?_, ?_, ?_, ⟨t1, t2, t3, t4⟩, ?_, ?_, ?_, ?_⟩
  · rw [e, summarySheet_eq]
    exact writeRows_name _ _ _ _ _ _ _ hi
  · rw [e, detailSheet_eq]
    exact writeRows_name _ _ _ _ _ _ _ hi
  · rw [e, monthlySheet_eq]
    exact writeRows_name _ _ _ _ _ _ _ hi
  · intro h
    rw [t1, totalCell_exact _ h, visitedValues_sum]
  · intro h
    rw [t2, totalCell_exact _ h, visitedValues_sum]
  · intro h
    rw [t3, totalCell_exact _ h, visitedValues_sum]
  · intro h
    rw [t4, totalCell_exact _ h, visitedValues_sum]

/-- Witness of C8 (amended): station "A" is the first code; row 2 of the three sheets
holds its recorded name "Y" and its code, and the summary total of its single year
is added without rounding and is 3. -/
theorem station_rows_sorted_witness :
    (sortedCodes MapIter.stored sampleAcc)[0]? = some "A" ∧
      NoRounding (visitedValues MapIter.stored sampleAcc sampleAcc.finalResults "A") ∧
      summarySheet MapIter.stored sampleAcc 1 2 = some (.str "Y") ∧
      summarySheet MapIter.stored sampleAcc 2 2 = some (.str "A") ∧
      detailSheet MapIter.stored sampleAcc 1 2 = some (.str "Y") ∧
      detailSheet MapIter.stored sampleAcc 2 2 = some (.str "A") ∧
      monthlySheet MapIter.stored sampleAcc 1 2 = some (.str "Y") ∧
      monthlySheet MapIter.stored sampleAcc 2 2 = some (.str "A") ∧
      summarySheet MapIter.stored sampleAcc 3 2 = some (.num 3) := by
  have h0 : (sortedCodes MapIter.stored sampleAcc)[0]? = some "A" := by decide
  have hv : visitedValues MapIter.stored sampleAcc sampleAcc.finalResults "A" = [3] := by
    have h : visitedValues MapIter.stored sampleAcc sampleAcc.finalResults "A" =
        [0 + 1 + 2] := rfl
    rw [h]
    norm_num
  have f0 : IsFloat64 0 := ⟨0, 0, by norm_num, by norm_num, by norm_num, by norm_num⟩
  have f3 : IsFloat64 3 := ⟨3, 0, by norm_num, by norm_num, by norm_num, by norm_num⟩
  have hno : NoRounding (visitedValues MapIter.stored sampleAcc sampleAcc.finalResults "A") := by
    rw [hv]
    intro k
    cases k with
    | zero => simpa using f0
    | succ k => simpa using f3
  have hs : stationSum sampleAcc sampleAcc.finalResults "A" = 3 := by
    rw [← visitedValues_sum MapIter.stored, hv]
    norm_num
  have hname : (sampleAcc.finalStationNames.lookup "A").getD "" = "Y" := by decide
  obtain ⟨h1, h2, h3, -, h4, -⟩ := (station_rows_sorted MapIter.stored sampleAcc).2.2.2 0 "A" h0
  rw [hname] at h1 h2 h3
  rw [hs] at h4
  exact ⟨h0, hno, h1.1, h1.2, h2.1, h2.2, h3.1, h3.2, h4 hno⟩

/-- C6: the year columns of the yearly sheet are the strictly ascending list of the
distinct years of `finalResults` (`yearList`, the only such list).  Row 1 holds
"站点名称" in column 1, "站点编码" in column 2, the four headers of the `k`-th year in
columns `3+4k .. 6+4k`, and nothing else (exactly `2 + 4N` headers); every station
row holds the four yearly values of the `k`-th year in those same columns, 0 when
the station has no entry for that year. -/
theorem yearly_sheet_layout (it : MapIter) (st : Acc) :
    (yearList it st).Sorted (· < ·) ∧
    (∀ y, y ∈ yearList it st ↔ ∃ c, yearly st.finalResults c y ≠ none) ∧
    (∀ ys : List Int, ys.Sorted (· < ·) →
      (∀ y, y ∈ ys ↔ ∃ c, yearly st.finalResults c y ≠ none) → yearList it st = ys) ∧
    detailSheet it st 1 1 = some (.str "站点名称") ∧
    detailSheet it st 2 1 = some (.str "站点编码") ∧
    detailSheet it st 0 1 = none ∧
    (∀ c, 2 + 4 * (yearList it st).length < c → detailSheet it st c 1 = none) ∧
    ∀ k y, (yearList it st)[k]? = some y →
      (detailSheet it st (3 + 4 * k) 1 = some (.str (toString y ++ "年总收益")) ∧
        detailSheet it st (4 + 4 * k) 1 = some (.str (toString y ++ "年削峰填谷收益")) ∧
        detailSheet it st (5 + 4 * k) 1 = some (.str (toString y ++ "年效率提升收益")) ∧
        detailSheet it st (6 + 4 * k) 1 = some (.str (toString y ++ "年其它收益"))) ∧
      ∀ i code, (sortedCodes it st)[i]? = some code →
        detailSheet it st (3 + 4 * k) (i + 2) =
          some (.num ((yearly st.finalResults code y).getD 0)) ∧
        detailSheet it st (4 + 4 * k) (i + 2) =
          some (.num ((yearly st.peakValleyResults code y).getD 0)) ∧
        detailSheet it st (5 + 4 * k) (i + 2) =
          some (.num ((yearly st.efficiencyResults code y).getD 0)) ∧
        detailSheet it st (6 + 4 * k) (i + 2) =
          some (.num ((yearly st.otherResults code y).getD 0)) := by
  have hrow1 : ∀ c, detailSheet it st c 1 =
      writeBlocks 1 ((yearList it st).map (fun y => some (yearHeader y))) 3
        (setCellValue (setCellValue Sheet.blank 1 1 (.str "站点名称")) 2 1 (.str "站点编码"))
        c 1 := by
    intro c
    rw [detailSheet_eq, writeRows_other_row _ _ _ _ _ _ _ (Or.inl (by omega))]
  refine ⟨yearList_sorted it st, yearList_mem it st, ?_, ?_, ?_, ?_, ?_, ?_⟩
  · intro ys hs hm
    exact sorted_ints_unique (yearList_sorted it st) hs
      (fun y => (yearList_mem it st y).trans (hm y).symm)
  · rw [hrow1, writeBlocks_other _ _ _ _ _ _ (Or.inr (Or.inl (by omega)))]
    rfl
  · rw [hrow1, writeBlocks_other _ _ _ _ _ _ (Or.inr (Or.inl (by omega)))]
    rfl
  · rw [hrow1, writeBlocks_other _ _ _ _ _ _ (Or.inr (Or.inl (by omega)))]
    rfl
  · intro c hc
    rw [hrow1, writeBlocks_other _ _ _ _ _ _
      (Or.inr (Or.inr (by simp only [List.length_map]; omega))), headerBase_cell]
    have h1 : ¬ (c = 2 ∧ 1 = 1) := by omega
    have h2 : ¬ (c = 1 ∧ 1 = 1) := by omega
    rw [if_neg h1, if_neg h2]
  · intro k y hk
    have hh : ∀ (sh : Sheet) (j : Nat), j < 4 →
        writeBlocks 1 ((yearList it st).map (fun y => some (yearHeader y))) 3 sh
          (3 + 4 * k + j) 1 = some ((yearHeader y).get j) :=
      fun sh j hj => writeBlocks_some _ _ _ sh k j _ (by simp [hk]) hj
    have e4 : 4 + 4 * k = 3 + 4 * k + 1 := by omega
    have e5 : 5 + 4 * k = 3 + 4 * k + 2 := by omega
    have e6 : 6 + 4 * k = 3 + 4 * k + 3 := by omega
    refine ⟨⟨?_, ?_, ?_, ?_⟩, ?_⟩
    · rw [hrow1]
      exact hh _ 0 (by omega)
    · rw [hrow1, e4]
      exact hh _ 1 (by omega)
    · rw [hrow1, e5]
      exact hh _ 2 (by omega)
    · rw [hrow1, e6]
      exact hh _ 3 (by omega)
    · intro i code hi
      have e : i + 2 = 2 + i := by omega
      have hd : ∀ (sh : Sheet) (j : Nat), j < 4 →
          writeRows (getStr st.finalStationNames)
            (fun code => (yearList it st).map (fun y => some (yearValues st code y)))
            (sortedCodes it st) 2 sh (3 + 4 * k + j) (2 + i) =
              some ((yearValues st code y).get j) :=
        fun sh j hj => writeRows_block _ _ _ _ sh i code hi k j _ (by simp [hk]) hj
      rw [e, detailSheet_eq, ← getNum2_eq, ← getNum2_eq, ← getNum2_eq, ← getNum2_eq]
      refine ⟨?_, ?_, ?_, ?_⟩
      · exact hd _ 0 (by omega)
      · rw [e4]
        exact hd _ 1 (by omega)
      · rw [e5]
        exact hd _ 2 (by omega)
      · rw [e6]
        exact hd _ 3 (by omega)

/-- Witness of C6: 2021 is the first year, its first header is in column 3 of row 1
and the total of station "A" in column 3 of row 2. -/
theorem yearly_sheet_layout_witness :
    (yearList MapIter.stored sampleAcc)[0]? = some 2021 ∧
      (sortedCodes MapIter.stored sampleAcc)[0]? = some "A" ∧
      detailSheet MapIter.stored sampleAcc (3 + 4 * 0) 1 =
        some (.str (toString (2021 : Int) ++ "年总收益")) ∧
      detailSheet MapIter.stored sampleAcc (3 + 4 * 0) (0 + 2) =
        some (.num ((yearly sampleAcc.finalResults "A" 2021).getD 0)) := by
  have hy : (yearList MapIter.stored sampleAcc)[0]? = some 2021 := by decide
  have hc : (sortedCodes MapIter.stored sampleAcc)[0]? = some "A" := by decide
  obtain ⟨hh, hd⟩ := (yearly_sheet_layout MapIter.stored sampleAcc).2.2.2.2.2.2.2 0 2021 hy
  exact ⟨hy, hc, hh.1, (hd 0 "A" hc).1⟩

/-- C7: the (year, month) columns of the monthly sheet are the strictly ascending
(lexicographic) list of the distinct pairs present for any station (`monthPairs`, the
only such list).  The four headers of the `k`-th pair are in row 1 at columns
`3+4k .. 6+4k`; a station that has a snapshot for the pair has its four values in its
row at exactly those columns, and a station without one has those four cells left
unwritten, the columns of the later pairs staying where they are. -/
theorem monthly_sheet_alignment (it : MapIter) (st : Acc) :
    (monthPairs it st).Pairwise pairLt ∧
    (∀ y m, (y, m) ∈ monthPairs it st ↔ ∃ c, monthly st c y m ≠ none) ∧
    (∀ ps : List (Int × Int), ps.Pairwise pairLt →
      (∀ y m, (y, m) ∈ ps ↔ ∃ c, monthly st c y m ≠ none) → monthPairs it st = ps) ∧
    ∀ k y m, (monthPairs it st)[k]? = some (y, m) →
      (monthlySheet it st (3 + 4 * k) 1 =
          some (.str (toString y ++ "年" ++ toString m ++ "月" ++ "总收益")) ∧
        monthlySheet it st (4 + 4 * k) 1 =
          some (.str (toString y ++ "年" ++ toString m ++ "月" ++ "削峰填谷收益")) ∧
        monthlySheet it st (5 + 4 * k) 1 =
          some (.str (toString y ++ "年" ++ toString m ++ "月" ++ "效率提升收益")) ∧
        monthlySheet it st (6 + 4 * k) 1 =
          some (.str (toString y ++ "年" ++ toString m ++ "月" ++ "其它收益"))) ∧
      ∀ i code, (sortedCodes it st)[i]? = some code →
        (∀ revenues, monthly st code y m = some revenues →
          monthlySheet it st (3 + 4 * k) (i + 2) = some (.num (getNum revenues "总收益")) ∧
          monthlySheet it st (4 + 4 * k) (i + 2) =
            some (.num (getNum revenues "削峰填谷收益")) ∧
          monthlySheet it st (5 + 4 * k) (i + 2) =
            some (.num (getNum revenues "效率提升收益")) ∧
          monthlySheet it st (6 + 4 * k) (i + 2) = some (.num (getNum revenues "其他收益"))) ∧
        (monthly st code y m = none →
          monthlySheet it st (3 + 4 * k) (i + 2) = none ∧
          monthlySheet it st (4 + 4 * k) (i + 2) = none ∧
          monthlySheet it st (5 + 4 * k) (i + 2) = none ∧
          monthlySheet it st (6 + 4 * k) (i + 2) = none) := by
  refine ⟨monthPairs_sorted it st, monthPairs_mem it st, ?_, ?_⟩
  · intro ps hs hm
    refine sorted_pairs_unique (monthPairs_sorted it st) hs ?_
    rintro ⟨y, m⟩
    exact (monthPairs_mem it st y m).trans (hm y m).symm
  · intro k y m hk
    have e4 : 4 + 4 * k = 3 + 4 * k + 1 := by omega
    have e5 : 5 + 4 * k = 3 + 4 * k + 2 := by omega
    have e6 : 6 + 4 * k = 3 + 4 * k + 3 := by omega
    have hrow1 : ∀ c, monthlySheet it st c 1 =
        writeBlocks 1 ((monthPairs it st).map (fun p => some (monthHeader p.1 p.2))) 3
          (setCellValue (setCellValue Sheet.blank 1 1 (.str "站点名称")) 2 1 (.str "站点编码"))
          c 1 := by
      intro c
      rw [monthlySheet_eq, writeRows_other_row _ _ _ _ _ _ _ (Or.inl (by omega))]
    have hh : ∀ (sh : Sheet) (j : Nat), j < 4 →
        writeBlocks 1 ((monthPairs it st).map (fun p => some (monthHeader p.1 p.2))) 3 sh
          (3 + 4 * k + j) 1 = some ((monthHeader y m).get j) :=
      fun sh j hj => writeBlocks_some _ _ _ sh k j _ (by simp [hk]) hj
    refine ⟨⟨?_, ?_, ?_, ?_⟩, ?_⟩
    · rw [hrow1]
      exact hh _ 0 (by omega)
    · rw [hrow1, e4]
      exact hh _ 1 (by omega)
    · rw [hrow1, e5]
      exact hh _ 2 (by omega)
    · rw [hrow1, e6]
      exact hh _ 3 (by omega)
    · intro i code hi
      have e : i + 2 = 2 + i := by omega
      rw [e, monthlySheet_eq]
      constructor
      · intro revenues hrev
        have hd : ∀ (sh : Sheet) (j : Nat), j < 4 →
            writeRows (getStr st.finalStationNames)
              (fun code => (monthPairs it st).map
                (fun p => (monthly st code p.1 p.2).map monthValues))
              (sortedCodes it st) 2 sh (3 + 4 * k + j) (2 + i) =
                some ((monthValues revenues).get j) :=
          fun sh j hj => writeRows_block _ _ _ _ sh i code hi k j _ (by simp [hk, hrev]) hj
        refine ⟨?_, ?_, ?_, ?_⟩
        · exact hd _ 0 (by omega)
        · rw [e4]
          exact hd _ 1 (by omega)
        · rw [e5]
          exact hd _ 2 (by omega)
        · rw [e6]
          exact hd _ 3 (by omega)
      · intro hnone
        have hd : ∀ (j : Nat), j < 4 →
            writeRows (getStr st.finalStationNames)
              (fun code => (monthPairs it st).map
                (fun p => (monthly st code p.1 p.2).map monthValues))
              (sortedCodes it st) 2
              (writeBlocks 1 ((monthPairs it st).map (fun p => some (monthHeader p.1 p.2))) 3
                (setCellValue (setCellValue Sheet.blank 1 1 (.str "站点名称")) 2 1
                  (.str "站点编码")))
              (3 + 4 * k + j) (2 + i) = none := by
          intro j hj
          rw [writeRows_skip _ _ _ _ _ i code hi k j (by simp [hk, hnone]) hj,
            writeBlocks_other _ _ _ _ _ _ (Or.inl (by omega)), headerBase_cell]
          have h1 : ¬ (3 + 4 * k + j = 2 ∧ 2 + i = 1) := by omega
          have h2 : ¬ (3 + 4 * k + j = 1 ∧ 2 + i = 1) := by omega
          rw [if_neg h1, if_neg h2]
        refine ⟨?_, ?_, ?_, ?_⟩
        · exact hd 0 (by omega)
        · rw [e4]
          exact hd 1 (by omega)
        · rw [e5]
          exact hd 2 (by omega)
        · rw [e6]
          exact hd 3 (by omega)

/-- Witness of C7: (2021, 2) is the second pair, its first header is in column 7 of
row 1 and the February total of station "A" in column 7 of row 2. -/
theorem monthly_sheet_alignment_witness :
    (monthPairs MapIter.stored sampleAcc)[1]? = some (2021, 2) ∧
      (sortedCodes MapIter.stored sampleAcc)[0]? = some "A" ∧
      monthlySheet MapIter.stored sampleAcc (3 + 4 * 1) 1 =
        some (.str (toString (2021 : Int) ++ "年" ++ toString (2 : Int) ++ "月" ++ "总收益")) ∧
      monthlySheet MapIter.stored sampleAcc (3 + 4 * 1) (0 + 2) =
        some (.num (getNum (snapshot febFile "A" 2) "总收益")) := by
  have hp : (monthPairs MapIter.stored sampleAcc)[1]? = some (2021, 2) := by decide
  have hc : (sortedCodes MapIter.stored sampleAcc)[0]? = some "A" := by decide
  have hm : monthly sampleAcc "A" 2021 2 = some (snapshot febFile "A" 2) := rfl
  obtain ⟨hh, hd⟩ := (monthly_sheet_alignment MapIter.stored sampleAcc).2.2.2 1 2021 2 hp
  exact ⟨hp, hc, hh.1, ((hd 0 "A" hc).1 _ hm).1⟩

/-! ## The claims about reading a workbook (C5, C10) -/

/-- C5 (as stated, refuted): a workbook with a malformed total cell ("1.2.3", station
"B", the first station column) and a malformed sub-item cell ("..", station "A") is
not skipped: starting from empty accumulators, station "A" gets the value of its
total cell "¥1,234.56" for 2021 and its name, only station "B" is left out, and the
malformed sub-item counts as 0. -/
theorem malformed_cell_file_not_skipped :
    cleanRevenueValue "1.2.3" =
      .error "strconv.ParseFloat: parsing \"1.2.3\": invalid syntax" ∧
    cleanRevenueValue ".." = .error "strconv.ParseFloat: parsing \"..\": invalid syntax" ∧
    cleanRevenueValue "¥1,234.56" = .ok ((5429652300748554 : ℚ) / 2 ^ 42) ∧
    (dailyRows badCellFile).map dailySummary = some ["1.2.3", "¥1,234.56"] ∧
    (walk MapIter.stored [badCellFile] Acc.empty).map
      (fun st => yearly st.finalResults "A" 2021) =
        some (some ((5429652300748554 : ℚ) / 2 ^ 42)) ∧
    (walk MapIter.stored [badCellFile] Acc.empty).map
      (fun st => st.finalStationNames.lookup "A") = some (some "站A") ∧
    (walk MapIter.stored [badCellFile] Acc.empty).map
      (fun st => yearly st.otherResults "A" 2021) = some (some 0) ∧
    (walk MapIter.stored [badCellFile] Acc.empty).map
      (fun st => yearly st.finalResults "B" 2021) = some none ∧
    yearly Acc.empty.finalResults "A" 2021 = none := by
  have hC : cleanRevenueValue "¥1,234.56" = .ok ((5429652300748554 : ℚ) / 2 ^ 42) := by
    have h : cleanRevenueValue "¥1,234.56" =
        .ok (((5429652300748554 : ℕ) : ℚ) * (2 : ℚ) ^ (-42 : ℤ)) := rfl
    rw [h]
    norm_num
  have hA : (walk MapIter.stored [badCellFile] Acc.empty).map
      (fun st => yearly st.finalResults "A" 2021) =
        some (some ((5429652300748554 : ℚ) / 2 ^ 42)) := by
    have h : (walk MapIter.stored [badCellFile] Acc.empty).map
        (fun st => yearly st.finalResults "A" 2021) =
          some (some (0 + ((5429652300748554 : ℕ) : ℚ) * (2 : ℚ) ^ (-42 : ℤ))) := rfl
    rw [h]
    norm_num
  have hO : (walk MapIter.stored [badCellFile] Acc.empty).map
      (fun st => yearly st.otherResults "A" 2021) = some (some 0) := by
    have h : (walk MapIter.stored [badCellFile] Acc.empty).map
        (fun st => yearly st.otherResults "A" 2021) = some (some (0 + 0)) := rfl
    rw [h]
    norm_num
  exact ⟨by decide, by decide, hC, by decide, hA, by decide, hO, by decide, by decide⟩

/-- C5 (amended): a malformed numeric cell skips only its own station or sub-item.
The two extractors return an error only for an unreadable sheet or too few rows,
never for a cell.  For a file with the ".xlsx" extension and a period in its name,
whose sheets have the rows and cells that are read (`WellShaped`), processed after
any files: the file is accumulated and the remaining files are processed from the
resulting accumulators; a station code whose total cells in the file are all
malformed keeps every accumulator entry exactly as it was; every other code has a
last column with a well-formed total, and for it the value of that total cell is
added to its yearly total, the name of that column is recorded, the three sub-item
cells of the last column of the code are added to the yearly sub-item totals, a
malformed sub-item cell counting as 0, and the monthly snapshot holds these four
values. -/
theorem malformed_cell_skips_station_only (it : MapIter) (prev : List InputFile)
    (f : InputFile) (st : Acc) (rows srows : List (List String)) (year month : Int)
    (hprev : walk it prev Acc.empty = some st)
    (hext : filepathExt f.path.data = ".xlsx".data)
    (hym : extractYearMonth f.path = .ok (year, month))
    (hshape : WellShaped f rows srows) :
    (∀ (g : InputFile) (msg : String), processDailySheet g = .err msg →
      dailyRows g = none ∨ ∃ rs, dailyRows g = some rs ∧ rs.length < 4) ∧
    (∀ (g : InputFile) (msg : String), processSubItemSheet g = .err msg →
      subItemRows g = none ∨ dailyRows g = none ∨
        ∃ rs, subItemRows g = some rs ∧ rs.length < 5) ∧
    ∃ st', visit it f st = some st' ∧
      (∀ rest, walk it (f :: rest) st = walk it rest st') ∧
      ∀ c, (NoTotal f c ∨ ∃ i v, LastTotal rows c i v) ∧
        (NoTotal f c → UnchangedAt st st' c) ∧
        ∀ i v, LastTotal rows c i v →
          yearly st'.finalResults c year =
            some ((yearly st.finalResults c year).getD 0 + v) ∧
          (∃ name, (dailyNames rows)[i]? = some name ∧
            st'.finalStationNames.lookup c = some name) ∧
          ∀ j, LastColumn rows c j →
            yearly st'.peakValleyResults c year =
              some ((yearly st.peakValleyResults c year).getD 0 +
                cellValue (subItemCells srows 3) j) ∧
            yearly st'.efficiencyResults c year =
              some ((yearly st.efficiencyResults c year).getD 0 +
                cellValue (subItemCells srows 2) j) ∧
            yearly st'.otherResults c year =
              some ((yearly st.otherResults c year).getD 0 +
                cellValue (subItemCells srows 1) j) ∧
            ∃ snap, monthly st' c year month = some snap ∧
              getNum snap "总收益" = v ∧
              getNum snap "削峰填谷收益" = cellValue (subItemCells srows 3) j ∧
              getNum snap "效率提升收益" = cellValue (subItemCells srows 2) j ∧
              getNum snap "其他收益" = cellValue (subItemCells srows 1) j := by
  have hs : Sync st := walk_sync it prev _ st sync_empty hprev
  refine ⟨fun g msg => processDailySheet_err g msg,
    fun g msg => processSubItemSheet_err g msg, ?_⟩
  obtain ⟨res, hd, hdall⟩ := processDailySheet_spec f rows srows hshape
  obtain ⟨sub, hsub, hsall⟩ := processSubItemSheet_spec f rows srows hshape
  obtain ⟨total, info⟩ := res
  obtain ⟨st', hacc, e⟩ := accumulate_spec it ⟨year, month, total, info, sub⟩ st hs
  have hv : visit it f st = some st' := by
    unfold visit
    rw [if_pos hext, hym]
    simp only [hd, hsub]
    exact hacc
  refine ⟨st', hv, fun rest => by simp only [walk, hv], fun c => ⟨?_, ?_, ?_⟩⟩
  · exact total_cases f rows hshape.1 c
  · intro hno
    refine unchanged_of_effect e c ?_
    simp only [fileDom, (hdall c).1 hno, Option.isSome_none]
  · intro i v hlast
    obtain ⟨ht, hn⟩ := (hdall c).2 i v hlast
    simp only at ht hn
    have hdom : fileDom ⟨year, month, total, info, sub⟩ c = true := by
      simp only [fileDom, ht, Option.isSome_some]
    have hval : getNum total c = v := by
      simp only [getNum, ht, Option.getD_some]
    have hi : i < (dailyNames rows).length := by
      have hc := hlast.1.1
      have : i < (dailyCodes rows).length := by
        by_contra hlt
        rw [List.getElem?_eq_none (by omega)] at hc
        cases hc
      exact lt_of_lt_of_le this hshape.2.2.2.2.2.2.2.1
    refine ⟨?_, ⟨(dailyNames rows)[i], List.getElem?_eq_getElem hi, ?_⟩, ?_⟩
    · rw [e.final.1 c year]
      simp only [hdom, hval, and_self, if_true]
    · rw [e.names c, if_pos hdom]
      simp only [hn, List.getElem?_eq_getElem hi, Option.getD_some]
    · intro j hj
      obtain ⟨s1, s2, s3⟩ := hsall c j hj
      refine ⟨?_, ?_, ?_, snapshot ⟨year, month, total, info, sub⟩ c v, ?_, ?_, ?_, ?_, ?_⟩
      · rw [e.peak.1 c year]
        simp only [hdom, s1, and_self, if_true]
      · rw [e.effi.1 c year]
        simp only [hdom, s2, and_self, if_true]
      · rw [e.other.1 c year]
        simp only [hdom, s3, and_self, if_true]
      · rw [e.months c year month]
        simp only [hdom, hval, and_self, if_true]
      · exact snapshot_total _ c v
      · rw [snapshot_peak, s1]
      · rw [snapshot_effi, s2]
      · rw [snapshot_other, s3]

/-- Witness of C5 (amended): from empty accumulators, the workbook whose total cell
of "B" (first station column) and whose last sub-item cell of "A" are malformed is
accumulated: station "B" is left as it was, station "A" in the column after it gets
the value of its total cell, its name, and 0 for the malformed sub-item. -/
theorem malformed_cell_skips_station_only_witness :
    walk MapIter.stored [] Acc.empty = some Acc.empty ∧
      filepathExt badCellFile.path.data = ".xlsx".data ∧
      extractYearMonth badCellFile.path = .ok (2021, 3) ∧
      WellShaped badCellFile badDailyRows badSubItemRows ∧
      NoTotal badCellFile "B" ∧
      LastTotal badDailyRows "A" 1 ((5429652300748554 : ℚ) / 2 ^ 42) ∧
      LastColumn badDailyRows "A" 1 ∧
      ∃ st', visit MapIter.stored badCellFile Acc.empty = some st' ∧
        UnchangedAt Acc.empty st' "B" ∧
        yearly st'.finalResults "A" 2021 = some ((5429652300748554 : ℚ) / 2 ^ 42) ∧
        st'.finalStationNames.lookup "A" = some "站A" ∧
        yearly st'.peakValleyResults "A" 2021 = some 1 ∧
        yearly st'.otherResults "A" 2021 = some 0 := by
  have hcodes : dailyCodes badDailyRows = ["B", "A"] := rfl
  have hsum : dailySummary badDailyRows = ["1.2.3", "¥1,234.56"] := rfl
  have hshape : WellShaped badCellFile badDailyRows badSubItemRows := by
    refine ⟨rfl, rfl, by decide, by decide, by decide, by decide, by decide, by decide, ?_⟩
    rintro k (rfl | rfl | rfl) <;> decide
  have hno : NoTotal badCellFile "B" := by
    intro rows hr i cell hc hcell
    have hrows : rows = badDailyRows := by
      have : dailyRows badCellFile = some badDailyRows := rfl
      rw [this] at hr
      exact (Option.some.inj hr).symm
    subst hrows
    rw [hcodes] at hc
    rw [hsum] at hcell
    match i, hc, hcell with
    | 0, _, hcell =>
      have : cell = "1.2.3" := (Option.some.inj hcell).symm
      subst this
      exact ⟨"strconv.ParseFloat: parsing \"1.2.3\": invalid syntax", by decide⟩
    | 1, hc, _ => exact absurd (Option.some.inj hc) (by decide)
    | n + 2, hc, _ => simp at hc
  have hC : cleanRevenueValue "¥1,234.56" = .ok ((5429652300748554 : ℚ) / 2 ^ 42) := by
    have h : cleanRevenueValue "¥1,234.56" =
        .ok (((5429652300748554 : ℕ) : ℚ) * (2 : ℚ) ^ (-42 : ℤ)) := rfl
    rw [h]
    norm_num
  have hlast : LastTotal badDailyRows "A" 1 ((5429652300748554 : ℚ) / 2 ^ 42) := by
    refine ⟨⟨rfl, "¥1,234.56", rfl, hC⟩, ?_⟩
    rintro j w hj ⟨hc, -⟩
    rw [hcodes] at hc
    match j, hj, hc with
    | n + 2, _, hc => simp at hc
  have hcol : LastColumn badDailyRows "A" 1 := by
    refine ⟨rfl, fun k hk hc => ?_⟩
    rw [hcodes] at hc
    match k, hk, hc with
    | n + 2, _, hc => simp at hc
  obtain ⟨st', hv, -, hall⟩ :=
    (malformed_cell_skips_station_only MapIter.stored [] badCellFile Acc.empty badDailyRows
      badSubItemRows 2021 3 rfl (by decide) (by decide) hshape).2.2
  obtain ⟨h1, h2, h3⟩ := (hall "A").2.2 1 _ hlast
  obtain ⟨h4, -, h5, -⟩ := h3 1 hcol
  have e1 : cellValue (subItemCells badSubItemRows 3) 1 = 1 := by
    have h : cellValue (subItemCells badSubItemRows 3) 1 =
        ((4503599627370496 : ℕ) : ℚ) * (2 : ℚ) ^ (-52 : ℤ) := rfl
    rw [h]
    norm_num
  have e3 : cellValue (subItemCells badSubItemRows 1) 1 = 0 := rfl
  refine ⟨rfl, by decide, by decide, hshape, hno, hlast, hcol, st', hv,
    (hall "B").2.1 hno, ?_, ?_, ?_, ?_⟩
  · rw [h1]
    simp [yearly, Acc.empty]
  · obtain ⟨name, hn, hl⟩ := h2
    have : (dailyNames badDailyRows)[1]? = some "站A" := rfl
    rw [this] at hn
    cases hn
    exact hl
  · rw [h4, e1]
    simp [yearly, Acc.empty]
  · rw [h5, e3]
    simp [yearly, Acc.empty]

/-- C10 (the code at the failing input): the row-count guards hold (5 rows in each
sheet), yet `processSubItemSheet` panics on a sub-item sheet whose last row is one
cell short, `processDailySheet` panics on a daily sheet whose third row is empty,
and the walk over such a file crashes. -/
theorem row_guards_do_not_prevent_panic :
    (dailyRows shortRowFile).map List.length = some 5 ∧
    (subItemRows shortRowFile).map List.length = some 5 ∧
    (processDailySheet shortRowFile).isOk = true ∧
    processSubItemSheet shortRowFile = .panic ∧
    walk MapIter.stored [shortRowFile] Acc.empty = none ∧
    (dailyRows emptyRowFile).map List.length = some 5 ∧
    processDailySheet emptyRowFile = .panic := by
  exact ⟨by decide, by decide, by decide, by decide, rfl, by decide, by decide⟩

end Income
